import Mathlib

/-!
# Tunnel maze game: maze generation and simulation core

A shallow embedding of `src/script.js`.

* JavaScript numbers are exact rationals (`ℚ`); cell indices are `Int`.
* `Math.random()` is a stream of draws read through a cursor.  Every value of
  the stream is reduced to `[0, 1)` by taking its fractional part, so every
  stream is a legal sequence of draws.
* A result of `none` is a run that does not produce a value: a `TypeError`
  (a property read on `undefined`, i.e. a maze lookup outside the arrays) or
  an exhausted bound on the recursion depth or on the rounds of a sampling loop.
* A frame or a key listener that a `TypeError` ends early returns the state it
  leaves behind together with the flag `false`; the game goes on from that state.
* Each generator reads its own stream of draws; the frame reads one stream per
  frame.  Draws spent on particles are left out with the particles.
* `Math.sqrt(d) < r` is compared through squares, `Math.cos` and `Math.sin` are
  parameters of the frame update (`Trig`).
* Canvas drawing, DOM updates, particles and wall-clock timers are
  presentational and are not part of the state.
-/

namespace Tunnel

/-! ## Random draws -/

/-- Stream of raw draws behind `Math.random()`. -/
abbrev Rng := Nat → ℚ

/-- The value of the `i`-th call of `Math.random()`: a number in `[0, 1)`. -/
def random (rng : Rng) (i : Nat) : ℚ := Int.fract (rng i)

/-- The value of `Math.floor(Math.random() * k)` for the `i`-th draw. -/
def randomIndex (rng : Rng) (i : Nat) (k : Nat) : Int := ⌊random rng i * (k : ℚ)⌋

/-! ## Maze cells -/

/-- One maze cell: four wall flags and the generation mark. -/
structure Cell where
  north : Bool
  south : Bool
  east : Bool
  west : Bool
  visited : Bool
deriving DecidableEq, Repr

/-- Names of the four wall properties of a cell. -/
inductive Wall where
  | north
  | south
  | east
  | west
deriving DecidableEq, Repr

/-- The property read `cell[wall]`. -/
def Cell.wall (c : Cell) : Wall → Bool
  | Wall.north => c.north
  | Wall.south => c.south
  | Wall.east => c.east
  | Wall.west => c.west

/-- The assignment `cell[wall] = false`. -/
def Cell.clearWall (c : Cell) : Wall → Cell
  | Wall.north => { c with north := false }
  | Wall.south => { c with south := false }
  | Wall.east => { c with east := false }
  | Wall.west => { c with west := false }

/-- The assignment `cell.visited = true`. -/
def Cell.markVisited (c : Cell) : Cell := { c with visited := true }

/-- The cell literal written by the initialisation loops of `generateMaze`. -/
def wallCell : Cell :=
  { north := true, south := true, east := true, west := true, visited := false }

/-- The global `maze`: rows (index `y`) of cells (index `x`). -/
abbrev Maze := List (List Cell)

/-- The read `maze[y][x]`; `none` when it is `undefined` (or when `maze[y]` is). -/
def Maze.cell? (m : Maze) (x y : Int) : Option Cell :=
  if 0 ≤ x ∧ 0 ≤ y then (m[y.toNat]?).bind (fun row => row[x.toNat]?) else none

/-- A write to a property of `maze[y][x]`; `none` when the cell is `undefined`. -/
def Maze.update (m : Maze) (x y : Int) (f : Cell → Cell) : Option Maze :=
  match m.cell? x y with
  | none => none
  | some c => some (m.set y.toNat ((m.getD y.toNat []).set x.toNat (f c)))

/-! ## Recursive backtracking -/

/-- An entry of the `directions` array of `carvePassages`. -/
structure Direction where
  dx : Int
  dy : Int
  wall : Wall
  opposite : Wall
deriving DecidableEq, Repr

/-- The `directions` array literal of `carvePassages`. -/
def directions : List Direction :=
  [ { dx := 0, dy := -1, wall := Wall.north, opposite := Wall.south },
    { dx := 1, dy := 0, wall := Wall.east, opposite := Wall.west },
    { dx := 0, dy := 1, wall := Wall.south, opposite := Wall.north },
    { dx := -1, dy := 0, wall := Wall.west, opposite := Wall.east } ]

/-- The destructuring swap `[l[i], l[j]] = [l[j], l[i]]`. -/
def swap (l : List Direction) (i j : Nat) : List Direction :=
  match l[i]?, l[j]? with
  | some a, some b => (l.set i b).set j a
  | _, _ => l

/-- The shuffle loop `for (i = ..; i > 0; i--)`, entered with loop index `i`
and draw cursor `c`; returns the list and the cursor after the loop. -/
def shuffleLoop (rng : Rng) : Nat → Nat → List Direction → List Direction × Nat
  | 0, c, l => (l, c)
  | i + 1, c, l => shuffleLoop rng i (c + 1) (swap l (i + 1) (randomIndex rng c (i + 2)).toNat)

/-- The Fisher-Yates shuffle of `carvePassages`, starting at `i = length - 1`. -/
def shuffle (rng : Rng) (c : Nat) (l : List Direction) : List Direction × Nat :=
  shuffleLoop rng (l.length - 1) c l

/-- The loop guard
`newX >= 0 && newX < width && newY >= 0 && newY < height && !maze[newY][newX].visited`. -/
def canCarve (width height : Nat) (m : Maze) (newX newY : Int) : Option Bool :=
  if 0 ≤ newX ∧ newX < width ∧ 0 ≤ newY ∧ newY < height then
    (m.cell? newX newY).map (fun c => !c.visited)
  else some false

/-- The loop `for (const dir of directions)` of `carvePassages(x, y)`, with the
recursive call abstracted as `recurse`.  The state is the maze and the draw cursor. -/
def visitDirections (width height : Nat)
    (recurse : Int → Int → Maze × Nat → Option (Maze × Nat)) (x y : Int) :
    List Direction → Maze × Nat → Option (Maze × Nat)
  | [], st => some st
  | dir :: rest, (m, c) =>
    let newX := x + dir.dx
    let newY := y + dir.dy
    match canCarve width height m newX newY with
    | none => none
    | some false => visitDirections width height recurse x y rest (m, c)
    | some true =>
      match m.update x y (fun cell => cell.clearWall dir.wall) with
      | none => none
      | some m1 =>
        match m1.update newX newY (fun cell => cell.clearWall dir.opposite) with
        | none => none
        | some m2 =>
          match recurse newX newY (m2, c) with
          | none => none
          | some st => visitDirections width height recurse x y rest st

/-- The inner function `carvePassages(x, y)`.  The first argument bounds the
recursion depth; `none` is a `TypeError` or an exhausted depth bound. -/
def carvePassages (width height : Nat) (rng : Rng) :
    Nat → Int → Int → Maze × Nat → Option (Maze × Nat)
  | 0, _, _, _ => none
  | fuel + 1, x, y, (m, c) =>
    match m.update x y Cell.markVisited with
    | none => none
    | some m1 =>
      let sh := shuffle rng c directions
      visitDirections width height (carvePassages width height rng fuel) x y sh.1 (m1, sh.2)

/-- The grid built by the two initialisation loops of `generateMaze`. -/
def initialGrid (width height : Nat) : Maze :=
  List.replicate height (List.replicate width wallCell)

/-- The function `generateMaze(width, height)`; the draws are read from `rng` starting at
cursor `0`.  The rows `0 .. height - 1` of the global `maze` are rebuilt by the
initialisation loops, and `mazeSize` never shrinks, so the result is the maze as a whole.
The recursion depth never exceeds the number of cells, which is the depth bound used. -/
def generateMaze (width height : Nat) (rng : Rng) : Option Maze :=
  let startX := randomIndex rng 0 width
  let startY := randomIndex rng 1 height
  (carvePassages width height rng (width * height) startX startY
    (initialGrid width height, 2)).map Prod.fst

/-! ## Specification vocabulary for the maze -/

/-- The cell `(x, y)` lies in the grid of `w` columns and `h` rows. -/
def InGrid (w h : Nat) (x y : Int) : Prop := 0 ≤ x ∧ x < w ∧ 0 ≤ y ∧ y < h

instance (w h : Nat) (x y : Int) : Decidable (InGrid w h x y) := by
  unfold InGrid; infer_instance

/-- The cell `maze[y][x]`, with the all-walls cell standing in where the read is
`undefined`. -/
def Maze.cellD (m : Maze) (x y : Int) : Cell := (m.cell? x y).getD wallCell

/-- The reads `maze[y][x]` that are defined are exactly those of the `w` by `h` grid. -/
def Maze.HasSize (m : Maze) (w h : Nat) : Prop :=
  ∀ x y : Int, (m.cell? x y).isSome = true ↔ InGrid w h x y

/-- The cell `(x, y)` carries the generation mark. -/
def Maze.Visited (m : Maze) (x y : Int) : Prop := (m.cellD x y).visited = true

instance (m : Maze) (x y : Int) : Decidable (m.Visited x y) := by
  unfold Maze.Visited; infer_instance

/-- The wall flag `wl` of the cell `(x, y)` is false: that wall has been removed. -/
def Maze.Open (m : Maze) (x y : Int) (wl : Wall) : Prop := (m.cellD x y).wall wl = false

instance (m : Maze) (x y : Int) (wl : Wall) : Decidable (m.Open x y wl) := by
  unfold Maze.Open; infer_instance

/-- A step between two cells of the grid that are neighbours along one of the four
directions and have no wall between them: the flag is removed on both sides. -/
def Passage (w h : Nat) (m : Maze) (a b : Int × Int) : Prop :=
  InGrid w h a.1 a.2 ∧ InGrid w h b.1 b.2 ∧
    ∃ d ∈ directions, b = (a.1 + d.dx, a.2 + d.dy) ∧
      m.Open a.1 a.2 d.wall ∧ m.Open b.1 b.2 d.opposite

/-- The cell `b` is reachable from the cell `a` by a sequence of passages. -/
def Connected (w h : Nat) (m : Maze) (a b : Int × Int) : Prop :=
  Relation.ReflTransGen (Passage w h m) a b

/-- The cells of the grid. -/
def grid (w h : Nat) : Finset (Int × Int) := Finset.Ico (0 : Int) w ×ˢ Finset.Ico (0 : Int) h

/-- The number of grid cells that carry the generation mark. -/
def visitedCount (w h : Nat) (m : Maze) : Nat :=
  ((grid w h).filter (fun p => (m.cellD p.1 p.2).visited = true)).card

/-- The number of grid cells whose neighbour at offset `(dx, dy)` is in the grid and whose
wall flag `wl` is false. -/
def passageCount (w h : Nat) (m : Maze) (wl : Wall) (dx dy : Int) : Nat :=
  ((grid w h).filter
    (fun p => InGrid w h (p.1 + dx) (p.2 + dy) ∧ (m.cellD p.1 p.2).wall wl = false)).card

/-- The number of pairs of neighbouring cells with the wall between them removed: each
horizontal pair is counted at the east flag of its left cell, each vertical pair at the
south flag of its upper cell. -/
def removedWalls (w h : Nat) (m : Maze) : Nat :=
  passageCount w h m Wall.east 1 0 + passageCount w h m Wall.south 0 1

/-- The invariant of the backtracker between two steps, with `cur` the cell whose call of
`carvePassages` has been entered but has not yet marked it. -/
structure Inv (w h : Nat) (m : Maze) (cur : Option (Int × Int)) : Prop where
  size : m.HasSize w h
  sym : ∀ x y, InGrid w h x y → ∀ d ∈ directions, InGrid w h (x + d.dx) (y + d.dy) →
    (m.Open x y d.wall ↔ m.Open (x + d.dx) (y + d.dy) d.opposite)
  border : ∀ x y, InGrid w h x y → ∀ d ∈ directions, ¬ InGrid w h (x + d.dx) (y + d.dy) →
    ¬ m.Open x y d.wall
  openVisited : ∀ x y, InGrid w h x y → ∀ wl, m.Open x y wl → m.Visited x y ∨ cur = some (x, y)

/-- The maze `m1` is a later stage of `m`: marks and removed walls are kept. -/
structure Ext (m m1 : Maze) : Prop where
  visited : ∀ x y, m.Visited x y → m1.Visited x y
  opened : ∀ x y wl, m.Open x y wl → m1.Open x y wl

/-- The cells marked between `m` and `m1` are connected to `(x, y)` in `m1`, and all their
grid neighbours are marked in `m1`. -/
structure Grown (w h : Nat) (m m1 : Maze) (x y : Int) : Prop where
  reach : ∀ px py, InGrid w h px py → m1.Visited px py → ¬ m.Visited px py →
    Connected w h m1 (x, y) (px, py)
  closed : ∀ px py, InGrid w h px py → m1.Visited px py → ¬ m.Visited px py →
    ∀ d ∈ directions, InGrid w h (px + d.dx) (py + d.dy) → m1.Visited (px + d.dx) (py + d.dy)

/-- What a call `carvePassages(x, y)` on the maze `m` establishes of its result `m1`. -/
structure CarveSpec (w h : Nat) (m : Maze) (x y : Int) (m1 : Maze) : Prop where
  inv : Inv w h m1 none
  ext : Ext m m1
  grown : Grown w h m m1 x y
  root : m1.Visited x y
  count : removedWalls w h m1 + visitedCount w h m + 1 = removedWalls w h m + visitedCount w h m1

/-- What the loop over the directions `ds` in `carvePassages(x, y)` establishes. -/
structure LoopSpec (w h : Nat) (m : Maze) (x y : Int) (ds : List Direction) (m1 : Maze) :
    Prop where
  inv : Inv w h m1 none
  ext : Ext m m1
  grown : Grown w h m m1 x y
  done : ∀ d ∈ ds, InGrid w h (x + d.dx) (y + d.dy) → m1.Visited (x + d.dx) (y + d.dy)
  count : removedWalls w h m1 + visitedCount w h m = removedWalls w h m + visitedCount w h m1

/-! ## Game state -/

/-- The functions `Math.cos` and `Math.sin` of the JavaScript runtime.  An enemy heading is
kept in turns, the draw `Math.random()` before it is scaled by `Math.PI * 2`, so that
`cos t` stands for `Math.cos(t * Math.PI * 2)` and `sin t` for `Math.sin(t * Math.PI * 2)`. -/
structure Trig where
  cos : ℚ → ℚ
  sin : ℚ → ℚ

/-- The `type` tag of a collectible. -/
inductive ItemType where
  | key
  | treasure
deriving DecidableEq, Repr

/-- The `type` tag of a power-up; also the value of `activePowerUp`. -/
inductive PowerType where
  | speed
  | ghost
  | freeze
deriving DecidableEq, Repr

/-- The global `player`. -/
structure Player where
  x : ℚ
  y : ℚ
  size : ℚ

/-- The global `exit`. -/
structure ExitPos where
  x : ℚ
  y : ℚ

/-- An element of `enemies` (the colour is presentational). -/
structure Enemy where
  x : ℚ
  y : ℚ
  size : ℚ
  speed : ℚ
  direction : ℚ

/-- An element of `collectibles`. -/
structure Collectible where
  x : ℚ
  y : ℚ
  type : ItemType
  collected : Bool

/-- An element of `powerUps`. -/
structure PowerUp where
  x : ℚ
  y : ℚ
  type : PowerType
  collected : Bool

/-- The global `playerAnimation`. -/
structure PlayerAnimation where
  x : ℚ
  y : ℚ
  targetX : ℚ
  targetY : ℚ
  moving : Bool
  progress : ℚ

/-- The global `camera`. -/
structure Camera where
  x : ℚ
  y : ℚ
  targetX : ℚ
  targetY : ℚ

/-- The global `keysPressed`. -/
structure KeysPressed where
  ArrowUp : Bool
  ArrowDown : Bool
  ArrowLeft : Bool
  ArrowRight : Bool

/-- The four keys that `keysPressed` owns. -/
inductive Key where
  | ArrowUp
  | ArrowDown
  | ArrowLeft
  | ArrowRight
deriving DecidableEq, Repr

/-- The mutable globals of the script that the simulation reads or writes. -/
structure GameState where
  maze : Maze
  mazeSize : Nat
  player : Player
  exit : ExitPos
  score : Int
  gameOver : Bool
  visitedCells : Finset (Int × Int)
  keys : Nat
  treasures : Nat
  currentLevel : Nat
  enemies : List Enemy
  collectibles : List Collectible
  powerUps : List PowerUp
  activePowerUp : Option PowerType
  powerUpTimer : ℚ
  playerAnimation : PlayerAnimation
  camera : Camera
  keysPressed : KeysPressed

/-- The constant `cellSize`. -/
def cellSize : ℚ := 35

/-- The comparison `Math.sqrt(d2) < r` in exact arithmetic, for a sum of squares `d2`. -/
def sqrtLt (d2 r : ℚ) : Bool := decide (0 < r ∧ d2 < r * r)

/-! ## Movement validation -/

/-- The function `isValidMove(fromX, fromY, toX, toY)`, reading the globals `maze` and
`mazeSize`; `none` is a `TypeError` of a lookup `maze[fromCellY][fromCellX]`. -/
def isValidMove (maze : Maze) (mazeSize : Nat) (fromX fromY toX toY : ℚ) : Option Bool :=
  if toX < 1 / 2 ∨ toX ≥ mazeSize + 1 / 2 ∨ toY < 1 / 2 ∨ toY ≥ mazeSize + 1 / 2 then
    some false
  else
    let fromCellX := ⌊fromX⌋
    let fromCellY := ⌊fromY⌋
    let toCellX := ⌊toX⌋
    let toCellY := ⌊toY⌋
    if fromCellY = toCellY then
      if toCellX > fromCellX then
        (maze.cell? fromCellX fromCellY).map (fun c => !c.east)
      else if toCellX < fromCellX then
        (maze.cell? fromCellX fromCellY).map (fun c => !c.west)
      else some false
    else if fromCellX = toCellX then
      if toCellY > fromCellY then
        (maze.cell? fromCellX fromCellY).map (fun c => !c.south)
      else if toCellY < fromCellY then
        (maze.cell? fromCellX fromCellY).map (fun c => !c.north)
      else some false
    else some false

/-- The function `isValidEnemyMove(fromX, fromY, toX, toY)`; `none` is a `TypeError` of a
lookup `maze[fromCellY][fromCellX]`. -/
def isValidEnemyMove (maze : Maze) (mazeSize : Nat) (fromX fromY toX toY : ℚ) : Option Bool :=
  if toX < 1 / 2 ∨ toX ≥ mazeSize + 1 / 2 ∨ toY < 1 / 2 ∨ toY ≥ mazeSize + 1 / 2 then
    some false
  else
    let fromCellX := ⌊fromX⌋
    let fromCellY := ⌊fromY⌋
    let toCellX := ⌊toX⌋
    let toCellY := ⌊toY⌋
    if fromCellX ≠ toCellX ∨ fromCellY ≠ toCellY then
      if fromCellY = toCellY then
        if toCellX > fromCellX then
          (maze.cell? fromCellX fromCellY).map (fun c => !c.east)
        else if toCellX < fromCellX then
          (maze.cell? fromCellX fromCellY).map (fun c => !c.west)
        else some true
      else if fromCellX = toCellX then
        if toCellY > fromCellY then
          (maze.cell? fromCellX fromCellY).map (fun c => !c.south)
        else if toCellY < fromCellY then
          (maze.cell? fromCellX fromCellY).map (fun c => !c.north)
        else some true
      else some true
    else some true

/-! ## Pickups -/

/-- The body of the `if` in the loop of `checkCollectibles`, for one item. -/
def collect (s : GameState) (item : Collectible) : GameState :=
  match item.type with
  | ItemType.key => { s with keys := s.keys + 1, score := s.score + 50 }
  | ItemType.treasure => { s with treasures := s.treasures + 1, score := s.score + 25 }

/-- The loop of `checkCollectibles` over the remaining items; returns the counters in the
state and the items as left by the loop. -/
def checkCollectiblesLoop (s : GameState) : List Collectible → GameState × List Collectible
  | [] => (s, [])
  | item :: rest =>
    if item.collected = false ∧ ⌊item.x⌋ = ⌊s.player.x⌋ ∧ ⌊item.y⌋ = ⌊s.player.y⌋ then
      let r := checkCollectiblesLoop (collect s item) rest
      (r.1, { item with collected := true } :: r.2)
    else
      let r := checkCollectiblesLoop s rest
      (r.1, item :: r.2)

/-- The function `checkCollectibles()`. -/
def checkCollectibles (s : GameState) : GameState :=
  let r := checkCollectiblesLoop s s.collectibles
  { r.1 with collectibles := r.2 }

/-- The loop of `checkPowerUps` over the remaining power-ups. -/
def checkPowerUpsLoop (s : GameState) : List PowerUp → GameState × List PowerUp
  | [] => (s, [])
  | powerUp :: rest =>
    if powerUp.collected = false ∧ ⌊powerUp.x⌋ = ⌊s.player.x⌋ ∧
        ⌊powerUp.y⌋ = ⌊s.player.y⌋ then
      let r := checkPowerUpsLoop
        { s with activePowerUp := some powerUp.type, powerUpTimer := 10 } rest
      (r.1, { powerUp with collected := true } :: r.2)
    else
      let r := checkPowerUpsLoop s rest
      (r.1, powerUp :: r.2)

/-- The function `checkPowerUps()`. -/
def checkPowerUps (s : GameState) : GameState :=
  let r := checkPowerUpsLoop s s.powerUps
  { r.1 with powerUps := r.2 }

/-! ## Player moves -/

/-- The target computed by `tryMovePlayer` from the held keys. -/
def moveTarget (s : GameState) : ℚ × ℚ :=
  let newX := s.player.x
  let newY := s.player.y
  let newY := if s.keysPressed.ArrowUp then newY - 1 else newY
  let newY := if s.keysPressed.ArrowDown then newY + 1 else newY
  let newX := if s.keysPressed.ArrowLeft then newX - 1 else newX
  let newX := if s.keysPressed.ArrowRight then newX + 1 else newX
  (newX, newY)

/-- The statements of `tryMovePlayer` that run once `isValidMove` has accepted the target,
up to the start of the animation. -/
def commitMove (s : GameState) (newX newY : ℚ) : GameState :=
  let s := { s with player := { s.player with x := newX, y := newY } }
  let s := { s with visitedCells := insert (⌊s.player.x⌋, ⌊s.player.y⌋) s.visitedCells }
  { s with playerAnimation :=
      { s.playerAnimation with
        targetX := s.player.x, targetY := s.player.y, moving := true, progress := 0 } }

/-- The function `tryMovePlayer()`.  The result is the state it leaves behind and whether it
ran to completion: `false` when a `TypeError` of `isValidMove` ended it. -/
def tryMovePlayer (s : GameState) : GameState × Bool :=
  if s.playerAnimation.moving = true ∨ s.gameOver = true then (s, true)
  else
    let t := moveTarget s
    match isValidMove s.maze s.mazeSize s.player.x s.player.y t.1 t.2 with
    | none => (s, false)
    | some false => (s, true)
    | some true => (checkPowerUps (checkCollectibles (commitMove s t.1 t.2)), true)

/-- The assignment `keysPressed[key] = value`. -/
def KeysPressed.set (k : KeysPressed) (key : Key) (value : Bool) : KeysPressed :=
  match key with
  | Key.ArrowUp => { k with ArrowUp := value }
  | Key.ArrowDown => { k with ArrowDown := value }
  | Key.ArrowLeft => { k with ArrowLeft := value }
  | Key.ArrowRight => { k with ArrowRight := value }

/-- The `keydown` listener for one of the four arrow keys, with the completion flag of
`tryMovePlayer`. -/
def keyDown (key : Key) (s : GameState) : GameState × Bool :=
  if s.playerAnimation.moving = false then
    tryMovePlayer { s with keysPressed := s.keysPressed.set key true }
  else (s, true)

/-- The `keyup` listener for one of the four arrow keys. -/
def keyUp (key : Key) (s : GameState) : GameState :=
  { s with keysPressed := s.keysPressed.set key false }

/-! ## The frame update -/

/-- The function `easeOutCubic(t)`. -/
def easeOutCubic (t : ℚ) : ℚ := 1 - (1 - t) ^ 3

/-- The function `updatePlayerAnimation()`. -/
def updatePlayerAnimation (s : GameState) : GameState :=
  let s :=
    if s.playerAnimation.moving = true then
      let a := s.playerAnimation
      let a := { a with
        progress := a.progress + (if s.activePowerUp = some PowerType.speed then 4 / 25 else 2 / 25) }
      let a := if a.progress ≥ 1 then { a with progress := 1, moving := false } else a
      let easeProgress := easeOutCubic a.progress
      let a := { a with x := a.x + (a.targetX - a.x) * easeProgress }
      let a := { a with y := a.y + (a.targetY - a.y) * easeProgress }
      { s with
        playerAnimation := a,
        camera := { s.camera with
          targetX := (a.x - 1 / 2) * cellSize, targetY := (a.y - 1 / 2) * cellSize } }
    else s
  { s with camera := { s.camera with
      x := s.camera.x + (s.camera.targetX - s.camera.x) * (1 / 10),
      y := s.camera.y + (s.camera.targetY - s.camera.y) * (1 / 10) } }

/-- The body of the catch branch of `updateEnemies`. -/
def catchPlayer (s : GameState) : GameState :=
  let s := { s with player := { s.player with x := 1 / 2, y := 1 / 2 } }
  let s := { s with playerAnimation := { s.playerAnimation with
      x := s.player.x, y := s.player.y, targetX := s.player.x, targetY := s.player.y } }
  let s := { s with camera := { s.camera with
      targetX := (s.player.x - 1 / 2) * cellSize, targetY := (s.player.y - 1 / 2) * cellSize } }
  { s with score := max 0 (s.score - 10) }

/-- The test `distance < (player.size + enemy.size) / cellSize` of `updateEnemies`, for a
player at `(px, py)`. -/
def touches (px py playerSize : ℚ) (enemy : Enemy) : Bool :=
  sqrtLt ((px - enemy.x) ^ 2 + (py - enemy.y) ^ 2) ((playerSize + enemy.size) / cellSize)

/-- The heading change `if (Math.random() < 0.02) enemy.direction = ...` at the head of the
loop body of `updateEnemies`.  Returns the enemy and the draw cursor. -/
def turnEnemy (rng : Rng) (c : Nat) (enemy : Enemy) : Enemy × Nat :=
  if random rng c < 1 / 50 then ({ enemy with direction := random rng (c + 1) }, c + 2)
  else (enemy, c + 1)

/-- The move of `enemy` in the loop body of `updateEnemies`: the candidate position, the
call of `isValidEnemyMove` and its two branches; `none` is a `TypeError` of the validator. -/
def stepEnemy (trig : Trig) (rng : Rng) (maze : Maze) (mazeSize : Nat) (c : Nat)
    (enemy : Enemy) : Option (Enemy × Nat) :=
  let newX := enemy.x + trig.cos enemy.direction * enemy.speed
  let newY := enemy.y + trig.sin enemy.direction * enemy.speed
  match isValidEnemyMove maze mazeSize enemy.x enemy.y newX newY with
  | none => none
  | some true => some ({ enemy with x := newX, y := newY }, c)
  | some false => some ({ enemy with direction := random rng c }, c + 1)

/-- The loop of `updateEnemies` over the remaining enemies.  Returns the state, the enemies
as the loop leaves them, and whether the loop ran to completion (`false`: a `TypeError`
ended it at some enemy, the later ones are untouched). -/
def updateEnemiesLoop (trig : Trig) (rng : Rng) :
    List Enemy → GameState × Nat → GameState × List Enemy × Bool
  | [], (s, _) => (s, [], true)
  | enemy :: rest, (s, c) =>
    let t := turnEnemy rng c enemy
    match stepEnemy trig rng s.maze s.mazeSize t.2 t.1 with
    | none => (s, t.1 :: rest, false)
    | some (enemy, c) =>
      let s :=
        if touches s.player.x s.player.y s.player.size enemy = true ∧ s.gameOver = false then
          catchPlayer s
        else s
      let r := updateEnemiesLoop trig rng rest (s, c)
      (r.1, enemy :: r.2.1, r.2.2)

/-- The function `updateEnemies()`, with draws read from `rng` starting at cursor `0`, and
its completion flag. -/
def updateEnemies (trig : Trig) (rng : Rng) (s : GameState) : GameState × Bool :=
  if s.activePowerUp = some PowerType.freeze then (s, true)
  else
    let r := updateEnemiesLoop trig rng s.enemies (s, 0)
    ({ r.1 with enemies := r.2.1 }, r.2.2)

/-- The function `updatePowerUp()`. -/
def updatePowerUp (s : GameState) : GameState :=
  if s.activePowerUp.isSome = true ∧ s.powerUpTimer > 0 then
    let s := { s with powerUpTimer := s.powerUpTimer - 1 / 60 }
    if s.powerUpTimer ≤ 0 then { s with activePowerUp := none } else s
  else s

/-- The function `checkExit()`. -/
def checkExit (s : GameState) : Bool :=
  let hasAllKeys := decide (s.keys = min s.currentLevel 3)
  sqrtLt ((s.player.x - s.exit.x) ^ 2 + (s.player.y - s.exit.y) ^ 2) (1 / 2) && hasAllKeys

/-- The state changes of the win branch of `animate`. -/
def win (s : GameState) : GameState :=
  { s with gameOver := true, score := s.score + 100 }

/-- The function `animate()`: one frame, and whether it ran to completion.  A `TypeError`
in `updateEnemies` ends the frame there; the next frame is already requested. -/
def animate (trig : Trig) (rng : Rng) (s : GameState) : GameState × Bool :=
  let r := updateEnemies trig rng (updatePlayerAnimation s)
  if r.2 = false then (r.1, false)
  else
    let s := updatePowerUp r.1
    if checkExit s = true ∧ s.gameOver = false then (win s, true) else (s, true)

/-! ## Entity placement -/

/-- The `do ... while` loop of `generateEnemies`; the first argument bounds the number of
rounds.  Returns the accepted cell and the draw cursor. -/
def sampleEnemyCell (rng : Rng) (mazeSize : Nat) (px py : ℚ) :
    Nat → Nat → Option (Int × Int × Nat)
  | 0, _ => none
  | fuel + 1, c =>
    let x := randomIndex rng c mazeSize
    let y := randomIndex rng (c + 1) mazeSize
    if |(x : ℚ) - px| < 3 ∧ |(y : ℚ) - py| < 3 then sampleEnemyCell rng mazeSize px py fuel (c + 2)
    else some (x, y, c + 2)

/-- The `for` loop of `generateEnemies` with `n` enemies still to place. -/
def generateEnemiesLoop (rng : Rng) (mazeSize : Nat) (px py : ℚ) (fuel : Nat) :
    Nat → Nat → Option (List Enemy)
  | 0, _ => some []
  | n + 1, c =>
    match sampleEnemyCell rng mazeSize px py fuel c with
    | none => none
    | some (x, y, c) =>
      let enemy : Enemy :=
        { x := x + 1 / 2, y := y + 1 / 2, size := 12, speed := 3 / 100,
          direction := random rng c }
      match generateEnemiesLoop rng mazeSize px py fuel n (c + 1) with
      | none => none
      | some rest => some (enemy :: rest)

/-- The function `generateEnemies()`; `none` when a sampling loop exceeds `fuel` rounds. -/
def generateEnemies (rng : Rng) (fuel : Nat) (s : GameState) : Option GameState :=
  let enemyCount := s.currentLevel / 2 + 1
  (generateEnemiesLoop rng s.mazeSize s.player.x s.player.y fuel enemyCount 0).map
    (fun es => { s with enemies := es })

/-- The `do ... while` loop shared by the three placement loops of `generateCollectibles`. -/
def sampleItemCell (rng : Rng) (mazeSize : Nat) (px py ex ey : ℚ) :
    Nat → Nat → Option (Int × Int × Nat)
  | 0, _ => none
  | fuel + 1, c =>
    let x := randomIndex rng c mazeSize
    let y := randomIndex rng (c + 1) mazeSize
    if (x = ⌊px⌋ ∧ y = ⌊py⌋) ∨ (x = ⌊ex⌋ ∧ y = ⌊ey⌋) then
      sampleItemCell rng mazeSize px py ex ey fuel (c + 2)
    else some (x, y, c + 2)

/-- A `for` loop of `generateCollectibles` pushing `n` items of one type. -/
def generateItemsLoop (rng : Rng) (mazeSize : Nat) (px py ex ey : ℚ) (fuel : Nat)
    (type : ItemType) : Nat → Nat → Option (List Collectible × Nat)
  | 0, c => some ([], c)
  | n + 1, c =>
    match sampleItemCell rng mazeSize px py ex ey fuel c with
    | none => none
    | some (x, y, c) =>
      let item : Collectible :=
        { x := x + 1 / 2, y := y + 1 / 2, type := type, collected := false }
      match generateItemsLoop rng mazeSize px py ex ey fuel type n c with
      | none => none
      | some (rest, c) => some (item :: rest, c)

/-- The array literal `types` of `generateCollectibles`, indexed. -/
def powerTypeAt (i : Int) : PowerType :=
  if i = 0 then PowerType.speed else if i = 1 then PowerType.ghost else PowerType.freeze

/-- The `for` loop of `generateCollectibles` pushing `n` power-ups. -/
def generatePowerUpsLoop (rng : Rng) (mazeSize : Nat) (px py ex ey : ℚ) (fuel : Nat) :
    Nat → Nat → Option (List PowerUp × Nat)
  | 0, c => some ([], c)
  | n + 1, c =>
    match sampleItemCell rng mazeSize px py ex ey fuel c with
    | none => none
    | some (x, y, c) =>
      let powerUp : PowerUp :=
        { x := x + 1 / 2, y := y + 1 / 2, type := powerTypeAt (randomIndex rng c 3),
          collected := false }
      match generatePowerUpsLoop rng mazeSize px py ex ey fuel n (c + 1) with
      | none => none
      | some (rest, c) => some (powerUp :: rest, c)

/-- The function `generateCollectibles()`; `none` when a sampling loop exceeds `fuel`
rounds. -/
def generateCollectibles (rng : Rng) (fuel : Nat) (s : GameState) : Option GameState :=
  let sample := generateItemsLoop rng s.mazeSize s.player.x s.player.y s.exit.x s.exit.y fuel
  match sample ItemType.key (min s.currentLevel 3) 0 with
  | none => none
  | some (keyItems, c) =>
    match sample ItemType.treasure (min (s.currentLevel * 2) 10) c with
    | none => none
    | some (treasureItems, c) =>
      let powerUpCount := if s.currentLevel > 1 then min (s.currentLevel - 1) 2 else 0
      match generatePowerUpsLoop rng s.mazeSize s.player.x s.player.y s.exit.x s.exit.y fuel
          powerUpCount c with
      | none => none
      | some (ps, _) =>
        some { s with collectibles := keyItems ++ treasureItems, powerUps := ps }

/-! ## Levels -/

/-- The globals as the script declares them, before `init()` runs. -/
def initialState : GameState :=
  { maze := [], mazeSize := 15, player := { x := 1 / 2, y := 1 / 2, size := 14 },
    exit := { x := 0, y := 0 }, score := 0, gameOver := false, visitedCells := ∅,
    keys := 0, treasures := 0, currentLevel := 1, enemies := [], collectibles := [],
    powerUps := [], activePowerUp := none, powerUpTimer := 0,
    playerAnimation :=
      { x := 0, y := 0, targetX := 0, targetY := 0, moving := false, progress := 0 },
    camera := { x := 0, y := 0, targetX := 0, targetY := 0 },
    keysPressed :=
      { ArrowUp := false, ArrowDown := false, ArrowLeft := false, ArrowRight := false } }

/-- The player, animation and camera reset shared by `init` and `nextLevel`. -/
def resetPlayer (s : GameState) : GameState :=
  let s := { s with player := { s.player with x := 1 / 2, y := 1 / 2 } }
  let s := { s with playerAnimation := { s.playerAnimation with
      x := s.player.x, y := s.player.y, targetX := s.player.x, targetY := s.player.y } }
  let cx := (s.player.x - 1 / 2) * cellSize
  let cy := (s.player.y - 1 / 2) * cellSize
  { s with camera := { x := cx, y := cy, targetX := cx, targetY := cy } }

/-- The assignment of `exit` to the centre cell. -/
def placeExit (s : GameState) : GameState :=
  { s with exit := { x := ((s.mazeSize / 2 : Nat) : ℚ) + 1 / 2,
                     y := ((s.mazeSize / 2 : Nat) : ℚ) + 1 / 2 } }

/-- The function `init()`.  The three generators read their draws from separate streams:
`rm` for the maze, `re` for the enemies, `rc` for the collectibles. -/
def init (rm re rc : Rng) (fuel : Nat) : Option GameState :=
  let s := initialState
  match generateMaze s.mazeSize s.mazeSize rm with
  | none => none
  | some maze =>
    let s := { s with maze := maze }
    let s := resetPlayer s
    let s := placeExit s
    let s := { s with visitedCells := insert (⌊s.player.x⌋, ⌊s.player.y⌋) s.visitedCells }
    match generateEnemies re fuel s with
    | none => none
    | some s => generateCollectibles rc fuel s

/-- The function `nextLevel()`, with the same three draw streams as `init`. -/
def nextLevel (rm re rc : Rng) (fuel : Nat) (s : GameState) : Option GameState :=
  let s := { s with currentLevel := s.currentLevel + 1 }
  let s := { s with mazeSize := min (15 + s.currentLevel) 25 }
  let s := resetPlayer s
  let s := { s with visitedCells := {(⌊s.player.x⌋, ⌊s.player.y⌋)} }
  let s := { s with keys := 0, treasures := 0, activePowerUp := none }
  match generateMaze s.mazeSize s.mazeSize rm with
  | none => none
  | some maze =>
    let s := { s with maze := maze }
    let s := placeExit s
    match generateEnemies re fuel s with
    | none => none
    | some s =>
      match generateCollectibles rc fuel s with
      | none => none
      | some s => some { s with gameOver := false }

/-- One event of the running game: a frame, a key event, or the level change that the win
branch of `animate` schedules (pending exactly while `gameOver` is set).  A frame or a
listener that a `TypeError` ends early still leaves its state behind. -/
inductive Step (trig : Trig) : GameState → GameState → Prop where
  | frame (rng : Rng) (s : GameState) : Step trig s (animate trig rng s).1
  | keyDown (key : Key) (s : GameState) : Step trig s (keyDown key s).1
  | keyUp (key : Key) (s : GameState) : Step trig s (keyUp key s)
  | nextLevel (rm re rc : Rng) (fuel : Nat) {s s1 : GameState} :
      s.gameOver = true → nextLevel rm re rc fuel s = some s1 → Step trig s s1

/-- The states the game can be in: those of a fresh level after `init()` and everything a
sequence of events leads to. -/
inductive Reachable (trig : Trig) : GameState → Prop where
  | init (rm re rc : Rng) (fuel : Nat) {s : GameState} :
      init rm re rc fuel = some s → Reachable trig s
  | step {s s1 : GameState} : Reachable trig s → Step trig s s1 → Reachable trig s1

/-! ## A run in which an enemy leaves the grid -/

/-- A table for `Math.cos` and `Math.sin` with the values used below: rounded values at an
eighth of a turn, exact values at half a turn and at angle zero. -/
def sampleTrig : Trig :=
  { cos := fun t => if t = 1 / 8 then 7071 / 10000 else if t = 1 / 2 then -1 else 1,
    sin := fun t => if t = 1 / 8 then 7071 / 10000 else 0 }

/-- Draws for `generateEnemies`: cell `(14, 13)` and a heading of an eighth of a turn. -/
def enemyDraws : Rng := fun i => if i = 0 then 14 / 15 else if i = 1 then 13 / 15 else 1 / 8

/-- Draws that select the last index of every range. -/
def cornerDraws : Rng := fun _ => 14 / 15

/-- Draws of a frame in which no enemy changes its heading. -/
def quietDraws : Rng := fun _ => 1 / 2

/-- Draws of a frame in which the first enemy turns to a heading of half a turn. -/
def turnDraws : Rng := fun i => if i = 0 then 0 else 1 / 2

/-- The enemy placed by `enemyDraws` on a level of size 15. -/
def cornerEnemy : Enemy :=
  { x := 29 / 2, y := 27 / 2, size := 12, speed := 3 / 100, direction := 1 / 8 }

/-- The state after `n` frames that all read the draws `rng`. -/
def runFrames (trig : Trig) (rng : Rng) : Nat → GameState → GameState
  | 0, s => s
  | n + 1, s => (animate trig rng (runFrames trig rng n s)).1

/-- A level-one state whose only enemy keeps the heading of `cornerEnemy` and stands at
`(x, y)`, with the player idle at the start cell. -/
structure Calm (s : GameState) (x y : ℚ) : Prop where
  size : s.maze.HasSize 15 15
  mazeSize : s.mazeSize = 15
  player : s.player = { x := 1 / 2, y := 1 / 2, size := 14 }
  enemies : s.enemies = [{ cornerEnemy with x := x, y := y }]
  gameOver : s.gameOver = false
  moving : s.playerAnimation.moving = false
  power : s.activePowerUp = none
  keys : s.keys = 0
  level : s.currentLevel = 1

/-! ## Catches in one frame -/

/-- The number of catches of one frame as the loop of `updateEnemies` applies them: each
moved enemy is compared with the player position at the time the enemy is processed, which
is `p` up to the first catch and the start position `(1/2, 1/2)` after it. -/
def catchCount (playerSize : ℚ) : ℚ × ℚ → List Enemy → Nat
  | _, [] => 0
  | p, e :: es =>
    if touches p.1 p.2 playerSize e = true then catchCount playerSize (1 / 2, 1 / 2) es + 1
    else catchCount playerSize p es

/-- The number of moved enemies that are within catching distance of the position `p`. -/
def touchingCount (playerSize : ℚ) (p : ℚ × ℚ) (moved : List Enemy) : Nat :=
  (moved.filter (fun e => touches p.1 p.2 playerSize e)).length

/-- A level-two state with the player in cell `(5, 5)` and two enemies in the same cell. -/
def twoEnemyState : GameState :=
  { initialState with
    maze := (generateMaze 17 17 cornerDraws).getD [],
    mazeSize := 17,
    currentLevel := 2,
    score := 150,
    player := { x := 11 / 2, y := 11 / 2, size := 14 },
    exit := { x := 17 / 2, y := 17 / 2 },
    visitedCells := {(0, 0), (5, 5)},
    playerAnimation :=
      { x := 11 / 2, y := 11 / 2, targetX := 11 / 2, targetY := 11 / 2, moving := false,
        progress := 1 },
    enemies :=
      [ { x := 11 / 2, y := 11 / 2, size := 12, speed := 3 / 100, direction := 1 / 8 },
        { x := 23 / 4, y := 11 / 2, size := 12, speed := 3 / 100, direction := 1 / 8 } ] }

/-! ## Vocabulary for the claims on moves -/

/-- The wall of the source cell that a step to another cell crosses: east or west when the
column changes, south or north when only the row changes. -/
def travelWall (fromCellX fromCellY toCellX toCellY : Int) : Wall :=
  if toCellX > fromCellX then Wall.east
  else if toCellX < fromCellX then Wall.west
  else if toCellY > fromCellY then Wall.south
  else Wall.north

/-- A two by two maze with a passage between the two cells of each row and a passage
between the two cells of the right column. -/
def sampleMaze : Maze :=
  [ [ { north := true, south := true, east := false, west := true, visited := true },
      { north := true, south := false, east := true, west := false, visited := true } ],
    [ { north := true, south := true, east := false, west := true, visited := true },
      { north := false, south := true, east := true, west := false, visited := true } ] ]

/-- A state on `sampleMaze` with the player idle in the start cell and the right arrow
held. -/
def corridorState : GameState :=
  { initialState with
    maze := sampleMaze,
    mazeSize := 2,
    exit := { x := 3 / 2, y := 3 / 2 },
    visitedCells := {(0, 0)},
    playerAnimation :=
      { x := 1 / 2, y := 1 / 2, targetX := 1 / 2, targetY := 1 / 2, moving := false,
        progress := 0 },
    keysPressed :=
      { ArrowUp := false, ArrowDown := false, ArrowLeft := false, ArrowRight := true } }

/-- The maze has the size `mazeSize` and the player stands at the centre of a cell of the
grid. -/
def PlayerHome (s : GameState) : Prop :=
  s.maze.HasSize s.mazeSize s.mazeSize ∧
    ∃ i j : Int, InGrid s.mazeSize s.mazeSize i j ∧
      s.player.x = (i : ℚ) + 1 / 2 ∧ s.player.y = (j : ℚ) + 1 / 2

/-! ## Vocabulary for the claims on a running level -/

/-- The state `t` has the level data of `s`: maze, exit, visited cells, counters of held
items, level number, items and held keys of the keyboard are the same. -/
structure SameLevel (s t : GameState) : Prop where
  maze : t.maze = s.maze
  mazeSize : t.mazeSize = s.mazeSize
  exit : t.exit = s.exit
  visitedCells : t.visitedCells = s.visitedCells
  keys : t.keys = s.keys
  treasures : t.treasures = s.treasures
  currentLevel : t.currentLevel = s.currentLevel
  collectibles : t.collectibles = s.collectibles
  powerUps : t.powerUps = s.powerUps
  keysPressed : t.keysPressed = s.keysPressed

/-- The state `t` has the power-up and game-over data of `s`. -/
structure SamePower (s t : GameState) : Prop where
  gameOver : t.gameOver = s.gameOver
  activePowerUp : t.activePowerUp = s.activePowerUp
  powerUpTimer : t.powerUpTimer = s.powerUpTimer

/-- The state of `corridorState` right after the step to the right is committed. -/
def movingState : GameState := commitMove corridorState (3 / 2) (1 / 2)

/-- The state with the fields written by `checkCollectibles` blanked. -/
def sansItems (s : GameState) : GameState :=
  { s with keys := 0, treasures := 0, score := 0, collectibles := [] }

/-- The state with the fields written by `checkPowerUps` blanked. -/
def sansPower (s : GameState) : GameState :=
  { s with activePowerUp := none, powerUpTimer := 0, powerUps := [] }

/-- The percentage computed by `updateProgressBar()` before it is capped at 100. -/
def explorationProgress (s : GameState) : ℚ :=
  (s.visitedCells.card : ℚ) / ((s.mazeSize : ℚ) * (s.mazeSize : ℚ)) * 100

/-- The position `(x, y)` is the centre of a cell of the grid of size `mazeSize` that
satisfies `ok`. -/
def CentreOf (mazeSize : Nat) (ok : Int → Int → Prop) (x y : ℚ) : Prop :=
  ∃ cx cy : Int, InGrid mazeSize mazeSize cx cy ∧ x = (cx : ℚ) + 1 / 2 ∧ y = (cy : ℚ) + 1 / 2 ∧
    ok cx cy

/-- The cell `(cx, cy)` passes the rejection test of `generateEnemies` for a player at
`(px, py)`, and so lies outside the block of five by five cells around the player cell. -/
def AwayFrom (px py : ℚ) (cx cy : Int) : Prop :=
  ¬ (|(cx : ℚ) - px| < 3 ∧ |(cy : ℚ) - py| < 3) ∧
    ¬ (|cx - ⌊px⌋| ≤ 2 ∧ |cy - ⌊py⌋| ≤ 2)

/-- The cell `(cx, cy)` is neither the cell of the player at `(px, py)` nor the cell of the
exit at `(ex, ey)`. -/
def FreeCell (px py ex ey : ℚ) (cx cy : Int) : Prop :=
  ¬ (cx = ⌊px⌋ ∧ cy = ⌊py⌋) ∧ ¬ (cx = ⌊ex⌋ ∧ cy = ⌊ey⌋)

/-- The state of `nextLevel()` right before the call of `generateEnemies()`, with `maze`
the maze that `generateMaze` has returned. -/
def nextLevelSetup (s : GameState) (maze : Maze) : GameState :=
  let s := { s with currentLevel := s.currentLevel + 1 }
  let s := { s with mazeSize := min (15 + s.currentLevel) 25 }
  let s := resetPlayer s
  let s := { s with visitedCells := {(⌊s.player.x⌋, ⌊s.player.y⌋)} }
  let s := { s with keys := 0, treasures := 0, activePowerUp := none }
  placeExit { s with maze := maze }

/-- The state of `init()` right before the call of `generateEnemies()`. -/
def initSetup (maze : Maze) : GameState :=
  let s := { initialState with maze := maze }
  let s := resetPlayer s
  let s := placeExit s
  { s with visitedCells := insert (⌊s.player.x⌋, ⌊s.player.y⌋) s.visitedCells }


/-! ## Vocabulary for the claims on timers, pickups and the win -/

/-- The power-up timer is a whole number of sixtieths between 0 and 10. -/
def TimerOk (s : GameState) : Prop :=
  ∃ k : Nat, k ≤ 600 ∧ s.powerUpTimer = (k : ℚ) / 60

/-- The state `s` with the globals `activePowerUp` and `powerUpTimer` set as given. -/
def withPower (p : Option PowerType) (timer : ℚ) (s : GameState) : GameState :=
  { s with activePowerUp := p, powerUpTimer := timer }

/-- The state `twoEnemyState` with the ghost power-up just picked up. -/
def ghostState : GameState := withPower (some PowerType.ghost) 10 twoEnemyState

/-- The state `corridorState` with the speed power-up just picked up. -/
def boostState : GameState := withPower (some PowerType.speed) 10 corridorState

/-- The state after one frame for each stream of draws in the list, in order. -/
def runTicks (trig : Trig) : List Rng → GameState → GameState
  | [], s => s
  | rng :: rest, s => runTicks trig rest (animate trig rng s).1

/-- Every frame of `runTicks` runs to completion. -/
def AllComplete (trig : Trig) : List Rng → GameState → Prop
  | [], _ => True
  | rng :: rest, s => (animate trig rng s).2 = true ∧ AllComplete trig rest (animate trig rng s).1

/-- The number of items of type `ty`. -/
def itemCount (ty : ItemType) (items : List Collectible) : Nat :=
  items.countP (fun item => decide (item.type = ty))

/-- The number of items of type `ty` whose flag `collected` is set. -/
def collectedCount (ty : ItemType) (items : List Collectible) : Nat :=
  items.countP (fun item => decide (item.type = ty ∧ item.collected = true))

/-- Item `b` is item `a` at a later time: same place and type, and a set flag `collected`
is still set. -/
def KeptItem (a b : Collectible) : Prop :=
  b.x = a.x ∧ b.y = a.y ∧ b.type = a.type ∧ (a.collected = true → b.collected = true)

/-- Power-up `b` is power-up `a` at a later time: same place and type, and a set flag
`collected` is still set. -/
def KeptPower (a b : PowerUp) : Prop :=
  b.x = a.x ∧ b.y = a.y ∧ b.type = a.type ∧ (a.collected = true → b.collected = true)

/-- The counters `keys` and `treasures` agree with the flags of the items, and the level
holds `min(currentLevel, 3)` key items. -/
structure CountersOk (s : GameState) : Prop where
  keys : s.keys = collectedCount ItemType.key s.collectibles
  treasures : s.treasures = collectedCount ItemType.treasure s.collectibles
  keyItems : itemCount ItemType.key s.collectibles = min s.currentLevel 3

/-- The exit lies at least seven cells east of the start position `(1/2, 1/2)`. -/
def ExitFar (s : GameState) : Prop := 15 / 2 ≤ s.exit.x

/-- A level-two state with the player at the exit, both keys of the level collected and no
enemy on the level. -/
def winState : GameState :=
  { twoEnemyState with
    player := { x := 17 / 2, y := 17 / 2, size := 14 },
    keys := 2,
    score := 250,
    collectibles :=
      [ { x := 7 / 2, y := 5 / 2, type := ItemType.key, collected := true },
        { x := 17 / 2, y := 15 / 2, type := ItemType.key, collected := true } ],
    playerAnimation :=
      { x := 17 / 2, y := 17 / 2, targetX := 17 / 2, targetY := 17 / 2, moving := false,
        progress := 1 },
    enemies := [] }

/-- The state `winState` with one enemy that has left the grid: it stands in column 17 of
the 17 by 17 level, in row 16, and heads west. -/
def faultWinState : GameState :=
  { winState with
    enemies :=
      [ { x := 1701 / 100, y := 33 / 2, size := 12, speed := 3 / 100, direction := 1 / 2 } ] }
/-! ## Lemmas on maze reads and writes -/

theorem Maze.cell?_update {m m1 : Maze} {x y : Int} {f : Cell → Cell}
    (h : m.update x y f = some m1) (x1 y1 : Int) :
    m1.cell? x1 y1 = if x1 = x ∧ y1 = y then (m.cell? x y).map f else m.cell? x1 y1 := by
  unfold Maze.update at h
  split at h
  · exact absurd h (by simp)
  · rename_i c hc
    have hm1 : m1 = m.set y.toNat ((m.getD y.toNat []).set x.toNat (f c)) := by
      simpa using h.symm
    subst hm1
    have hc0 := hc
    unfold Maze.cell? at hc
    split at hc
    · rename_i hxy
      obtain ⟨row, hrow, hcell⟩ := Option.bind_eq_some.mp hc
      have hylt : y.toNat < m.length := (List.getElem?_eq_some.mp hrow).1
      have hxlt : x.toNat < row.length := (List.getElem?_eq_some.mp hcell).1
      by_cases hsame : x1 = x ∧ y1 = y
      · obtain ⟨rfl, rfl⟩ := hsame
        rw [if_pos ⟨rfl, rfl⟩, hc0]
        unfold Maze.cell?
        rw [if_pos hxy]
        simp [List.getElem?_set, hylt, hrow, hxlt]
      · rw [if_neg hsame]
        unfold Maze.cell?
        by_cases hg : 0 ≤ x1 ∧ 0 ≤ y1
        · rw [if_pos hg, if_pos hg]
          by_cases hy : y.toNat = y1.toNat
          · have hyy : y1 = y := by omega
            have hxx : x.toNat ≠ x1.toNat := by
              intro hx
              exact hsame ⟨by omega, hyy⟩
            subst hyy
            simp [List.getElem?_set, hylt, hrow, hxx]
          · simp [List.getElem?_set, hy]
        · rw [if_neg hg, if_neg hg]
    · exact absurd hc (by simp)

theorem Maze.update_isSome {m : Maze} {x y : Int} (f : Cell → Cell)
    (h : (m.cell? x y).isSome = true) : ∃ m1, m.update x y f = some m1 := by
  unfold Maze.update
  cases hc : m.cell? x y with
  | none => simp [hc] at h
  | some c => exact ⟨_, rfl⟩

theorem Maze.cellD_update {m m1 : Maze} {x y : Int} {f : Cell → Cell}
    (h : m.update x y f = some m1) (x1 y1 : Int) :
    m1.cellD x1 y1 = if x1 = x ∧ y1 = y then f (m.cellD x y) else m.cellD x1 y1 := by
  have hsome : ∃ c, m.cell? x y = some c := by
    unfold Maze.update at h
    cases hc : m.cell? x y with
    | none => simp [hc] at h
    | some c => exact ⟨c, rfl⟩
  obtain ⟨c, hc⟩ := hsome
  unfold Maze.cellD
  rw [Maze.cell?_update h]
  split <;> simp [hc]

theorem Maze.HasSize.update {m m1 : Maze} {w h : Nat} {x y : Int} {f : Cell → Cell}
    (hs : m.HasSize w h) (hu : m.update x y f = some m1) : m1.HasSize w h := by
  intro x1 y1
  rw [Maze.cell?_update hu, ← hs x1 y1]
  split
  · rename_i hxy
    obtain ⟨rfl, rfl⟩ := hxy
    cases hc : m.cell? x1 y1 <;> simp
  · rfl

theorem initialGrid_cell? (w h : Nat) (x y : Int) :
    (initialGrid w h).cell? x y = if InGrid w h x y then some wallCell else none := by
  unfold initialGrid Maze.cell? InGrid
  by_cases hg : 0 ≤ x ∧ 0 ≤ y
  · rw [if_pos hg]
    by_cases hy : y.toNat < h
    · by_cases hx : x.toNat < w
      · have : 0 ≤ x ∧ x < (w : Int) ∧ 0 ≤ y ∧ y < (h : Int) := by omega
        simp [List.getElem?_replicate, hy, hx, this]
      · have : ¬ (0 ≤ x ∧ x < (w : Int) ∧ 0 ≤ y ∧ y < (h : Int)) := by omega
        simp [List.getElem?_replicate, hy, hx, this]
    · have : ¬ (0 ≤ x ∧ x < (w : Int) ∧ 0 ≤ y ∧ y < (h : Int)) := by omega
      simp [List.getElem?_replicate, hy, this]
  · rw [if_neg hg]
    have : ¬ (0 ≤ x ∧ x < (w : Int) ∧ 0 ≤ y ∧ y < (h : Int)) := by omega
    simp [this]

theorem initialGrid_hasSize (w h : Nat) : (initialGrid w h).HasSize w h := by
  intro x y
  rw [initialGrid_cell?]
  split <;> simp [*]

/-! ## Single steps of the backtracker -/


theorem Cell.visited_clearWall (c : Cell) (wl : Wall) : (c.clearWall wl).visited = c.visited := by
  cases wl <;> rfl

theorem Cell.wall_markVisited (c : Cell) (wl : Wall) : (c.markVisited).wall wl = c.wall wl := by
  cases wl <;> rfl

theorem Cell.wall_clearWall (c : Cell) (wl wl1 : Wall) :
    (c.clearWall wl).wall wl1 = false ↔ c.wall wl1 = false ∨ wl1 = wl := by
  cases wl <;> cases wl1 <;> simp [Cell.clearWall, Cell.wall]

theorem mem_grid {w h : Nat} {p : Int × Int} : p ∈ grid w h ↔ InGrid w h p.1 p.2 := by
  simp [grid, InGrid, Finset.mem_product, Finset.mem_Ico, and_assoc]

theorem card_grid (w h : Nat) : (grid w h).card = w * h := by
  simp [grid, Finset.card_product]

theorem card_filter_succ {S : Finset (Int × Int)} {P Q : Int × Int → Prop}
    [DecidablePred P] [DecidablePred Q] {a : Int × Int} (ha : a ∈ S) (hP : ¬ P a) (hQ : Q a)
    (hrest : ∀ p ∈ S, p ≠ a → (Q p ↔ P p)) :
    (S.filter Q).card = (S.filter P).card + 1 := by
  have hset : S.filter Q = insert a (S.filter P) := by
    ext p
    simp only [Finset.mem_filter, Finset.mem_insert]
    constructor
    · rintro ⟨hp, hq⟩
      by_cases hpa : p = a
      · exact Or.inl hpa
      · exact Or.inr ⟨hp, (hrest p hp hpa).mp hq⟩
    · rintro (rfl | ⟨hp, hpp⟩)
      · exact ⟨ha, hQ⟩
      · have hpa : p ≠ a := fun e => hP (e ▸ hpp)
        exact ⟨hp, (hrest p hp hpa).mpr hpp⟩
  rw [hset, Finset.card_insert_of_not_mem]
  simp [hP]

theorem card_filter_same {S : Finset (Int × Int)} {P Q : Int × Int → Prop}
    [DecidablePred P] [DecidablePred Q] (hrest : ∀ p ∈ S, (Q p ↔ P p)) :
    (S.filter Q).card = (S.filter P).card := by
  rw [Finset.filter_congr hrest]

/-- Wall flags after the two writes of a carving step. -/
theorem open_after_carve {m m1 m2 : Maze} {x y nx ny : Int} {wa wb : Wall}
    (h1 : m.update x y (fun cell => cell.clearWall wa) = some m1)
    (h2 : m1.update nx ny (fun cell => cell.clearWall wb) = some m2)
    (px py : Int) (wl : Wall) :
    m2.Open px py wl ↔
      m.Open px py wl ∨ (px = x ∧ py = y ∧ wl = wa) ∨ (px = nx ∧ py = ny ∧ wl = wb) := by
  unfold Maze.Open
  simp only [Maze.cellD_update h2, Maze.cellD_update h1]
  by_cases hn : px = nx ∧ py = ny <;> by_cases hc : px = x ∧ py = y
  · obtain ⟨rfl, rfl⟩ := hn
    obtain ⟨rfl, rfl⟩ := hc
    simp only [and_self, if_true, Cell.wall_clearWall, true_and]
    tauto
  · obtain ⟨rfl, rfl⟩ := hn
    simp only [and_self, if_true, hc, if_false, Cell.wall_clearWall, true_and]
    tauto
  · obtain ⟨rfl, rfl⟩ := hc
    simp only [hn, and_self, if_true, if_false, Cell.wall_clearWall, true_and]
    tauto
  · simp only [hn, hc, if_false]
    tauto

theorem visited_after_carve {m m1 m2 : Maze} {x y nx ny : Int} {wa wb : Wall}
    (h1 : m.update x y (fun cell => cell.clearWall wa) = some m1)
    (h2 : m1.update nx ny (fun cell => cell.clearWall wb) = some m2)
    (px py : Int) : m2.Visited px py ↔ m.Visited px py := by
  unfold Maze.Visited
  rw [Maze.cellD_update h2]
  split
  · rename_i hn
    obtain ⟨rfl, rfl⟩ := hn
    rw [Cell.visited_clearWall, Maze.cellD_update h1]
    split
    · rename_i hc
      obtain ⟨rfl, rfl⟩ := hc
      rw [Cell.visited_clearWall]
    · rfl
  · rw [Maze.cellD_update h1]
    split
    · rename_i hc
      obtain ⟨rfl, rfl⟩ := hc
      rw [Cell.visited_clearWall]
    · rfl

/-- The two directions of a pair of neighbours mirror each other. -/
theorem directions_mirror {d e : Direction} (hd : d ∈ directions) (he : e ∈ directions)
    (x y px py : Int) :
    ((px = x ∧ py = y ∧ e.wall = d.wall) ↔
      (px + e.dx = x + d.dx ∧ py + e.dy = y + d.dy ∧ e.opposite = d.opposite)) ∧
    ((px = x + d.dx ∧ py = y + d.dy ∧ e.wall = d.opposite) ↔
      (px + e.dx = x ∧ py + e.dy = y ∧ e.opposite = d.wall)) := by
  simp only [directions, List.mem_cons, List.mem_singleton, List.not_mem_nil, or_false] at hd he
  rcases hd with rfl | rfl | rfl | rfl <;> rcases he with rfl | rfl | rfl | rfl <;>
    simp <;> omega


theorem passageCount_succ {w h : Nat} (m m1 : Maze) (wl : Wall) {dx dy : Int} (a : Int × Int)
    (ha : InGrid w h a.1 a.2) (hb : InGrid w h (a.1 + dx) (a.2 + dy))
    (hclosed : ¬ m.Open a.1 a.2 wl)
    (hrest : ∀ px py, m1.Open px py wl ↔ m.Open px py wl ∨ (px = a.1 ∧ py = a.2)) :
    passageCount w h m1 wl dx dy = passageCount w h m wl dx dy + 1 := by
  unfold passageCount
  apply card_filter_succ (a := a)
  · exact mem_grid.mpr ha
  · exact fun hP => hclosed hP.2
  · exact ⟨hb, (hrest a.1 a.2).mpr (Or.inr ⟨rfl, rfl⟩)⟩
  · intro p _ hpa
    have := hrest p.1 p.2
    unfold Maze.Open at this
    rw [this]
    constructor
    · rintro ⟨hq, hv | ⟨h1, h2⟩⟩
      · exact ⟨hq, hv⟩
      · exact absurd (Prod.ext h1 h2) hpa
    · exact fun hq => ⟨hq.1, Or.inl hq.2⟩

theorem passageCount_same {w h : Nat} (m m1 : Maze) (wl : Wall) {dx dy : Int}
    (hrest : ∀ px py, m1.Open px py wl ↔ m.Open px py wl) :
    passageCount w h m1 wl dx dy = passageCount w h m wl dx dy := by
  unfold passageCount
  apply card_filter_same
  intro p _
  have := hrest p.1 p.2
  unfold Maze.Open at this
  rw [this]

theorem iff_glue {A B C D A1 A2 B1 B2 : Prop} (e1 : C ↔ A ∨ A1 ∨ A2) (e2 : D ↔ B ∨ B1 ∨ B2)
    (base : A ↔ B) (k1 : A1 ↔ B2) (k2 : A2 ↔ B1) : C ↔ D := by
  rw [e1, e2, base, k1, k2]
  tauto

/-- Marking the current cell. -/
theorem mark_step {w h : Nat} {m m1 : Maze} {x y : Int}
    (hu : m.update x y Cell.markVisited = some m1) (hg : InGrid w h x y)
    (hnv : ¬ m.Visited x y) (hinv : Inv w h m (some (x, y))) :
    Inv w h m1 none ∧ Ext m m1 ∧ m1.Visited x y ∧
      (∀ px py, m1.Visited px py → m.Visited px py ∨ (px = x ∧ py = y)) ∧
      visitedCount w h m1 = visitedCount w h m + 1 ∧ removedWalls w h m1 = removedWalls w h m := by
  have hcell := Maze.cellD_update hu
  have hopen : ∀ px py wl, m1.Open px py wl ↔ m.Open px py wl := by
    intro px py wl
    unfold Maze.Open
    rw [hcell]
    split
    · rename_i hxy
      rw [Cell.wall_markVisited, hxy.1, hxy.2]
    · rfl
  have hvis : ∀ px py, m1.Visited px py ↔ m.Visited px py ∨ (px = x ∧ py = y) := by
    intro px py
    unfold Maze.Visited
    rw [hcell]
    split
    · rename_i hxy
      simp [Cell.markVisited, hxy]
    · rename_i hxy
      simp [hxy]
  refine ⟨⟨hinv.size.update hu, ?_, ?_, ?_⟩, ⟨?_, ?_⟩, ?_, ?_, ?_, ?_⟩
  · intro px py hp d hd hq
    rw [hopen, hopen]
    exact hinv.sym px py hp d hd hq
  · intro px py hp d hd hq
    rw [hopen]
    exact hinv.border px py hp d hd hq
  · intro px py hp wl ho
    rw [hopen] at ho
    rw [hvis]
    rcases hinv.openVisited px py hp wl ho with hv | hc
    · exact Or.inl (Or.inl hv)
    · simp only [Option.some.injEq, Prod.mk.injEq] at hc
      exact Or.inl (Or.inr ⟨hc.1.symm, hc.2.symm⟩)
  · intro px py hv
    exact (hvis px py).mpr (Or.inl hv)
  · intro px py wl ho
    exact (hopen px py wl).mpr ho
  · exact (hvis x y).mpr (Or.inr ⟨rfl, rfl⟩)
  · intro px py hv
    exact (hvis px py).mp hv
  · unfold visitedCount
    apply card_filter_succ (a := (x, y))
    · exact mem_grid.mpr hg
    · exact hnv
    · exact (hvis x y).mpr (Or.inr ⟨rfl, rfl⟩)
    · intro p _ hpa
      have := hvis p.1 p.2
      unfold Maze.Visited at this
      rw [this]
      constructor
      · rintro (hv | ⟨h1, h2⟩)
        · exact hv
        · exact absurd (Prod.ext h1 h2) hpa
      · exact Or.inl
  · unfold removedWalls
    rw [passageCount_same m m1 Wall.east (fun px py => hopen px py Wall.east),
      passageCount_same m m1 Wall.south (fun px py => hopen px py Wall.south)]

/-- Removing the wall between the current cell and an unvisited neighbour. -/
theorem carve_step {w h : Nat} {m m1 m2 : Maze} {x y : Int} {d : Direction}
    (hd : d ∈ directions)
    (h1 : m.update x y (fun cell => cell.clearWall d.wall) = some m1)
    (h2 : m1.update (x + d.dx) (y + d.dy) (fun cell => cell.clearWall d.opposite) = some m2)
    (hg : InGrid w h x y) (hn : InGrid w h (x + d.dx) (y + d.dy))
    (hv : m.Visited x y) (hnv : ¬ m.Visited (x + d.dx) (y + d.dy)) (hinv : Inv w h m none) :
    Inv w h m2 (some (x + d.dx, y + d.dy)) ∧ Ext m m2 ∧
      (∀ px py, m2.Visited px py ↔ m.Visited px py) ∧
      Passage w h m2 (x, y) (x + d.dx, y + d.dy) ∧
      removedWalls w h m2 = removedWalls w h m + 1 ∧
      visitedCount w h m2 = visitedCount w h m := by
  have hopen := open_after_carve h1 h2
  have hvis := visited_after_carve h1 h2
  have hclosedN : ¬ m.Open (x + d.dx) (y + d.dy) d.opposite := by
    intro ho
    rcases hinv.openVisited _ _ hn _ ho with hv1 | hc
    · exact hnv hv1
    · exact absurd hc (by simp)
  have hclosedC : ¬ m.Open x y d.wall := fun ho => hclosedN ((hinv.sym x y hg d hd hn).mp ho)
  refine ⟨⟨(hinv.size.update h1).update h2, ?_, ?_, ?_⟩, ⟨?_, ?_⟩, hvis, ?_, ?_, ?_⟩
  · intro px py hp e he hq
    have base := hinv.sym px py hp e he hq
    have mir := directions_mirror hd he x y px py
    exact iff_glue (hopen px py e.wall) (hopen (px + e.dx) (py + e.dy) e.opposite) base
      mir.1 mir.2
  · intro px py hp e he hq ho
    have mir := directions_mirror hd he x y px py
    rcases (hopen px py e.wall).mp ho with ho1 | hA | hB
    · exact hinv.border px py hp e he hq ho1
    · have := mir.1.mp hA
      rw [this.1, this.2.1] at hq
      exact hq hn
    · have := mir.2.mp hB
      rw [this.1, this.2.1] at hq
      exact hq hg
  · intro px py hp wl ho
    rcases (hopen px py wl).mp ho with ho1 | hA | hB
    · rcases hinv.openVisited px py hp wl ho1 with hv1 | hc
      · exact Or.inl ((hvis px py).mpr hv1)
      · exact absurd hc (by simp)
    · left
      rw [hA.1, hA.2.1]
      exact (hvis x y).mpr hv
    · right
      rw [hB.1, hB.2.1]
  · intro px py hv1
    exact (hvis px py).mpr hv1
  · intro px py wl ho
    exact (hopen px py wl).mpr (Or.inl ho)
  · refine ⟨hg, hn, d, hd, rfl, ?_, ?_⟩
    · exact (hopen x y d.wall).mpr (Or.inr (Or.inl ⟨rfl, rfl, rfl⟩))
    · exact (hopen _ _ d.opposite).mpr (Or.inr (Or.inr ⟨rfl, rfl, rfl⟩))
  · unfold removedWalls
    simp only [directions, List.mem_cons, List.mem_singleton, List.not_mem_nil, or_false] at hd
    rcases hd with rfl | rfl | rfl | rfl
    · -- north: the pair is counted at the neighbour's south flag
      rw [passageCount_same m m2 Wall.east,
        passageCount_succ m m2 Wall.south (x + 0, y + -1)]
      · omega
      · exact hn
      · simpa using hg
      · exact hclosedN
      · intro px py
        rw [hopen]
        simp
      · intro px py
        rw [hopen]
        simp
    · -- east
      rw [passageCount_succ m m2 Wall.east (x, y),
        passageCount_same m m2 Wall.south]
      · omega
      · intro px py
        rw [hopen]
        simp
      · exact hg
      · exact hn
      · exact hclosedC
      · intro px py
        rw [hopen]
        simp
    · -- south
      rw [passageCount_same m m2 Wall.east,
        passageCount_succ m m2 Wall.south (x, y)]
      · omega
      · exact hg
      · exact hn
      · exact hclosedC
      · intro px py
        rw [hopen]
        simp
      · intro px py
        rw [hopen]
        simp
    · -- west: the pair is counted at the neighbour's east flag
      rw [passageCount_succ m m2 Wall.east (x + -1, y + 0),
        passageCount_same m m2 Wall.south]
      · omega
      · intro px py
        rw [hopen]
        simp
      · exact hn
      · simpa using hg
      · exact hclosedN
      · intro px py
        rw [hopen]
        simp
  · unfold visitedCount
    apply card_filter_same
    intro p _
    exact hvis p.1 p.2

/-! ## The shuffle -/

theorem random_nonneg (rng : Rng) (i : Nat) : 0 ≤ random rng i := Int.fract_nonneg _

theorem random_lt_one (rng : Rng) (i : Nat) : random rng i < 1 := Int.fract_lt_one _

theorem randomIndex_nonneg (rng : Rng) (i k : Nat) : 0 ≤ randomIndex rng i k := by
  unfold randomIndex
  exact Int.floor_nonneg.mpr (mul_nonneg (random_nonneg rng i) (Nat.cast_nonneg k))

theorem randomIndex_lt (rng : Rng) (i : Nat) {k : Nat} (hk : 0 < k) :
    randomIndex rng i k < k := by
  unfold randomIndex
  rw [Int.floor_lt]
  have hk1 : (0 : ℚ) < (k : ℚ) := by exact_mod_cast hk
  have := mul_lt_mul_of_pos_right (random_lt_one rng i) hk1
  simpa using this

theorem shuffled_perm : ∀ (a : Fin 4) (b : Fin 3) (c : Fin 2),
    List.Perm (swap (swap (swap directions 3 a) 2 b) 1 c) directions := by
  decide

theorem shuffle_perm (rng : Rng) (c : Nat) : List.Perm (shuffle rng c directions).1 directions := by
  have h4 := randomIndex_lt rng c (k := 4) (by norm_num)
  have h3 := randomIndex_lt rng (c + 1) (k := 3) (by norm_num)
  have h2 := randomIndex_lt rng (c + 1 + 1) (k := 2) (by norm_num)
  have n4 := randomIndex_nonneg rng c 4
  have n3 := randomIndex_nonneg rng (c + 1) 3
  have n2 := randomIndex_nonneg rng (c + 1 + 1) 2
  have := shuffled_perm ⟨(randomIndex rng c 4).toNat, by omega⟩
    ⟨(randomIndex rng (c + 1) 3).toNat, by omega⟩ ⟨(randomIndex rng (c + 1 + 1) 2).toNat, by omega⟩
  simpa [shuffle, shuffleLoop, directions] using this

theorem shuffle_mem (rng : Rng) (c : Nat) (d : Direction) :
    d ∈ (shuffle rng c directions).1 ↔ d ∈ directions := (shuffle_perm rng c).mem_iff

/-! ## Correctness of the backtracker -/

theorem Ext.refl (m : Maze) : Ext m m := ⟨fun _ _ hv => hv, fun _ _ _ ho => ho⟩

theorem Ext.trans {a b c : Maze} (h1 : Ext a b) (h2 : Ext b c) : Ext a c :=
  ⟨fun x y hv => h2.visited x y (h1.visited x y hv),
    fun x y wl ho => h2.opened x y wl (h1.opened x y wl ho)⟩

theorem passage_mono {w h : Nat} {m m1 : Maze} (he : Ext m m1) {a b : Int × Int}
    (hp : Passage w h m a b) : Passage w h m1 a b := by
  obtain ⟨ha, hb, d, hd, hbd, ho1, ho2⟩ := hp
  exact ⟨ha, hb, d, hd, hbd, he.opened _ _ _ ho1, he.opened _ _ _ ho2⟩

theorem connected_mono {w h : Nat} {m m1 : Maze} (he : Ext m m1) {a b : Int × Int}
    (hc : Connected w h m a b) : Connected w h m1 a b :=
  Relation.ReflTransGen.mono (fun _ _ hp => passage_mono he hp) hc

theorem visitedCount_mono {w h : Nat} {m m1 : Maze} (he : Ext m m1) :
    visitedCount w h m ≤ visitedCount w h m1 := by
  unfold visitedCount
  apply Finset.card_le_card
  intro p hp
  rw [Finset.mem_filter] at hp ⊢
  exact ⟨hp.1, he.visited p.1 p.2 hp.2⟩

theorem visitedCount_lt {w h : Nat} {m : Maze} {x y : Int} (hg : InGrid w h x y)
    (hnv : ¬ m.Visited x y) : visitedCount w h m < w * h := by
  rw [← card_grid w h]
  unfold visitedCount
  apply Finset.card_lt_card
  rw [Finset.ssubset_iff_of_subset (Finset.filter_subset _ _)]
  refine ⟨(x, y), mem_grid.mpr hg, ?_⟩
  rw [Finset.mem_filter]
  exact fun hp => hnv hp.2

theorem canCarve_eq {w h : Nat} {m : Maze} (hs : m.HasSize w h) (nx ny : Int) :
    canCarve w h m nx ny = some (decide (InGrid w h nx ny ∧ ¬ m.Visited nx ny)) := by
  unfold canCarve
  by_cases hg : InGrid w h nx ny
  · have hg1 := hg
    unfold InGrid at hg1
    rw [if_pos hg1]
    have hsome := (hs nx ny).mpr hg
    cases hc : m.cell? nx ny with
    | none => simp [hc] at hsome
    | some cell =>
      simp [hg, Maze.Visited, Maze.cellD, hc]
  · have hg1 := hg
    unfold InGrid at hg1
    rw [if_neg hg1]
    simp [hg]

theorem visitDirections_spec {w h fuel : Nat}
    {recurse : Int → Int → Maze × Nat → Option (Maze × Nat)}
    (hrec : ∀ (x y : Int) (m : Maze) (c : Nat), InGrid w h x y → ¬ m.Visited x y →
      Inv w h m (some (x, y)) → w * h ≤ visitedCount w h m + fuel →
      ∃ m1 c1, recurse x y (m, c) = some (m1, c1) ∧ CarveSpec w h m x y m1)
    (x y : Int) (hg : InGrid w h x y) :
    ∀ (ds : List Direction), (∀ d ∈ ds, d ∈ directions) → ∀ (m : Maze) (c : Nat),
      m.Visited x y → Inv w h m none → w * h ≤ visitedCount w h m + fuel →
      ∃ m1 c1, visitDirections w h recurse x y ds (m, c) = some (m1, c1) ∧
        LoopSpec w h m x y ds m1 := by
  intro ds
  induction ds with
  | nil =>
    intro _ m c _ hinv _
    refine ⟨m, c, rfl, hinv, Ext.refl m, ⟨?_, ?_⟩, ?_, rfl⟩
    · intro px py _ hv hnv
      exact absurd hv hnv
    · intro px py _ hv hnv
      exact absurd hv hnv
    · intro d hd
      exact absurd hd (List.not_mem_nil d)
  | cons d rest ih =>
    intro hds m c hv hinv hfuel
    have hd : d ∈ directions := hds d (List.mem_cons_self d rest)
    have hrest : ∀ e ∈ rest, e ∈ directions := fun e he => hds e (List.mem_cons_of_mem d he)
    unfold visitDirections
    simp only [canCarve_eq hinv.size]
    by_cases hc : InGrid w h (x + d.dx) (y + d.dy) ∧ ¬ m.Visited (x + d.dx) (y + d.dy)
    · obtain ⟨hn, hnv⟩ := hc
      simp only [hn, hnv, not_false_eq_true, and_self, decide_True]
      obtain ⟨m1, h1⟩ := Maze.update_isSome (fun cell => cell.clearWall d.wall)
        ((hinv.size x y).mpr hg)
      obtain ⟨m2, h2⟩ := Maze.update_isSome (fun cell => cell.clearWall d.opposite)
        (((hinv.size.update h1) (x + d.dx) (y + d.dy)).mpr hn)
      obtain ⟨hinv2, hext2, hvis2, hpass, hrem2, hcnt2⟩ :=
        carve_step hd h1 h2 hg hn hv hnv hinv
      have hnv2 : ¬ m2.Visited (x + d.dx) (y + d.dy) := fun hh => hnv ((hvis2 _ _).mp hh)
      obtain ⟨m3, c3, h3, hspec3⟩ := hrec (x + d.dx) (y + d.dy) m2 c hn hnv2 hinv2
        (by rw [hcnt2]; exact hfuel)
      have hv3 : m3.Visited x y := hspec3.ext.visited x y (hext2.visited x y hv)
      have hmono3 := visitedCount_mono (w := w) (h := h) hspec3.ext
      obtain ⟨m4, c4, h4, hspec4⟩ := ih hrest m3 c3 hv3 hspec3.inv (by omega)
      refine ⟨m4, c4, ?_, hspec4.inv, (hext2.trans hspec3.ext).trans hspec4.ext, ⟨?_, ?_⟩, ?_, ?_⟩
      · simp only [h1, h2, h3]
        exact h4
      · intro px py hp hv4 hnvp
        by_cases hv3p : m3.Visited px py
        · have hnv2p : ¬ m2.Visited px py := fun hh => hnvp ((hvis2 _ _).mp hh)
          have hreach := connected_mono hspec4.ext (hspec3.grown.reach px py hp hv3p hnv2p)
          have hstep := passage_mono (hspec3.ext.trans hspec4.ext) hpass
          exact Relation.ReflTransGen.head hstep hreach
        · exact hspec4.grown.reach px py hp hv4 hv3p
      · intro px py hp hv4 hnvp e he hq
        by_cases hv3p : m3.Visited px py
        · have hnv2p : ¬ m2.Visited px py := fun hh => hnvp ((hvis2 _ _).mp hh)
          exact hspec4.ext.visited _ _ (hspec3.grown.closed px py hp hv3p hnv2p e he hq)
        · exact hspec4.grown.closed px py hp hv4 hv3p e he hq
      · intro e he hq
        rcases List.mem_cons.mp he with rfl | he1
        · exact hspec4.ext.visited _ _ hspec3.root
        · exact hspec4.done e he1 hq
      · have c3 := hspec3.count
        have c4 := hspec4.count
        omega
    · simp only [hc, decide_False]
      obtain ⟨m1, c1, h1, hspec⟩ := ih hrest m c hv hinv hfuel
      refine ⟨m1, c1, h1, hspec.inv, hspec.ext, hspec.grown, ?_, hspec.count⟩
      intro e he hq
      rcases List.mem_cons.mp he with rfl | he1
      · have : m.Visited (x + e.dx) (y + e.dy) := by
          by_contra hnv
          exact hc ⟨hq, hnv⟩
        exact hspec.ext.visited _ _ this
      · exact hspec.done e he1 hq

theorem carvePassages_spec (w h : Nat) (rng : Rng) :
    ∀ (fuel : Nat) (x y : Int) (m : Maze) (c : Nat), InGrid w h x y → ¬ m.Visited x y →
      Inv w h m (some (x, y)) → w * h ≤ visitedCount w h m + fuel →
      ∃ m1 c1, carvePassages w h rng fuel x y (m, c) = some (m1, c1) ∧
        CarveSpec w h m x y m1 := by
  intro fuel
  induction fuel with
  | zero =>
    intro x y m c hg hnv _ hfuel
    have := visitedCount_lt hg hnv
    omega
  | succ fuel ih =>
    intro x y m c hg hnv hinv hfuel
    obtain ⟨m1, h1⟩ := Maze.update_isSome Cell.markVisited ((hinv.size x y).mpr hg)
    obtain ⟨hinv1, hext1, hv1, hvis1, hcnt1, hrem1⟩ := mark_step h1 hg hnv hinv
    obtain ⟨m2, c2, h2, hspec⟩ := visitDirections_spec ih x y hg
      (shuffle rng c directions).1 (fun d hd => (shuffle_mem rng c d).mp hd) m1
      (shuffle rng c directions).2 hv1 hinv1 (by omega)
    refine ⟨m2, c2, ?_, hspec.inv, hext1.trans hspec.ext, ⟨?_, ?_⟩, hspec.ext.visited x y hv1, ?_⟩
    · unfold carvePassages
      simp only [h1]
      exact h2
    · intro px py hp hv2 hnvp
      by_cases hv1p : m1.Visited px py
      · rcases hvis1 px py hv1p with hvm | ⟨rfl, rfl⟩
        · exact absurd hvm hnvp
        · exact Relation.ReflTransGen.refl
      · exact hspec.grown.reach px py hp hv2 hv1p
    · intro px py hp hv2 hnvp e he hq
      by_cases hv1p : m1.Visited px py
      · rcases hvis1 px py hv1p with hvm | ⟨rfl, rfl⟩
        · exact absurd hvm hnvp
        · exact hspec.done e ((shuffle_mem rng c e).mpr he) hq
      · exact hspec.grown.closed px py hp hv2 hv1p e he hq
    · have := hspec.count
      omega

/-! ## The generated maze -/

theorem initialGrid_cellD (w h : Nat) (x y : Int) : (initialGrid w h).cellD x y = wallCell := by
  unfold Maze.cellD
  rw [initialGrid_cell?]
  split <;> rfl

theorem initialGrid_not_visited (w h : Nat) (x y : Int) : ¬ (initialGrid w h).Visited x y := by
  unfold Maze.Visited
  rw [initialGrid_cellD]
  decide

theorem initialGrid_not_open (w h : Nat) (x y : Int) (wl : Wall) :
    ¬ (initialGrid w h).Open x y wl := by
  unfold Maze.Open
  rw [initialGrid_cellD]
  cases wl <;> decide

theorem initialGrid_inv (w h : Nat) (cur : Option (Int × Int)) :
    Inv w h (initialGrid w h) cur :=
  ⟨initialGrid_hasSize w h,
    fun _ _ _ _ _ _ =>
      ⟨fun ho => absurd ho (initialGrid_not_open w h _ _ _),
        fun ho => absurd ho (initialGrid_not_open w h _ _ _)⟩,
    fun _ _ _ _ _ _ => initialGrid_not_open w h _ _ _,
    fun _ _ _ _ ho => absurd ho (initialGrid_not_open w h _ _ _)⟩

theorem initialGrid_visitedCount (w h : Nat) : visitedCount w h (initialGrid w h) = 0 := by
  unfold visitedCount
  rw [Finset.card_eq_zero, Finset.filter_eq_empty_iff]
  intro p _
  exact initialGrid_not_visited w h p.1 p.2

theorem initialGrid_removedWalls (w h : Nat) : removedWalls w h (initialGrid w h) = 0 := by
  unfold removedWalls passageCount
  have he : ∀ (wl : Wall) (dx dy : Int), (grid w h).filter (fun p =>
      InGrid w h (p.1 + dx) (p.2 + dy) ∧ ((initialGrid w h).cellD p.1 p.2).wall wl = false) = ∅ := by
    intro wl dx dy
    rw [Finset.filter_eq_empty_iff]
    intro p _ hp
    exact initialGrid_not_open w h p.1 p.2 wl hp.2
  rw [he, he]
  rfl

/-- A set of grid cells that contains one cell and is closed under grid neighbours is the
whole grid. -/
theorem all_visited_of_closed {w h : Nat} {m : Maze} {sx sy : Int}
    (hstart : m.Visited sx sy)
    (hclosed : ∀ px py, InGrid w h px py → m.Visited px py → ∀ d ∈ directions,
      InGrid w h (px + d.dx) (py + d.dy) → m.Visited (px + d.dx) (py + d.dy))
    (hs : InGrid w h sx sy) :
    ∀ (n : Nat) (px py : Int), InGrid w h px py →
      (px - sx).natAbs + (py - sy).natAbs = n → m.Visited px py := by
  intro n
  induction n with
  | zero =>
    intro px py _ hdist
    have hx : px = sx := by omega
    have hy : py = sy := by omega
    rw [hx, hy]
    exact hstart
  | succ n ih =>
    intro px py hp hdist
    unfold InGrid at hp hs
    by_cases hx : px = sx
    · by_cases hlt : py < sy
      · have hq : InGrid w h px (py + 1) := by unfold InGrid; omega
        have hv := ih px (py + 1) hq (by omega)
        have := hclosed px (py + 1) hq hv ⟨0, -1, Wall.north, Wall.south⟩ (by simp [directions])
          (by unfold InGrid; simp only; omega)
        simpa using this
      · have hq : InGrid w h px (py - 1) := by unfold InGrid; omega
        have hv := ih px (py - 1) hq (by omega)
        have := hclosed px (py - 1) hq hv ⟨0, 1, Wall.south, Wall.north⟩ (by simp [directions])
          (by unfold InGrid; simp only; omega)
        simpa using this
    · by_cases hlt : px < sx
      · have hq : InGrid w h (px + 1) py := by unfold InGrid; omega
        have hv := ih (px + 1) py hq (by omega)
        have := hclosed (px + 1) py hq hv ⟨-1, 0, Wall.west, Wall.east⟩ (by simp [directions])
          (by unfold InGrid; simp only; omega)
        simpa using this
      · have hq : InGrid w h (px - 1) py := by unfold InGrid; omega
        have hv := ih (px - 1) py hq (by omega)
        have := hclosed (px - 1) py hq hv ⟨1, 0, Wall.east, Wall.west⟩ (by simp [directions])
          (by unfold InGrid; simp only; omega)
        simpa using this

theorem passage_symm {w h : Nat} {m : Maze} {a b : Int × Int} (hp : Passage w h m a b) :
    Passage w h m b a := by
  obtain ⟨ha, hb, d, hd, hbd, ho1, ho2⟩ := hp
  subst hbd
  simp only [directions, List.mem_cons, List.mem_singleton, List.not_mem_nil, or_false] at hd
  rcases hd with rfl | rfl | rfl | rfl
  · exact ⟨hb, ha, ⟨0, 1, Wall.south, Wall.north⟩, by simp [directions], by simp, ho2, ho1⟩
  · exact ⟨hb, ha, ⟨-1, 0, Wall.west, Wall.east⟩, by simp [directions], by simp, ho2, ho1⟩
  · exact ⟨hb, ha, ⟨0, -1, Wall.north, Wall.south⟩, by simp [directions], by simp, ho2, ho1⟩
  · exact ⟨hb, ha, ⟨1, 0, Wall.east, Wall.west⟩, by simp [directions], by simp, ho2, ho1⟩

theorem connected_symm {w h : Nat} {m : Maze} {a b : Int × Int} (hc : Connected w h m a b) :
    Connected w h m b a :=
  Relation.ReflTransGen.symmetric (fun _ _ hp => passage_symm hp) hc

/-- What `generateMaze` establishes on a grid with at least one cell. -/
theorem generateMaze_spec (w h : Nat) (hw : 1 ≤ w) (hh : 1 ≤ h) (rng : Rng) :
    ∃ m, generateMaze w h rng = some m ∧ Inv w h m none ∧
      (∀ x y, InGrid w h x y → m.Visited x y) ∧
      (∀ a b : Int × Int, InGrid w h a.1 a.2 → InGrid w h b.1 b.2 → Connected w h m a b) ∧
      removedWalls w h m + 1 = w * h := by
  have hs : InGrid w h (randomIndex rng 0 w) (randomIndex rng 1 h) :=
    ⟨randomIndex_nonneg rng 0 w, randomIndex_lt rng 0 hw, randomIndex_nonneg rng 1 h,
      randomIndex_lt rng 1 hh⟩
  obtain ⟨m, c, hm, hspec⟩ := carvePassages_spec w h rng (w * h) _ _ (initialGrid w h) 2 hs
    (initialGrid_not_visited w h _ _) (initialGrid_inv w h _) (by omega)
  have hall : ∀ x y, InGrid w h x y → m.Visited x y := by
    intro x y hg
    refine all_visited_of_closed hspec.root ?_ hs _ x y hg rfl
    intro px py hp hv d hd hq
    exact hspec.grown.closed px py hp hv (initialGrid_not_visited w h _ _) d hd hq
  have hfrom : ∀ a : Int × Int, InGrid w h a.1 a.2 →
      Connected w h m (randomIndex rng 0 w, randomIndex rng 1 h) a := by
    intro a ha
    exact hspec.grown.reach a.1 a.2 ha (hall _ _ ha) (initialGrid_not_visited w h _ _)
  refine ⟨m, ?_, hspec.inv, hall, ?_, ?_⟩
  · unfold generateMaze
    simp only [hm, Option.map_some']
  · intro a b ha hb
    exact Relation.ReflTransGen.trans (connected_symm (hfrom a ha)) (hfrom b hb)
  · have hcount := hspec.count
    rw [initialGrid_visitedCount, initialGrid_removedWalls] at hcount
    have hfull : visitedCount w h m = w * h := by
      rw [← card_grid w h]
      unfold visitedCount
      congr 1
      rw [Finset.filter_eq_self]
      intro p hp
      exact hall p.1 p.2 (mem_grid.mp hp)
    omega

theorem generateMaze_degenerate (w h : Nat) (rng : Rng) (hz : w = 0 ∨ h = 0) :
    generateMaze w h rng = none := by
  have : w * h = 0 := by rcases hz with rfl | rfl <;> simp
  unfold generateMaze
  rw [this]
  rfl

/-! ## Lemmas on the validators and the frame update -/

theorem cell?_of_inGrid {m : Maze} {w h : Nat} (hs : m.HasSize w h) {x y : Int}
    (hg : InGrid w h x y) : ∃ c, m.cell? x y = some c ∧ m.cellD x y = c := by
  have hsome := (hs x y).mpr hg
  cases hc : m.cell? x y with
  | none => simp [hc] at hsome
  | some c => exact ⟨c, rfl, by simp [Maze.cellD, hc]⟩

theorem sqrtLt_iff_real (d2 r : ℚ) :
    sqrtLt d2 r = true ↔ Real.sqrt (d2 : ℝ) < (r : ℝ) := by
  unfold sqrtLt
  rw [decide_eq_true_iff]
  constructor
  · rintro ⟨hr, hd⟩
    have hr1 : (0 : ℝ) < (r : ℝ) := by exact_mod_cast hr
    rw [Real.sqrt_lt' hr1]
    have : ((d2 : ℚ) : ℝ) < ((r * r : ℚ) : ℝ) := by exact_mod_cast hd
    rw [pow_two]
    simpa using this
  · intro h
    have hr1 : (0 : ℝ) < (r : ℝ) := lt_of_le_of_lt (Real.sqrt_nonneg _) h
    have hr : 0 < r := by exact_mod_cast hr1
    rw [Real.sqrt_lt' hr1, pow_two] at h
    refine ⟨hr, ?_⟩
    have : ((d2 : ℚ) : ℝ) < ((r * r : ℚ) : ℝ) := by simpa using h
    exact_mod_cast this

theorem isValidEnemyMove_free (maze : Maze) (mazeSize : Nat) (fromX fromY toX toY : ℚ)
    (hin : 1 / 2 ≤ toX ∧ toX < mazeSize + 1 / 2 ∧ 1 / 2 ≤ toY ∧ toY < mazeSize + 1 / 2)
    (hcell : (⌊fromX⌋ = ⌊toX⌋ ∧ ⌊fromY⌋ = ⌊toY⌋) ∨ (⌊fromX⌋ ≠ ⌊toX⌋ ∧ ⌊fromY⌋ ≠ ⌊toY⌋)) :
    isValidEnemyMove maze mazeSize fromX fromY toX toY = some true := by
  unfold isValidEnemyMove
  have hb : ¬ (toX < 1 / 2 ∨ toX ≥ mazeSize + 1 / 2 ∨ toY < 1 / 2 ∨ toY ≥ mazeSize + 1 / 2) := by
    rintro (h | h | h | h)
    · exact absurd hin.1 (not_le.mpr h)
    · exact absurd hin.2.1 (not_lt.mpr h)
    · exact absurd hin.2.2.1 (not_le.mpr h)
    · exact absurd hin.2.2.2 (not_lt.mpr h)
  rw [if_neg hb]
  dsimp only
  rcases hcell with ⟨hx, hy⟩ | ⟨hx, hy⟩
  · rw [if_neg (by simp [hx, hy])]
  · rw [if_pos (Or.inl hx), if_neg hy, if_neg hx]

theorem updateEnemies_single_ok (trig : Trig) (rng : Rng) (s : GameState) (e e1 : Enemy)
    (c1 : Nat) (hen : s.enemies = [e]) (hpow : s.activePowerUp ≠ some PowerType.freeze)
    (hstep : stepEnemy trig rng s.maze s.mazeSize (turnEnemy rng 0 e).2 (turnEnemy rng 0 e).1 =
      some (e1, c1))
    (hfar : touches s.player.x s.player.y s.player.size e1 = false) :
    updateEnemies trig rng s = ({ s with enemies := [e1] }, true) := by
  unfold updateEnemies
  rw [if_neg hpow, hen]
  simp only [updateEnemiesLoop, hstep, hfar, Bool.false_eq_true, false_and, if_false]

theorem updateEnemies_single_fault (trig : Trig) (rng : Rng) (s : GameState) (e : Enemy)
    (hen : s.enemies = [e]) (hpow : s.activePowerUp ≠ some PowerType.freeze)
    (hstep : stepEnemy trig rng s.maze s.mazeSize (turnEnemy rng 0 e).2 (turnEnemy rng 0 e).1 =
      none) :
    (updateEnemies trig rng s).2 = false := by
  unfold updateEnemies
  rw [if_neg hpow, hen]
  simp only [updateEnemiesLoop, hstep]

/-! ## Lemmas on the score -/

theorem checkCollectiblesLoop_score (items : List Collectible) :
    ∀ s : GameState, 0 ≤ s.score → 0 ≤ (checkCollectiblesLoop s items).1.score := by
  induction items with
  | nil => intro s hs; exact hs
  | cons item rest ih =>
    intro s hs
    unfold checkCollectiblesLoop
    split
    · apply ih
      unfold collect
      cases item.type <;> simp only <;> omega
    · exact ih s hs

theorem checkCollectibles_score (s : GameState) (hs : 0 ≤ s.score) :
    0 ≤ (checkCollectibles s).score :=
  checkCollectiblesLoop_score s.collectibles s hs

theorem checkPowerUpsLoop_score (items : List PowerUp) :
    ∀ s : GameState, (checkPowerUpsLoop s items).1.score = s.score := by
  induction items with
  | nil => intro s; rfl
  | cons item rest ih =>
    intro s
    unfold checkPowerUpsLoop
    split
    · exact ih _
    · exact ih s

theorem checkPowerUps_score (s : GameState) : (checkPowerUps s).score = s.score :=
  checkPowerUpsLoop_score s.powerUps s

theorem tryMovePlayer_score (s : GameState) (hs : 0 ≤ s.score) :
    0 ≤ (tryMovePlayer s).1.score := by
  unfold tryMovePlayer
  split
  · exact hs
  · dsimp only
    split
    · exact hs
    · exact hs
    · rw [checkPowerUps_score]
      exact checkCollectibles_score _ hs

theorem keyDown_score (key : Key) (s : GameState) (hs : 0 ≤ s.score) :
    0 ≤ (keyDown key s).1.score := by
  unfold keyDown
  split
  · exact tryMovePlayer_score _ hs
  · exact hs

theorem catchPlayer_score (s : GameState) : (catchPlayer s).score = max 0 (s.score - 10) := rfl

theorem updateEnemiesLoop_score (trig : Trig) (rng : Rng) (es : List Enemy) :
    ∀ (s : GameState) (c : Nat), 0 ≤ s.score →
      0 ≤ (updateEnemiesLoop trig rng es (s, c)).1.score := by
  induction es with
  | nil => intro s c hs; exact hs
  | cons e rest ih =>
    intro s c hs
    unfold updateEnemiesLoop
    dsimp only
    split
    · exact hs
    · apply ih
      split
      · rw [catchPlayer_score]
        exact le_max_left 0 _
      · exact hs

theorem updateEnemies_score (trig : Trig) (rng : Rng) (s : GameState) (hs : 0 ≤ s.score) :
    0 ≤ (updateEnemies trig rng s).1.score := by
  unfold updateEnemies
  split
  · exact hs
  · exact updateEnemiesLoop_score trig rng s.enemies s 0 hs

theorem updatePlayerAnimation_score (s : GameState) :
    (updatePlayerAnimation s).score = s.score := by
  unfold updatePlayerAnimation
  split <;> rfl

theorem updatePowerUp_score (s : GameState) : (updatePowerUp s).score = s.score := by
  unfold updatePowerUp
  split
  · dsimp only
    split <;> rfl
  · rfl

theorem animate_score (trig : Trig) (rng : Rng) (s : GameState) (hs : 0 ≤ s.score) :
    0 ≤ (animate trig rng s).1.score := by
  have h1 : 0 ≤ (updateEnemies trig rng (updatePlayerAnimation s)).1.score :=
    updateEnemies_score trig rng _ (by rw [updatePlayerAnimation_score]; exact hs)
  unfold animate
  dsimp only
  split
  · exact h1
  · split
    · show 0 ≤ (updatePowerUp _).score + 100
      rw [updatePowerUp_score]
      omega
    · rw [updatePowerUp_score]
      exact h1

theorem generateEnemies_score {rng : Rng} {fuel : Nat} {s s1 : GameState}
    (h : generateEnemies rng fuel s = some s1) : s1.score = s.score := by
  unfold generateEnemies at h
  simp only [Option.map_eq_some'] at h
  obtain ⟨es, _, rfl⟩ := h
  rfl

theorem generateCollectibles_score {rng : Rng} {fuel : Nat} {s s1 : GameState}
    (h : generateCollectibles rng fuel s = some s1) : s1.score = s.score := by
  unfold generateCollectibles at h
  simp only at h
  split at h
  · exact absurd h (by simp)
  · split at h
    · exact absurd h (by simp)
    · split at h
      · exact absurd h (by simp)
      · simp only [Option.some.injEq] at h
        subst h
        rfl

theorem init_score {rm re rc : Rng} {fuel : Nat} {s : GameState}
    (h : init rm re rc fuel = some s) : s.score = 0 := by
  unfold init at h
  simp only at h
  split at h
  · exact absurd h (by simp)
  · split at h
    · exact absurd h (by simp)
    · rename_i s2 h2
      rw [generateCollectibles_score h, generateEnemies_score h2]
      rfl

theorem nextLevel_score {rm re rc : Rng} {fuel : Nat} {s s1 : GameState}
    (h : nextLevel rm re rc fuel s = some s1) : s1.score = s.score := by
  unfold nextLevel at h
  simp only at h
  split at h
  · exact absurd h (by simp)
  · split at h
    · exact absurd h (by simp)
    · rename_i s2 h2
      split at h
      · exact absurd h (by simp)
      · rename_i s3 h3
        simp only [Option.some.injEq] at h
        subst h
        show s3.score = s.score
        rw [generateCollectibles_score h3, generateEnemies_score h2]
        rfl

theorem step_score {trig : Trig} {s s1 : GameState} (hstep : Step trig s s1)
    (hs : 0 ≤ s.score) : 0 ≤ s1.score := by
  cases hstep with
  | frame rng => exact animate_score trig rng s hs
  | keyDown key => exact keyDown_score key s hs
  | keyUp key => exact hs
  | nextLevel rm re rc fuel hgo hnext => rw [nextLevel_score hnext]; exact hs

theorem reachable_score {trig : Trig} {s : GameState} (hr : Reachable trig s) :
    0 ≤ s.score := by
  induction hr with
  | init rm re rc fuel h => rw [init_score h]
  | step _ hstep ih => exact step_score hstep ih

/-! ## The sample run -/

theorem enemyDraws_values :
    randomIndex enemyDraws 0 15 = 14 ∧ randomIndex enemyDraws 1 15 = 13 ∧
      random enemyDraws 2 = 1 / 8 := by
  refine ⟨?_, ?_, ?_⟩ <;> norm_num [randomIndex, random, enemyDraws, Int.fract]

theorem cornerDraws_index (i : Nat) : randomIndex cornerDraws i 15 = 14 := by
  norm_num [randomIndex, random, cornerDraws, Int.fract]

theorem generateEnemies_corner (s : GameState) (hsize : s.mazeSize = 15)
    (hlevel : s.currentLevel = 1) (hx : s.player.x = 1 / 2) (hy : s.player.y = 1 / 2) :
    generateEnemies enemyDraws 1 s = some { s with enemies := [cornerEnemy] } := by
  obtain ⟨e0, e1, e2⟩ := enemyDraws_values
  simp only [generateEnemies, hsize, hlevel, hx, hy, generateEnemiesLoop, sampleEnemyCell, e0, e1,
    abs_lt, cornerEnemy]
  norm_num [e2]

theorem generateCollectibles_corner (s : GameState) (hsize : s.mazeSize = 15)
    (hlevel : s.currentLevel = 1) (hx : s.player.x = 1 / 2) (hy : s.player.y = 1 / 2)
    (hex : s.exit.x = 15 / 2) (hey : s.exit.y = 15 / 2) :
    ∃ items, generateCollectibles cornerDraws 1 s =
      some { s with collectibles := items, powerUps := [] } := by
  have hfl : ⌊(1 / 2 : ℚ)⌋ = 0 := by norm_num
  have hfe : ⌊(15 / 2 : ℚ)⌋ = 7 := by norm_num
  simp only [generateCollectibles, hsize, hlevel, hx, hy, hex, hey, generateItemsLoop,
    sampleItemCell, cornerDraws_index, hfl, hfe, generatePowerUpsLoop]
  norm_num

theorem init_corner :
    ∃ s, init cornerDraws enemyDraws cornerDraws 1 = some s ∧ Calm s (29 / 2) (27 / 2) := by
  obtain ⟨m, hm, hinv, _⟩ := generateMaze_spec 15 15 (by decide) (by decide) cornerDraws
  have hm1 : generateMaze initialState.mazeSize initialState.mazeSize cornerDraws = some m := hm
  unfold init
  simp only [hm1]
  rw [generateEnemies_corner _ rfl rfl rfl rfl]
  simp only
  obtain ⟨items, hitems⟩ := generateCollectibles_corner
    { ({ (placeExit (resetPlayer { initialState with maze := m })) with
          visitedCells := insert (⌊(1 / 2 : ℚ)⌋, ⌊(1 / 2 : ℚ)⌋) ∅ } : GameState) with
      enemies := [cornerEnemy] } rfl rfl rfl rfl
    (by norm_num [placeExit, resetPlayer, initialState])
    (by norm_num [placeExit, resetPlayer, initialState])
  refine ⟨_, hitems, ?_⟩
  exact ⟨hinv.size, rfl, rfl, rfl, rfl, rfl, rfl, rfl, rfl⟩

theorem calm_frame (s : GameState) (x y : ℚ) (hc : Calm s x y) (hxy : x = y + 1)
    (hlo : 14 ≤ x) (hhi : x + 21213 / 1000000 < 31 / 2) :
    Calm (animate sampleTrig quietDraws s).1 (x + 21213 / 1000000) (y + 21213 / 1000000) := by
  have hidle : updatePlayerAnimation s = { s with camera := { s.camera with
      x := s.camera.x + (s.camera.targetX - s.camera.x) * (1 / 10),
      y := s.camera.y + (s.camera.targetY - s.camera.y) * (1 / 10) } } := by
    simp [updatePlayerAnimation, hc.moving]
  have hturn : turnEnemy quietDraws 0 { cornerEnemy with x := x, y := y } =
      ({ cornerEnemy with x := x, y := y }, 1) := by
    have : ¬ random quietDraws 0 < 1 / 50 := by
      norm_num [random, quietDraws, Int.fract]
    simp only [turnEnemy, if_neg this]
  have hfloor : ⌊x⌋ = ⌊y⌋ + 1 ∧ ⌊x + 21213 / 1000000⌋ = ⌊y + 21213 / 1000000⌋ + 1 := by
    subst hxy
    constructor
    · exact Int.floor_add_one y
    · rw [show y + 1 + 21213 / 1000000 = y + 21213 / 1000000 + 1 by ring]
      exact Int.floor_add_one _
  have hvalid : isValidEnemyMove s.maze 15 x y (x + 21213 / 1000000) (y + 21213 / 1000000) =
      some true := by
    apply isValidEnemyMove_free
    · subst hxy
      norm_num
      refine ⟨by linarith, by linarith, by linarith, by linarith⟩
    · by_cases h : ⌊y⌋ = ⌊y + 21213 / 1000000⌋
      · left
        exact ⟨by omega, h⟩
      · right
        exact ⟨by omega, h⟩
  have hstep : stepEnemy sampleTrig quietDraws s.maze 15 1 { cornerEnemy with x := x, y := y } =
      some ({ cornerEnemy with x := x + 21213 / 1000000, y := y + 21213 / 1000000 }, 1) := by
    have e1 : x + 7071 / 10000 * (3 / 100) = x + 21213 / 1000000 := by norm_num
    have e2 : y + 7071 / 10000 * (3 / 100) = y + 21213 / 1000000 := by norm_num
    simp only [stepEnemy, cornerEnemy, sampleTrig, if_true, e1, e2, hvalid]
  have hfar : touches (1 / 2) (1 / 2) 14
      { cornerEnemy with x := x + 21213 / 1000000, y := y + 21213 / 1000000 } = false := by
    simp only [touches, sqrtLt, cornerEnemy, cellSize, decide_eq_false_iff_not, not_and, not_lt]
    intro _
    subst hxy
    nlinarith
  have hupd : updateEnemies sampleTrig quietDraws (updatePlayerAnimation s) =
      ({ updatePlayerAnimation s with
          enemies := [{ cornerEnemy with x := x + 21213 / 1000000, y := y + 21213 / 1000000 }] },
        true) := by
    apply updateEnemies_single_ok sampleTrig quietDraws _ { cornerEnemy with x := x, y := y } _ 1
    · rw [hidle]; exact hc.enemies
    · rw [hidle]; simp [hc.power]
    · rw [hturn, hidle]
      simp only [hc.mazeSize]
      exact hstep
    · rw [hidle]
      simp only [hc.player]
      exact hfar
  have hexit : ∀ t : GameState, t.keys = 0 → t.currentLevel = 1 → checkExit t = false := by
    intro t hk hl
    simp [checkExit, hk, hl]
  unfold animate
  simp only [hupd, Bool.true_eq_false, if_false]
  have hpu : ∀ t : GameState, t.activePowerUp = none → updatePowerUp t = t := by
    intro t ht
    simp [updatePowerUp, ht]
  rw [hpu _ (by rw [hidle]; exact hc.power)]
  rw [hexit _ (by rw [hidle]; exact hc.keys) (by rw [hidle]; exact hc.level)]
  simp only [Bool.false_eq_true, false_and, if_false]
  rw [hidle]
  exact ⟨hc.size, hc.mazeSize, hc.player, rfl, hc.gameOver, hc.moving, hc.power, hc.keys, hc.level⟩

theorem calm_run (s0 : GameState) (hs0 : init cornerDraws enemyDraws cornerDraws 1 = some s0)
    (hcalm0 : Calm s0 (29 / 2) (27 / 2)) : ∀ n : Nat, n ≤ 24 →
      Reachable sampleTrig (runFrames sampleTrig quietDraws n s0) ∧
      Calm (runFrames sampleTrig quietDraws n s0)
        (29 / 2 + n * (21213 / 1000000)) (27 / 2 + n * (21213 / 1000000)) := by
  intro n
  induction n with
  | zero =>
    intro _
    refine ⟨Reachable.init _ _ _ _ hs0, ?_⟩
    simpa [runFrames] using hcalm0
  | succ n ih =>
    intro hn
    obtain ⟨hreach, hcalm⟩ := ih (by omega)
    have hn1 : (n : ℚ) ≤ 23 := by exact_mod_cast (by omega : n ≤ 23)
    have hn0 : (0 : ℚ) ≤ (n : ℚ) := Nat.cast_nonneg n
    have hstep := calm_frame _ _ _ hcalm (by ring) (by linarith) (by linarith)
    refine ⟨Reachable.step hreach (Step.frame quietDraws _), ?_⟩
    have e1 : (29 / 2 : ℚ) + ((n + 1 : Nat) : ℚ) * (21213 / 1000000) =
        29 / 2 + n * (21213 / 1000000) + 21213 / 1000000 := by push_cast; ring
    have e2 : (27 / 2 : ℚ) + ((n + 1 : Nat) : ℚ) * (21213 / 1000000) =
        27 / 2 + n * (21213 / 1000000) + 21213 / 1000000 := by push_cast; ring
    rw [e1, e2]
    exact hstep

theorem calm_fault (s : GameState) (hc : Calm s (1876139 / 125000) (1751139 / 125000)) :
    (animate sampleTrig turnDraws s).2 = false := by
  have hidle : updatePlayerAnimation s = { s with camera := { s.camera with
      x := s.camera.x + (s.camera.targetX - s.camera.x) * (1 / 10),
      y := s.camera.y + (s.camera.targetY - s.camera.y) * (1 / 10) } } := by
    simp [updatePlayerAnimation, hc.moving]
  have hturn : turnEnemy turnDraws 0
      { cornerEnemy with x := 1876139 / 125000, y := 1751139 / 125000 } =
      ({ cornerEnemy with x := 1876139 / 125000, y := 1751139 / 125000, direction := 1 / 2 },
        2) := by
    have h0 : random turnDraws 0 < 1 / 50 := by
      norm_num [random, turnDraws, Int.fract]
    have h1 : random turnDraws 1 = 1 / 2 := by
      norm_num [random, turnDraws, Int.fract]
    simp only [turnEnemy, if_pos h0, h1]
  have hcell : s.maze.cell? 15 14 = none := by
    have := (hc.size 15 14)
    cases hcc : s.maze.cell? 15 14 with
    | none => rfl
    | some c =>
      rw [hcc] at this
      have hin := this.mp rfl
      unfold InGrid at hin
      omega
  have hstep : stepEnemy sampleTrig turnDraws s.maze 15 2
      { cornerEnemy with x := 1876139 / 125000, y := 1751139 / 125000, direction := 1 / 2 } =
      none := by
    have f1 : ⌊(1876139 / 125000 : ℚ)⌋ = 15 := by norm_num
    have f2 : ⌊(1751139 / 125000 : ℚ)⌋ = 14 := by norm_num
    have f3 : ⌊(1876139 / 125000 + -1 * (3 / 100) : ℚ)⌋ = 14 := by norm_num
    have f4 : ⌊(1751139 / 125000 + 0 * (3 / 100) : ℚ)⌋ = 14 := by norm_num
    simp only [stepEnemy, cornerEnemy, sampleTrig, isValidEnemyMove, f1, f2, f3, f4, hcell]
    norm_num
  have hupd : (updateEnemies sampleTrig turnDraws (updatePlayerAnimation s)).2 = false := by
    apply updateEnemies_single_fault sampleTrig turnDraws _
      { cornerEnemy with x := 1876139 / 125000, y := 1751139 / 125000 }
    · rw [hidle]; exact hc.enemies
    · rw [hidle]; simp [hc.power]
    · rw [hturn, hidle]
      simp only [hc.mazeSize]
      exact hstep
  unfold animate
  simp only [hupd, if_true]

/-! ## Catches -/

theorem isValidEnemyMove_isSome (maze : Maze) (mazeSize : Nat)
    (hs : maze.HasSize mazeSize mazeSize) (fromX fromY toX toY : ℚ)
    (hsrc : InGrid mazeSize mazeSize ⌊fromX⌋ ⌊fromY⌋) :
    ∃ b, isValidEnemyMove maze mazeSize fromX fromY toX toY = some b := by
  obtain ⟨c, hc, _⟩ := cell?_of_inGrid hs hsrc
  unfold isValidEnemyMove
  simp only [hc, Option.map_some']
  split_ifs <;> exact ⟨_, rfl⟩

theorem turnEnemy_pos (rng : Rng) (c : Nat) (e : Enemy) :
    (turnEnemy rng c e).1.x = e.x ∧ (turnEnemy rng c e).1.y = e.y := by
  unfold turnEnemy
  split <;> exact ⟨rfl, rfl⟩

theorem stepEnemy_isSome (trig : Trig) (rng : Rng) (maze : Maze) (mazeSize : Nat)
    (hs : maze.HasSize mazeSize mazeSize) (c : Nat) (e : Enemy)
    (hsrc : InGrid mazeSize mazeSize ⌊e.x⌋ ⌊e.y⌋) :
    ∃ r, stepEnemy trig rng maze mazeSize c e = some r := by
  obtain ⟨b, hb⟩ := isValidEnemyMove_isSome maze mazeSize hs e.x e.y
    (e.x + trig.cos e.direction * e.speed) (e.y + trig.sin e.direction * e.speed) hsrc
  unfold stepEnemy
  simp only [hb]
  cases b <;> exact ⟨_, rfl⟩

theorem catchPlayer_twice (s : GameState) (k : Int) :
    ({ catchPlayer (catchPlayer s) with score := k } : GameState) =
      { catchPlayer s with score := k } := rfl

theorem updateEnemiesLoop_catches (trig : Trig) (rng : Rng) :
    ∀ (es : List Enemy) (s : GameState) (c : Nat), s.gameOver = false →
      s.maze.HasSize s.mazeSize s.mazeSize →
      (∀ e ∈ es, InGrid s.mazeSize s.mazeSize ⌊e.x⌋ ⌊e.y⌋) →
      (updateEnemiesLoop trig rng es (s, c)).2.2 = true ∧
      (catchCount s.player.size (s.player.x, s.player.y)
          (updateEnemiesLoop trig rng es (s, c)).2.1 = 0 →
        (updateEnemiesLoop trig rng es (s, c)).1 = s) ∧
      (1 ≤ catchCount s.player.size (s.player.x, s.player.y)
          (updateEnemiesLoop trig rng es (s, c)).2.1 →
        (updateEnemiesLoop trig rng es (s, c)).1 =
          { catchPlayer s with score := max 0 (s.score - 10 *
            (catchCount s.player.size (s.player.x, s.player.y)
              (updateEnemiesLoop trig rng es (s, c)).2.1 : Nat)) }) := by
  intro es
  induction es with
  | nil =>
    intro s c _ _ _
    refine ⟨rfl, fun _ => rfl, ?_⟩
    intro h
    simp [updateEnemiesLoop, catchCount] at h
  | cons e rest ih =>
    intro s c hgo hsize hen
    have hsrc : InGrid s.mazeSize s.mazeSize ⌊(turnEnemy rng c e).1.x⌋ ⌊(turnEnemy rng c e).1.y⌋ := by
      rw [(turnEnemy_pos rng c e).1, (turnEnemy_pos rng c e).2]
      exact hen e (List.mem_cons_self e rest)
    obtain ⟨⟨e1, c1⟩, hstep⟩ := stepEnemy_isSome trig rng s.maze s.mazeSize hsize
      (turnEnemy rng c e).2 (turnEnemy rng c e).1 hsrc
    have hrest : ∀ e ∈ rest, InGrid s.mazeSize s.mazeSize ⌊e.x⌋ ⌊e.y⌋ :=
      fun e he => hen e (List.mem_cons_of_mem _ he)
    unfold updateEnemiesLoop
    simp only [hstep]
    by_cases ht : touches s.player.x s.player.y s.player.size e1 = true
    · simp only [ht, hgo, and_self, if_true, catchCount]
      obtain ⟨hdone, hzero, hpos⟩ := ih (catchPlayer s) c1 hgo hsize hrest
      refine ⟨hdone, ?_, ?_⟩
      · intro h
        exact absurd h (Nat.succ_ne_zero _)
      · intro _
        have hp : (catchPlayer s).player.size = s.player.size := rfl
        have hx : (catchPlayer s).player.x = 1 / 2 := rfl
        have hy : (catchPlayer s).player.y = 1 / 2 := rfl
        rw [hp, hx, hy] at hzero hpos
        by_cases hk : catchCount s.player.size (1 / 2, 1 / 2)
            (updateEnemiesLoop trig rng rest (catchPlayer s, c1)).2.1 = 0
        · rw [hzero hk, hk]
          rfl
        · have hscore : ∀ k : Nat, 1 ≤ k →
              max 0 ((catchPlayer s).score - 10 * (k : Int)) =
                max 0 (s.score - 10 * ((k + 1 : Nat) : Int)) := by
            intro k hk1
            rw [catchPlayer_score]
            push_cast
            omega
          rw [hpos (by omega), catchPlayer_twice, hscore _ (by omega)]
    · simp only [ht, false_and, if_false, catchCount]
      exact ih s c1 hgo hsize hrest

theorem turnEnemy_quiet (c : Nat) (e : Enemy) : turnEnemy quietDraws c e = (e, c + 1) := by
  have : ¬ random quietDraws c < 1 / 50 := by
    norm_num [random, quietDraws, Int.fract]
  simp only [turnEnemy, if_neg this]

theorem twoEnemyState_frame :
    updateEnemies sampleTrig quietDraws twoEnemyState =
      ({ catchPlayer twoEnemyState with
          enemies :=
            [ { x := 5521213 / 1000000, y := 5521213 / 1000000, size := 12, speed := 3 / 100,
                direction := 1 / 8 },
              { x := 5771213 / 1000000, y := 5521213 / 1000000, size := 12, speed := 3 / 100,
                direction := 1 / 8 } ] }, true) := by
  have hv1 : isValidEnemyMove twoEnemyState.maze 17 (11 / 2) (11 / 2)
      (5521213 / 1000000) (5521213 / 1000000) = some true := by
    apply isValidEnemyMove_free
    · norm_num
    · left
      norm_num
  have hv2 : isValidEnemyMove twoEnemyState.maze 17 (23 / 4) (11 / 2)
      (5771213 / 1000000) (5521213 / 1000000) = some true := by
    apply isValidEnemyMove_free
    · norm_num
    · left
      norm_num
  have hm : (catchPlayer twoEnemyState).maze = twoEnemyState.maze := rfl
  have hp : twoEnemyState.activePowerUp ≠ some PowerType.freeze := by
    simp [twoEnemyState, initialState]
  unfold updateEnemies
  rw [if_neg hp]
  have hen : twoEnemyState.enemies =
      [ { x := 11 / 2, y := 11 / 2, size := 12, speed := 3 / 100, direction := 1 / 8 },
        { x := 23 / 4, y := 11 / 2, size := 12, speed := 3 / 100, direction := 1 / 8 } ] := rfl
  have hsz : twoEnemyState.mazeSize = 17 := rfl
  have hpl : twoEnemyState.player = { x := 11 / 2, y := 11 / 2, size := 14 } := rfl
  have hgo : twoEnemyState.gameOver = false := rfl
  have hcp : (catchPlayer twoEnemyState).player = { x := 1 / 2, y := 1 / 2, size := 14 } := rfl
  have hcg : (catchPlayer twoEnemyState).gameOver = false := rfl
  have hcs : (catchPlayer twoEnemyState).mazeSize = 17 := rfl
  have e1 : (11 / 2 : ℚ) + 7071 / 10000 * (3 / 100) = 5521213 / 1000000 := by norm_num
  have e2 : (23 / 4 : ℚ) + 7071 / 10000 * (3 / 100) = 5771213 / 1000000 := by norm_num
  have t1 : touches (11 / 2) (11 / 2) 14
      { x := 5521213 / 1000000, y := 5521213 / 1000000, size := 12, speed := 3 / 100,
        direction := 1 / 8 } = true := by
    simp only [touches, sqrtLt, cellSize, decide_eq_true_iff]
    norm_num
  have t2 : touches (1 / 2) (1 / 2) 14
      { x := 5771213 / 1000000, y := 5521213 / 1000000, size := 12, speed := 3 / 100,
        direction := 1 / 8 } = false := by
    simp only [touches, sqrtLt, cellSize, decide_eq_false_iff_not]
    norm_num
  rw [hen]
  simp only [updateEnemiesLoop, turnEnemy_quiet, stepEnemy, sampleTrig, if_true, hsz, hv1, hpl,
    hgo, e1, e2, t1, and_self, hm, hcs, hv2, hcp, hcg, t2, Bool.false_eq_true, false_and, if_false]

/-! ## Player moves -/

theorem isValidMove_char (maze : Maze) (mazeSize : Nat) (hs : maze.HasSize mazeSize mazeSize)
    (fromX fromY toX toY : ℚ) (hsrc : InGrid mazeSize mazeSize ⌊fromX⌋ ⌊fromY⌋) :
    ∃ b, isValidMove maze mazeSize fromX fromY toX toY = some b ∧
      (b = true ↔
        (1 / 2 ≤ toX ∧ toX < mazeSize + 1 / 2 ∧ 1 / 2 ≤ toY ∧ toY < mazeSize + 1 / 2) ∧
        ((⌊toX⌋ ≠ ⌊fromX⌋ ∧ ⌊toY⌋ = ⌊fromY⌋) ∨ (⌊toX⌋ = ⌊fromX⌋ ∧ ⌊toY⌋ ≠ ⌊fromY⌋)) ∧
        (maze.cellD ⌊fromX⌋ ⌊fromY⌋).wall (travelWall ⌊fromX⌋ ⌊fromY⌋ ⌊toX⌋ ⌊toY⌋) = false) := by
  obtain ⟨c, hc, hD⟩ := cell?_of_inGrid hs hsrc
  unfold isValidMove
  simp only [hc, Option.map_some', hD, travelWall]
  by_cases hb : toX < 1 / 2 ∨ toX ≥ mazeSize + 1 / 2 ∨ toY < 1 / 2 ∨ toY ≥ mazeSize + 1 / 2
  · rw [if_pos hb]
    refine ⟨false, rfl, ?_⟩
    simp only [Bool.false_eq_true, false_iff, not_and]
    intro hin
    rcases hb with h | h | h | h
    · exact absurd hin.1 (not_le.mpr h)
    · exact absurd hin.2.1 (not_lt.mpr h)
    · exact absurd hin.2.2.1 (not_le.mpr h)
    · exact absurd hin.2.2.2 (not_lt.mpr h)
  · rw [if_neg hb]
    have hin : 1 / 2 ≤ toX ∧ toX < mazeSize + 1 / 2 ∧ 1 / 2 ≤ toY ∧ toY < mazeSize + 1 / 2 := by
      simp only [not_or, not_lt, ge_iff_le, not_le] at hb
      exact ⟨hb.1, hb.2.1, hb.2.2.1, hb.2.2.2⟩
    by_cases hy : ⌊fromY⌋ = ⌊toY⌋
    · rw [if_pos hy]
      by_cases hgt : ⌊toX⌋ > ⌊fromX⌋
      · rw [if_pos hgt]
        refine ⟨_, rfl, ?_⟩
        simp [hy, hgt, ne_of_gt hgt, Cell.wall]
        intro _
        simpa using hin
      · rw [if_neg hgt]
        by_cases hlt : ⌊toX⌋ < ⌊fromX⌋
        · rw [if_pos hlt]
          refine ⟨_, rfl, ?_⟩
          simp [hy, hgt, hlt, ne_of_lt hlt, Cell.wall]
          intro _
          simpa using hin
        · rw [if_neg hlt]
          refine ⟨_, rfl, ?_⟩
          have : ⌊toX⌋ = ⌊fromX⌋ := by omega
          simp [hy, this]
    · rw [if_neg hy]
      by_cases hx : ⌊fromX⌋ = ⌊toX⌋
      · rw [if_pos hx]
        by_cases hgt : ⌊toY⌋ > ⌊fromY⌋
        · rw [if_pos hgt]
          refine ⟨_, rfl, ?_⟩
          simp [hx, hgt, ne_of_gt hgt, Cell.wall]
          intro _
          simpa using hin
        · rw [if_neg hgt]
          have hlt : ⌊toY⌋ < ⌊fromY⌋ := by omega
          rw [if_pos hlt]
          refine ⟨_, rfl, ?_⟩
          simp [hx, hgt, hlt, ne_of_lt hlt, Cell.wall]
          intro _
          simpa using hin
      · rw [if_neg hx]
        refine ⟨_, rfl, ?_⟩
        have h1 : ¬ ⌊toX⌋ = ⌊fromX⌋ := fun e => hx e.symm
        have h2 : ¬ ⌊toY⌋ = ⌊fromY⌋ := fun e => hy e.symm
        simp [h1, h2]

theorem checkCollectiblesLoop_frame (items : List Collectible) :
    ∀ s : GameState, (checkCollectiblesLoop s items).1.player = s.player ∧
      (checkCollectiblesLoop s items).1.visitedCells = s.visitedCells ∧
      (checkCollectiblesLoop s items).1.playerAnimation = s.playerAnimation ∧
      (checkCollectiblesLoop s items).1.powerUps = s.powerUps := by
  induction items with
  | nil => intro s; exact ⟨rfl, rfl, rfl, rfl⟩
  | cons item rest ih =>
    intro s
    unfold checkCollectiblesLoop
    split
    · have h := ih (collect s item)
      have hc : (collect s item).player = s.player ∧
          (collect s item).visitedCells = s.visitedCells ∧
          (collect s item).playerAnimation = s.playerAnimation ∧
          (collect s item).powerUps = s.powerUps := by
        unfold collect
        cases item.type <;> exact ⟨rfl, rfl, rfl, rfl⟩
      exact ⟨h.1.trans hc.1, h.2.1.trans hc.2.1, h.2.2.1.trans hc.2.2.1, h.2.2.2.trans hc.2.2.2⟩
    · exact ih s

theorem checkPowerUpsLoop_frame (items : List PowerUp) :
    ∀ s : GameState, (checkPowerUpsLoop s items).1.player = s.player ∧
      (checkPowerUpsLoop s items).1.visitedCells = s.visitedCells ∧
      (checkPowerUpsLoop s items).1.playerAnimation = s.playerAnimation := by
  induction items with
  | nil => intro s; exact ⟨rfl, rfl, rfl⟩
  | cons item rest ih =>
    intro s
    unfold checkPowerUpsLoop
    split
    · exact ih _
    · exact ih s

theorem pickups_frame (s : GameState) :
    (checkPowerUps (checkCollectibles s)).player = s.player ∧
      (checkPowerUps (checkCollectibles s)).visitedCells = s.visitedCells ∧
      (checkPowerUps (checkCollectibles s)).playerAnimation = s.playerAnimation := by
  have h1 := checkCollectiblesLoop_frame s.collectibles s
  have h2 := checkPowerUpsLoop_frame (checkCollectibles s).powerUps (checkCollectibles s)
  have e1 : (checkCollectibles s).player = s.player := h1.1
  have e2 : (checkCollectibles s).visitedCells = s.visitedCells := h1.2.1
  have e3 : (checkCollectibles s).playerAnimation = s.playerAnimation := h1.2.2.1
  exact ⟨h2.1.trans e1, h2.2.1.trans e2, h2.2.2.trans e3⟩

theorem corridor_valid :
    isValidMove corridorState.maze corridorState.mazeSize corridorState.player.x
      corridorState.player.y (moveTarget corridorState).1 (moveTarget corridorState).2 =
        some true := by
  have f1 : ⌊(1 / 2 : ℚ)⌋ = 0 := by norm_num
  have f2 : ⌊(1 / 2 + 1 : ℚ)⌋ = 1 := by norm_num
  have hc : sampleMaze.cell? 0 0 =
      some { north := true, south := true, east := false, west := true, visited := true } := by
    decide
  simp only [isValidMove, corridorState, initialState, moveTarget, if_true, f1, f2, hc]
  norm_num

theorem twoEnemyState_size : twoEnemyState.maze.HasSize 17 17 := by
  obtain ⟨m, hm, hinv, _⟩ := generateMaze_spec 17 17 (by decide) (by decide) cornerDraws
  have : twoEnemyState.maze = m := by
    show (generateMaze 17 17 cornerDraws).getD [] = m
    rw [hm]
    rfl
  rw [this]
  exact hinv.size

/-- On a cell change along exactly one axis the two validators run the same wall check. -/
theorem isValidEnemyMove_single_axis (maze : Maze) (mazeSize : Nat)
    (fromX fromY toX toY : ℚ)
    (hcell : (⌊fromX⌋ ≠ ⌊toX⌋ ∧ ⌊fromY⌋ = ⌊toY⌋) ∨ (⌊fromX⌋ = ⌊toX⌋ ∧ ⌊fromY⌋ ≠ ⌊toY⌋)) :
    isValidEnemyMove maze mazeSize fromX fromY toX toY =
      isValidMove maze mazeSize fromX fromY toX toY := by
  unfold isValidEnemyMove isValidMove
  split
  · rfl
  · dsimp only
    rcases hcell with ⟨hx, hy⟩ | ⟨hx, hy⟩
    · rw [if_pos (Or.inl hx), if_pos hy, if_pos hy]
      have : ⌊toX⌋ > ⌊fromX⌋ ∨ ⌊toX⌋ < ⌊fromX⌋ := by omega
      rcases this with h | h
      · rw [if_pos h, if_pos h]
      · rw [if_neg (by omega), if_pos h, if_neg (by omega), if_pos h]
    · rw [if_pos (Or.inr hy), if_neg hy, if_pos hx, if_neg hy, if_pos hx]
      have : ⌊toY⌋ > ⌊fromY⌋ ∨ ⌊toY⌋ < ⌊fromY⌋ := by omega
      rcases this with h | h
      · rw [if_pos h, if_pos h]
      · rw [if_neg (by omega), if_pos h, if_neg (by omega), if_pos h]

/-! ## The player stays in the grid -/

theorem checkCollectiblesLoop_maze (items : List Collectible) :
    ∀ s : GameState, (checkCollectiblesLoop s items).1.maze = s.maze ∧
      (checkCollectiblesLoop s items).1.mazeSize = s.mazeSize := by
  induction items with
  | nil => intro s; exact ⟨rfl, rfl⟩
  | cons item rest ih =>
    intro s
    unfold checkCollectiblesLoop
    split
    · have h := ih (collect s item)
      have hc : (collect s item).maze = s.maze ∧ (collect s item).mazeSize = s.mazeSize := by
        unfold collect
        cases item.type <;> exact ⟨rfl, rfl⟩
      exact ⟨h.1.trans hc.1, h.2.trans hc.2⟩
    · exact ih s

theorem checkPowerUpsLoop_maze (items : List PowerUp) :
    ∀ s : GameState, (checkPowerUpsLoop s items).1.maze = s.maze ∧
      (checkPowerUpsLoop s items).1.mazeSize = s.mazeSize := by
  induction items with
  | nil => intro s; exact ⟨rfl, rfl⟩
  | cons item rest ih =>
    intro s
    unfold checkPowerUpsLoop
    split
    · exact ih _
    · exact ih s

theorem pickups_maze (s : GameState) :
    (checkPowerUps (checkCollectibles s)).maze = s.maze ∧
      (checkPowerUps (checkCollectibles s)).mazeSize = s.mazeSize := by
  have h1 := checkCollectiblesLoop_maze s.collectibles s
  have h2 := checkPowerUpsLoop_maze (checkCollectibles s).powerUps (checkCollectibles s)
  have e1 : (checkCollectibles s).maze = s.maze := h1.1
  have e2 : (checkCollectibles s).mazeSize = s.mazeSize := h1.2
  exact ⟨h2.1.trans e1, h2.2.trans e2⟩

theorem playerHome_of_eq {s t : GameState} (hs : PlayerHome s) (hmaze : t.maze = s.maze)
    (hsize : t.mazeSize = s.mazeSize) (hp : t.player.x = s.player.x ∧ t.player.y = s.player.y) :
    PlayerHome t := by
  obtain ⟨h1, i, j, hg, hx, hy⟩ := hs
  refine ⟨by rw [hmaze, hsize]; exact h1, i, j, by rw [hsize]; exact hg, ?_, ?_⟩
  · rw [hp.1]; exact hx
  · rw [hp.2]; exact hy

theorem playerHome_start {s t : GameState} (hs : PlayerHome s) (hmaze : t.maze = s.maze)
    (hsize : t.mazeSize = s.mazeSize) (hp : t.player.x = 1 / 2 ∧ t.player.y = 1 / 2) :
    PlayerHome t := by
  obtain ⟨h1, i, j, hg, _, _⟩ := hs
  refine ⟨by rw [hmaze, hsize]; exact h1, 0, 0, ?_, ?_, ?_⟩
  · rw [hsize]
    unfold InGrid at hg ⊢
    omega
  · rw [hp.1]; norm_num
  · rw [hp.2]; norm_num

theorem updateEnemiesLoop_home (trig : Trig) (rng : Rng) (es : List Enemy) :
    ∀ (s : GameState) (c : Nat), PlayerHome s →
      PlayerHome (updateEnemiesLoop trig rng es (s, c)).1 := by
  induction es with
  | nil => intro s c hs; exact hs
  | cons e rest ih =>
    intro s c hs
    unfold updateEnemiesLoop
    dsimp only
    split
    · exact hs
    · apply ih
      split
      · exact playerHome_start hs rfl rfl ⟨rfl, rfl⟩
      · exact hs

theorem updateEnemies_home (trig : Trig) (rng : Rng) (s : GameState) (hs : PlayerHome s) :
    PlayerHome (updateEnemies trig rng s).1 := by
  unfold updateEnemies
  split
  · exact hs
  · exact playerHome_of_eq (updateEnemiesLoop_home trig rng s.enemies s 0 hs) rfl rfl ⟨rfl, rfl⟩

theorem updatePlayerAnimation_home (s : GameState) (hs : PlayerHome s) :
    PlayerHome (updatePlayerAnimation s) := by
  unfold updatePlayerAnimation
  split
  · exact playerHome_of_eq hs rfl rfl ⟨rfl, rfl⟩
  · exact playerHome_of_eq hs rfl rfl ⟨rfl, rfl⟩

theorem updatePowerUp_home (s : GameState) (hs : PlayerHome s) :
    PlayerHome (updatePowerUp s) := by
  unfold updatePowerUp
  split
  · dsimp only
    split
    · exact playerHome_of_eq hs rfl rfl ⟨rfl, rfl⟩
    · exact playerHome_of_eq hs rfl rfl ⟨rfl, rfl⟩
  · exact hs

theorem animate_home (trig : Trig) (rng : Rng) (s : GameState) (hs : PlayerHome s) :
    PlayerHome (animate trig rng s).1 := by
  have h1 := updateEnemies_home trig rng _ (updatePlayerAnimation_home s hs)
  unfold animate
  dsimp only
  split
  · exact h1
  · split
    · exact playerHome_of_eq (updatePowerUp_home _ h1) rfl rfl ⟨rfl, rfl⟩
    · exact updatePowerUp_home _ h1

theorem moveTarget_cases (s : GameState) :
    ((moveTarget s).1 = s.player.x - 1 ∨ (moveTarget s).1 = s.player.x ∨
      (moveTarget s).1 = s.player.x + 1) ∧
    ((moveTarget s).2 = s.player.y - 1 ∨ (moveTarget s).2 = s.player.y ∨
      (moveTarget s).2 = s.player.y + 1) := by
  unfold moveTarget
  constructor
  · cases s.keysPressed.ArrowLeft <;> cases s.keysPressed.ArrowRight <;> simp
  · cases s.keysPressed.ArrowUp <;> cases s.keysPressed.ArrowDown <;> simp

theorem tryMovePlayer_home (s : GameState) (hs : PlayerHome s) :
    PlayerHome (tryMovePlayer s).1 ∧ (tryMovePlayer s).2 = true := by
  obtain ⟨hsize, i, j, hg, hx, hy⟩ := hs
  have hfx : ⌊s.player.x⌋ = i := by
    rw [hx, Int.floor_eq_iff]
    constructor <;> norm_num
  have hfy : ⌊s.player.y⌋ = j := by
    rw [hy, Int.floor_eq_iff]
    constructor <;> norm_num
  obtain ⟨b, hb, hiff⟩ := isValidMove_char s.maze s.mazeSize hsize s.player.x s.player.y
    (moveTarget s).1 (moveTarget s).2 (by rw [hfx, hfy]; exact hg)
  unfold tryMovePlayer
  split
  · exact ⟨⟨hsize, i, j, hg, hx, hy⟩, rfl⟩
  · simp only [hb]
    cases b with
    | false => exact ⟨⟨hsize, i, j, hg, hx, hy⟩, rfl⟩
    | true =>
      refine ⟨?_, rfl⟩
      obtain ⟨⟨b1, b2, b3, b4⟩, _, _⟩ := hiff.mp rfl
      obtain ⟨hm1, hm2⟩ := pickups_maze (commitMove s (moveTarget s).1 (moveTarget s).2)
      obtain ⟨hp, _, _⟩ := pickups_frame (commitMove s (moveTarget s).1 (moveTarget s).2)
      obtain ⟨cx, cy⟩ := moveTarget_cases s
      have hxq : ∃ i1 : Int, (moveTarget s).1 = i1 + 1 / 2 ∧ (i1 = i - 1 ∨ i1 = i ∨ i1 = i + 1) := by
        rcases cx with h | h | h
        · exact ⟨i - 1, by rw [h, hx]; push_cast; ring, Or.inl rfl⟩
        · exact ⟨i, by rw [h, hx], Or.inr (Or.inl rfl)⟩
        · exact ⟨i + 1, by rw [h, hx]; push_cast; ring, Or.inr (Or.inr rfl)⟩
      have hyq : ∃ j1 : Int, (moveTarget s).2 = j1 + 1 / 2 ∧ (j1 = j - 1 ∨ j1 = j ∨ j1 = j + 1) := by
        rcases cy with h | h | h
        · exact ⟨j - 1, by rw [h, hy]; push_cast; ring, Or.inl rfl⟩
        · exact ⟨j, by rw [h, hy], Or.inr (Or.inl rfl)⟩
        · exact ⟨j + 1, by rw [h, hy]; push_cast; ring, Or.inr (Or.inr rfl)⟩
      obtain ⟨i1, hi1, _⟩ := hxq
      obtain ⟨j1, hj1, _⟩ := hyq
      rw [hi1] at b1 b2
      rw [hj1] at b3 b4
      have hi0 : (0 : ℚ) ≤ (i1 : ℚ) := by linarith
      have hi2 : (i1 : ℚ) < (s.mazeSize : ℚ) := by linarith
      have hj0 : (0 : ℚ) ≤ (j1 : ℚ) := by linarith
      have hj2 : (j1 : ℚ) < (s.mazeSize : ℚ) := by linarith
      have hi0' : (0 : Int) ≤ i1 := by exact_mod_cast hi0
      have hi2' : i1 < (s.mazeSize : Int) := by exact_mod_cast hi2
      have hj0' : (0 : Int) ≤ j1 := by exact_mod_cast hj0
      have hj2' : j1 < (s.mazeSize : Int) := by exact_mod_cast hj2
      refine ⟨by rw [hm1, hm2]; exact hsize, i1, j1, ?_, ?_, ?_⟩
      · rw [hm2]
        exact ⟨hi0', hi2', hj0', hj2'⟩
      · rw [hp]
        exact hi1
      · rw [hp]
        exact hj1

theorem keyDown_home (key : Key) (s : GameState) (hs : PlayerHome s) :
    PlayerHome (keyDown key s).1 ∧ (keyDown key s).2 = true := by
  unfold keyDown
  split
  · exact tryMovePlayer_home _ (playerHome_of_eq hs rfl rfl ⟨rfl, rfl⟩)
  · exact ⟨hs, rfl⟩

theorem generateMaze_hasSize {w h : Nat} {rng : Rng} {m : Maze}
    (hm : generateMaze w h rng = some m) (hw : 1 ≤ w) (hh : 1 ≤ h) : m.HasSize w h := by
  obtain ⟨m1, hm1, hinv, _⟩ := generateMaze_spec w h hw hh rng
  rw [hm1] at hm
  rw [← Option.some.inj hm]
  exact hinv.size

theorem generateEnemies_eq {rng : Rng} {fuel : Nat} {s s1 : GameState}
    (h : generateEnemies rng fuel s = some s1) : ∃ es, s1 = { s with enemies := es } := by
  unfold generateEnemies at h
  simp only [Option.map_eq_some'] at h
  obtain ⟨es, _, rfl⟩ := h
  exact ⟨es, rfl⟩

theorem generateCollectibles_eq {rng : Rng} {fuel : Nat} {s s1 : GameState}
    (h : generateCollectibles rng fuel s = some s1) :
    ∃ items ps, s1 = { s with collectibles := items, powerUps := ps } := by
  unfold generateCollectibles at h
  simp only at h
  split at h
  · exact absurd h (by simp)
  · split at h
    · exact absurd h (by simp)
    · split at h
      · exact absurd h (by simp)
      · simp only [Option.some.injEq] at h
        exact ⟨_, _, h.symm⟩

theorem init_home {rm re rc : Rng} {fuel : Nat} {s : GameState}
    (h : init rm re rc fuel = some s) : PlayerHome s := by
  unfold init at h
  simp only at h
  split at h
  · exact absurd h (by simp)
  · rename_i m hm
    split at h
    · exact absurd h (by simp)
    · rename_i s2 h2
      obtain ⟨es, rfl⟩ := generateEnemies_eq h2
      obtain ⟨items, ps, rfl⟩ := generateCollectibles_eq h
      have hsz : m.HasSize 15 15 := generateMaze_hasSize hm (by decide) (by decide)
      refine ⟨hsz, 0, 0, ?_, ?_, ?_⟩
      · show InGrid 15 15 0 0
        decide
      · show (1 / 2 : ℚ) = ((0 : Int) : ℚ) + 1 / 2
        norm_num
      · show (1 / 2 : ℚ) = ((0 : Int) : ℚ) + 1 / 2
        norm_num

theorem nextLevel_home {rm re rc : Rng} {fuel : Nat} {s s1 : GameState}
    (h : nextLevel rm re rc fuel s = some s1) : PlayerHome s1 := by
  unfold nextLevel at h
  simp only at h
  split at h
  · exact absurd h (by simp)
  · rename_i m hm
    split at h
    · exact absurd h (by simp)
    · rename_i s2 h2
      split at h
      · exact absurd h (by simp)
      · rename_i s3 h3
        obtain ⟨es, rfl⟩ := generateEnemies_eq h2
        obtain ⟨items, ps, rfl⟩ := generateCollectibles_eq h3
        simp only [Option.some.injEq] at h
        subst h
        have hpos : 1 ≤ min (15 + (s.currentLevel + 1)) 25 := by omega
        have hsz : m.HasSize (min (15 + (s.currentLevel + 1)) 25)
            (min (15 + (s.currentLevel + 1)) 25) := generateMaze_hasSize hm hpos hpos
        refine ⟨hsz, 0, 0, ?_, ?_, ?_⟩
        · show InGrid (min (15 + (s.currentLevel + 1)) 25) (min (15 + (s.currentLevel + 1)) 25) 0 0
          unfold InGrid
          omega
        · show (1 / 2 : ℚ) = ((0 : Int) : ℚ) + 1 / 2
          norm_num
        · show (1 / 2 : ℚ) = ((0 : Int) : ℚ) + 1 / 2
          norm_num

/-- In every reachable state the maze has the size `mazeSize` and the player stands at the
centre of a grid cell. -/
theorem reachable_home {trig : Trig} {s : GameState} (hr : Reachable trig s) : PlayerHome s := by
  induction hr with
  | init rm re rc fuel h => exact init_home h
  | step _ hstep ih =>
    cases hstep with
    | frame rng => exact animate_home trig rng _ ih
    | keyDown key => exact (keyDown_home key _ ih).1
    | keyUp key => exact playerHome_of_eq ih rfl rfl ⟨rfl, rfl⟩
    | nextLevel rm re rc fuel hgo hnext => exact nextLevel_home hnext

/-- In every reachable state a key press runs to completion: `isValidMove` does not fault. -/
theorem reachable_keyDown_completes {trig : Trig} {s : GameState} (hr : Reachable trig s)
    (key : Key) : (keyDown key s).2 = true :=
  (keyDown_home key s (reachable_home hr)).2

/-! ## The move animation -/

theorem easeOutCubic_one : easeOutCubic 1 = 1 := by
  norm_num [easeOutCubic]

/-- The rate added to the progress by one call of `updatePlayerAnimation`. -/
theorem updatePlayerAnimation_step (s : GameState) (r : ℚ)
    (hm : s.playerAnimation.moving = true)
    (hr : (if s.activePowerUp = some PowerType.speed then (4 / 25 : ℚ) else 2 / 25) = r) :
    (updatePlayerAnimation s).activePowerUp = s.activePowerUp ∧
    (updatePlayerAnimation s).playerAnimation.targetX = s.playerAnimation.targetX ∧
    (updatePlayerAnimation s).playerAnimation.targetY = s.playerAnimation.targetY ∧
    (s.playerAnimation.progress + r < 1 →
      (updatePlayerAnimation s).playerAnimation.moving = true ∧
      (updatePlayerAnimation s).playerAnimation.progress = s.playerAnimation.progress + r) ∧
    (1 ≤ s.playerAnimation.progress + r →
      (updatePlayerAnimation s).playerAnimation.moving = false ∧
      (updatePlayerAnimation s).playerAnimation.progress = 1 ∧
      (updatePlayerAnimation s).playerAnimation.x = s.playerAnimation.targetX ∧
      (updatePlayerAnimation s).playerAnimation.y = s.playerAnimation.targetY) := by
  unfold updatePlayerAnimation
  rw [if_pos hm]
  dsimp only
  rw [hr]
  by_cases h : s.playerAnimation.progress + r ≥ 1
  · rw [if_pos h]
    refine ⟨rfl, rfl, rfl, ?_, ?_⟩
    · intro hlt
      exact absurd h (not_le.mpr hlt)
    · intro _
      refine ⟨rfl, rfl, ?_, ?_⟩
      · show s.playerAnimation.x + (s.playerAnimation.targetX - s.playerAnimation.x) *
          easeOutCubic 1 = s.playerAnimation.targetX
        rw [easeOutCubic_one]
        ring
      · show s.playerAnimation.y + (s.playerAnimation.targetY - s.playerAnimation.y) *
          easeOutCubic 1 = s.playerAnimation.targetY
        rw [easeOutCubic_one]
        ring
  · rw [if_neg h]
    refine ⟨rfl, rfl, rfl, ?_, ?_⟩
    · intro _
      exact ⟨hm, rfl⟩
    · intro hge
      exact absurd hge h

theorem updatePlayerAnimation_progress (s : GameState)
    (h0 : 0 ≤ s.playerAnimation.progress) (h1 : s.playerAnimation.progress ≤ 1) :
    0 ≤ (updatePlayerAnimation s).playerAnimation.progress ∧
      (updatePlayerAnimation s).playerAnimation.progress ≤ 1 := by
  by_cases hm : s.playerAnimation.moving = true
  · obtain ⟨_, _, _, hlt, hge⟩ := updatePlayerAnimation_step s _ hm rfl
    have hr : (0 : ℚ) ≤ (if s.activePowerUp = some PowerType.speed then (4 / 25 : ℚ) else 2 / 25) := by
      split <;> norm_num
    by_cases h : s.playerAnimation.progress +
        (if s.activePowerUp = some PowerType.speed then (4 / 25 : ℚ) else 2 / 25) < 1
    · rw [(hlt h).2]
      exact ⟨by linarith, by linarith⟩
    · rw [(hge (not_lt.mp h)).2.1]
      exact ⟨by norm_num, le_refl 1⟩
  · have : (updatePlayerAnimation s).playerAnimation = s.playerAnimation := by
      unfold updatePlayerAnimation
      simp only [hm]
      rfl
    rw [this]
    exact ⟨h0, h1⟩

/-- The animation after `n` calls at the rate `r`, as long as `n r < 1`. -/
theorem updatePlayerAnimation_run (s : GameState) (r : ℚ)
    (hm : s.playerAnimation.moving = true) (hp : s.playerAnimation.progress = 0)
    (hr : (if s.activePowerUp = some PowerType.speed then (4 / 25 : ℚ) else 2 / 25) = r) :
    ∀ n : Nat, (n : ℚ) * r < 1 →
      (updatePlayerAnimation^[n] s).activePowerUp = s.activePowerUp ∧
      (updatePlayerAnimation^[n] s).playerAnimation.targetX = s.playerAnimation.targetX ∧
      (updatePlayerAnimation^[n] s).playerAnimation.targetY = s.playerAnimation.targetY ∧
      (updatePlayerAnimation^[n] s).playerAnimation.moving = true ∧
      (updatePlayerAnimation^[n] s).playerAnimation.progress = (n : ℚ) * r := by
  have hr0 : 0 ≤ r := by
    rw [← hr]
    split <;> norm_num
  intro n
  induction n with
  | zero =>
    intro _
    simp [hm, hp]
  | succ n ih =>
    intro hn
    have hn' : (n : ℚ) * r < 1 := by
      push_cast at hn
      nlinarith
    obtain ⟨ha, hx, hy, hmv, hpr⟩ := ih hn'
    rw [Function.iterate_succ_apply']
    obtain ⟨ha1, hx1, hy1, hlt, _⟩ := updatePlayerAnimation_step (updatePlayerAnimation^[n] s) r
      hmv (by rw [ha]; exact hr)
    have hlt1 := hlt (by rw [hpr]; push_cast at hn; linarith)
    refine ⟨ha1.trans ha, hx1.trans hx, hy1.trans hy, hlt1.1, ?_⟩
    rw [hlt1.2, hpr]
    push_cast
    ring

/-! ## What a frame leaves alone -/

theorem sameLevel_refl (s : GameState) : SameLevel s s :=
  ⟨rfl, rfl, rfl, rfl, rfl, rfl, rfl, rfl, rfl, rfl⟩

theorem sameLevel_trans {a b c : GameState} (h1 : SameLevel a b) (h2 : SameLevel b c) :
    SameLevel a c :=
  ⟨h2.maze.trans h1.maze, h2.mazeSize.trans h1.mazeSize, h2.exit.trans h1.exit,
    h2.visitedCells.trans h1.visitedCells, h2.keys.trans h1.keys,
    h2.treasures.trans h1.treasures, h2.currentLevel.trans h1.currentLevel,
    h2.collectibles.trans h1.collectibles, h2.powerUps.trans h1.powerUps,
    h2.keysPressed.trans h1.keysPressed⟩

theorem samePower_refl (s : GameState) : SamePower s s := ⟨rfl, rfl, rfl⟩

theorem samePower_trans {a b c : GameState} (h1 : SamePower a b) (h2 : SamePower b c) :
    SamePower a c :=
  ⟨h2.gameOver.trans h1.gameOver, h2.activePowerUp.trans h1.activePowerUp,
    h2.powerUpTimer.trans h1.powerUpTimer⟩

/-- The loop of `updateEnemies` leaves the state as it is, or as `catchPlayer` leaves it up
to the score. -/
theorem updateEnemiesLoop_cases (trig : Trig) (rng : Rng) (es : List Enemy) :
    ∀ (s : GameState) (c : Nat),
      ((updateEnemiesLoop trig rng es (s, c)).1 = s ∨
        ∃ k : Int, (updateEnemiesLoop trig rng es (s, c)).1 = { catchPlayer s with score := k }) ∧
      (s.gameOver = true → (updateEnemiesLoop trig rng es (s, c)).1 = s) := by
  induction es with
  | nil => intro s c; exact ⟨Or.inl rfl, fun _ => rfl⟩
  | cons e rest ih =>
    intro s c
    unfold updateEnemiesLoop
    dsimp only
    split
    · exact ⟨Or.inl rfl, fun _ => rfl⟩
    · rename_i e1 c1 _
      by_cases ht : touches s.player.x s.player.y s.player.size e1 = true ∧ s.gameOver = false
      · rw [if_pos ht]
        obtain ⟨hcase, _⟩ := ih (catchPlayer s) c1
        constructor
        · rcases hcase with h | ⟨k, h⟩
          · exact Or.inr ⟨(catchPlayer s).score, by rw [h]⟩
          · exact Or.inr ⟨k, by rw [h, catchPlayer_twice]⟩
        · intro hgo
          rw [ht.2] at hgo
          exact absurd hgo (by simp)
      · rw [if_neg ht]
        exact ih s c1

theorem updateEnemies_cases (trig : Trig) (rng : Rng) (s : GameState) :
    ((∃ es, (updateEnemies trig rng s).1 = { s with enemies := es }) ∨
      ∃ (k : Int) (es : List Enemy),
        (updateEnemies trig rng s).1 = { catchPlayer s with score := k, enemies := es }) ∧
    (s.gameOver = true → ∃ es, (updateEnemies trig rng s).1 = { s with enemies := es }) := by
  unfold updateEnemies
  split
  · exact ⟨Or.inl ⟨s.enemies, rfl⟩, fun _ => ⟨s.enemies, rfl⟩⟩
  · obtain ⟨hcase, hgo⟩ := updateEnemiesLoop_cases trig rng s.enemies s 0
    dsimp only
    constructor
    · rcases hcase with h | ⟨k, h⟩
      · exact Or.inl ⟨_, by rw [h]⟩
      · exact Or.inr ⟨k, _, by rw [h]⟩
    · intro hg
      exact ⟨_, by rw [hgo hg]⟩

theorem updateEnemies_sameLevel (trig : Trig) (rng : Rng) (s : GameState) :
    SameLevel s (updateEnemies trig rng s).1 ∧ SamePower s (updateEnemies trig rng s).1 := by
  rcases (updateEnemies_cases trig rng s).1 with ⟨es, h⟩ | ⟨k, es, h⟩
  · rw [h]
    exact ⟨⟨rfl, rfl, rfl, rfl, rfl, rfl, rfl, rfl, rfl, rfl⟩, ⟨rfl, rfl, rfl⟩⟩
  · rw [h]
    exact ⟨⟨rfl, rfl, rfl, rfl, rfl, rfl, rfl, rfl, rfl, rfl⟩, ⟨rfl, rfl, rfl⟩⟩

theorem updatePlayerAnimation_sameLevel (s : GameState) :
    SameLevel s (updatePlayerAnimation s) ∧ SamePower s (updatePlayerAnimation s) ∧
      (updatePlayerAnimation s).player = s.player ∧
      (updatePlayerAnimation s).enemies = s.enemies := by
  unfold updatePlayerAnimation
  split
  · exact ⟨⟨rfl, rfl, rfl, rfl, rfl, rfl, rfl, rfl, rfl, rfl⟩, ⟨rfl, rfl, rfl⟩, rfl, rfl⟩
  · exact ⟨⟨rfl, rfl, rfl, rfl, rfl, rfl, rfl, rfl, rfl, rfl⟩, ⟨rfl, rfl, rfl⟩, rfl, rfl⟩

theorem updatePowerUp_sameLevel (s : GameState) :
    SameLevel s (updatePowerUp s) ∧ (updatePowerUp s).gameOver = s.gameOver ∧
      (updatePowerUp s).player = s.player := by
  unfold updatePowerUp
  split
  · dsimp only
    split
    · exact ⟨⟨rfl, rfl, rfl, rfl, rfl, rfl, rfl, rfl, rfl, rfl⟩, rfl, rfl⟩
    · exact ⟨⟨rfl, rfl, rfl, rfl, rfl, rfl, rfl, rfl, rfl, rfl⟩, rfl, rfl⟩
  · exact ⟨sameLevel_refl s, rfl, rfl⟩

theorem animate_sameLevel (trig : Trig) (rng : Rng) (s : GameState) :
    SameLevel s (animate trig rng s).1 := by
  have h1 := (updatePlayerAnimation_sameLevel s).1
  have h2 := (updateEnemies_sameLevel trig rng (updatePlayerAnimation s)).1
  have h12 := sameLevel_trans h1 h2
  have h3 := (updatePowerUp_sameLevel (updateEnemies trig rng (updatePlayerAnimation s)).1).1
  have h123 := sameLevel_trans h12 h3
  unfold animate
  dsimp only
  split
  · exact h12
  · split
    · exact sameLevel_trans h123 ⟨rfl, rfl, rfl, rfl, rfl, rfl, rfl, rfl, rfl, rfl⟩
    · exact h123

/-! ## What a key event leaves alone -/

theorem checkCollectiblesLoop_sans (items : List Collectible) :
    ∀ s : GameState, sansItems (checkCollectiblesLoop s items).1 = sansItems s := by
  induction items with
  | nil => intro s; rfl
  | cons item rest ih =>
    intro s
    unfold checkCollectiblesLoop
    split
    · rw [ih (collect s item)]
      unfold collect
      cases item.type <;> rfl
    · exact ih s

theorem checkCollectibles_sans (s : GameState) :
    sansItems (checkCollectibles s) = sansItems s :=
  checkCollectiblesLoop_sans s.collectibles s

theorem checkPowerUpsLoop_sans (items : List PowerUp) :
    ∀ s : GameState, sansPower (checkPowerUpsLoop s items).1 = sansPower s := by
  induction items with
  | nil => intro s; rfl
  | cons item rest ih =>
    intro s
    unfold checkPowerUpsLoop
    split
    · rw [ih _]
      rfl
    · exact ih s

theorem checkPowerUps_sans (s : GameState) : sansPower (checkPowerUps s) = sansPower s :=
  checkPowerUpsLoop_sans s.powerUps s

theorem sansItems_fields {s t : GameState} (h : sansItems t = sansItems s) :
    t.maze = s.maze ∧
    t.mazeSize = s.mazeSize ∧
    t.exit = s.exit ∧
    t.gameOver = s.gameOver ∧
    t.visitedCells = s.visitedCells ∧
    t.currentLevel = s.currentLevel ∧
    t.keysPressed = s.keysPressed ∧
    t.enemies = s.enemies ∧
    t.player = s.player ∧
    t.playerAnimation = s.playerAnimation ∧
    t.camera = s.camera ∧
    t.powerUps = s.powerUps ∧
    t.activePowerUp = s.activePowerUp ∧
    t.powerUpTimer = s.powerUpTimer :=
  ⟨show (sansItems t).maze = (sansItems s).maze from congrArg GameState.maze h,
    show (sansItems t).mazeSize = (sansItems s).mazeSize from congrArg GameState.mazeSize h,
    show (sansItems t).exit = (sansItems s).exit from congrArg GameState.exit h,
    show (sansItems t).gameOver = (sansItems s).gameOver from congrArg GameState.gameOver h,
    show (sansItems t).visitedCells = (sansItems s).visitedCells from congrArg GameState.visitedCells h,
    show (sansItems t).currentLevel = (sansItems s).currentLevel from congrArg GameState.currentLevel h,
    show (sansItems t).keysPressed = (sansItems s).keysPressed from congrArg GameState.keysPressed h,
    show (sansItems t).enemies = (sansItems s).enemies from congrArg GameState.enemies h,
    show (sansItems t).player = (sansItems s).player from congrArg GameState.player h,
    show (sansItems t).playerAnimation = (sansItems s).playerAnimation from congrArg GameState.playerAnimation h,
    show (sansItems t).camera = (sansItems s).camera from congrArg GameState.camera h,
    show (sansItems t).powerUps = (sansItems s).powerUps from congrArg GameState.powerUps h,
    show (sansItems t).activePowerUp = (sansItems s).activePowerUp from congrArg GameState.activePowerUp h,
    show (sansItems t).powerUpTimer = (sansItems s).powerUpTimer from congrArg GameState.powerUpTimer h⟩

theorem sansPower_fields {s t : GameState} (h : sansPower t = sansPower s) :
    t.maze = s.maze ∧
    t.mazeSize = s.mazeSize ∧
    t.exit = s.exit ∧
    t.gameOver = s.gameOver ∧
    t.visitedCells = s.visitedCells ∧
    t.currentLevel = s.currentLevel ∧
    t.keysPressed = s.keysPressed ∧
    t.enemies = s.enemies ∧
    t.player = s.player ∧
    t.playerAnimation = s.playerAnimation ∧
    t.camera = s.camera ∧
    t.keys = s.keys ∧
    t.treasures = s.treasures ∧
    t.score = s.score ∧
    t.collectibles = s.collectibles :=
  ⟨show (sansPower t).maze = (sansPower s).maze from congrArg GameState.maze h,
    show (sansPower t).mazeSize = (sansPower s).mazeSize from congrArg GameState.mazeSize h,
    show (sansPower t).exit = (sansPower s).exit from congrArg GameState.exit h,
    show (sansPower t).gameOver = (sansPower s).gameOver from congrArg GameState.gameOver h,
    show (sansPower t).visitedCells = (sansPower s).visitedCells from congrArg GameState.visitedCells h,
    show (sansPower t).currentLevel = (sansPower s).currentLevel from congrArg GameState.currentLevel h,
    show (sansPower t).keysPressed = (sansPower s).keysPressed from congrArg GameState.keysPressed h,
    show (sansPower t).enemies = (sansPower s).enemies from congrArg GameState.enemies h,
    show (sansPower t).player = (sansPower s).player from congrArg GameState.player h,
    show (sansPower t).playerAnimation = (sansPower s).playerAnimation from congrArg GameState.playerAnimation h,
    show (sansPower t).camera = (sansPower s).camera from congrArg GameState.camera h,
    show (sansPower t).keys = (sansPower s).keys from congrArg GameState.keys h,
    show (sansPower t).treasures = (sansPower s).treasures from congrArg GameState.treasures h,
    show (sansPower t).score = (sansPower s).score from congrArg GameState.score h,
    show (sansPower t).collectibles = (sansPower s).collectibles from congrArg GameState.collectibles h⟩

/-- The fields that the pickup checks after a committed move leave alone. -/
theorem pickups_rest (s : GameState) :
    (checkPowerUps (checkCollectibles s)).maze = s.maze ∧
    (checkPowerUps (checkCollectibles s)).mazeSize = s.mazeSize ∧
    (checkPowerUps (checkCollectibles s)).exit = s.exit ∧
    (checkPowerUps (checkCollectibles s)).gameOver = s.gameOver ∧
    (checkPowerUps (checkCollectibles s)).visitedCells = s.visitedCells ∧
    (checkPowerUps (checkCollectibles s)).currentLevel = s.currentLevel ∧
    (checkPowerUps (checkCollectibles s)).keysPressed = s.keysPressed ∧
    (checkPowerUps (checkCollectibles s)).enemies = s.enemies := by
  obtain ⟨a1, a2, a3, a4, a5, a6, a7, a8, _⟩ := sansPower_fields (checkPowerUps_sans (checkCollectibles s))
  obtain ⟨b1, b2, b3, b4, b5, b6, b7, b8, _⟩ := sansItems_fields (checkCollectibles_sans s)
  exact ⟨a1.trans b1, a2.trans b2, a3.trans b3, a4.trans b4, a5.trans b5, a6.trans b6,
    a7.trans b7, a8.trans b8⟩

/-- The two outcomes of `tryMovePlayer`. -/
theorem tryMovePlayer_cases (s : GameState) :
    ((tryMovePlayer s).1 = s ∨
      (tryMovePlayer s).1 =
        checkPowerUps (checkCollectibles (commitMove s (moveTarget s).1 (moveTarget s).2))) ∧
    (s.gameOver = true → (tryMovePlayer s).1 = s) := by
  unfold tryMovePlayer
  split
  · exact ⟨Or.inl rfl, fun _ => rfl⟩
  · rename_i hne
    dsimp only
    split
    · exact ⟨Or.inl rfl, fun _ => rfl⟩
    · exact ⟨Or.inl rfl, fun _ => rfl⟩
    · refine ⟨Or.inr rfl, ?_⟩
      intro hgo
      exact absurd (Or.inr hgo) hne

theorem tryMovePlayer_rest (s : GameState) :
    (tryMovePlayer s).1.maze = s.maze ∧ (tryMovePlayer s).1.mazeSize = s.mazeSize ∧
    (tryMovePlayer s).1.exit = s.exit ∧ (tryMovePlayer s).1.gameOver = s.gameOver ∧
    s.visitedCells ⊆ (tryMovePlayer s).1.visitedCells ∧
    (tryMovePlayer s).1.currentLevel = s.currentLevel ∧
    (tryMovePlayer s).1.keysPressed = s.keysPressed ∧
    (tryMovePlayer s).1.enemies = s.enemies := by
  rcases (tryMovePlayer_cases s).1 with h | h
  · rw [h]
    exact ⟨rfl, rfl, rfl, rfl, Finset.Subset.refl _, rfl, rfl, rfl⟩
  · rw [h]
    obtain ⟨h1, h2, h3, h4, h5, h6, h7, h8⟩ :=
      pickups_rest (commitMove s (moveTarget s).1 (moveTarget s).2)
    refine ⟨h1, h2, h3, h4, ?_, h6, h7, h8⟩
    rw [h5]
    exact Finset.subset_insert _ _

theorem keyDown_rest (key : Key) (s : GameState) :
    (keyDown key s).1.maze = s.maze ∧ (keyDown key s).1.mazeSize = s.mazeSize ∧
    (keyDown key s).1.exit = s.exit ∧ (keyDown key s).1.gameOver = s.gameOver ∧
    s.visitedCells ⊆ (keyDown key s).1.visitedCells ∧
    (keyDown key s).1.currentLevel = s.currentLevel ∧
    (keyDown key s).1.enemies = s.enemies := by
  unfold keyDown
  split
  · obtain ⟨h1, h2, h3, h4, h5, h6, _, h8⟩ :=
      tryMovePlayer_rest { s with keysPressed := s.keysPressed.set key true }
    exact ⟨h1, h2, h3, h4, h5, h6, h8⟩
  · exact ⟨rfl, rfl, rfl, rfl, Finset.Subset.refl _, rfl, rfl⟩

theorem keyDown_gameOver (key : Key) (s : GameState) (hgo : s.gameOver = true) :
    (keyDown key s).1.score = s.score := by
  unfold keyDown
  split
  · have h := (tryMovePlayer_cases { s with keysPressed := s.keysPressed.set key true }).2 hgo
    rw [h]
  · rfl

/-! ## Entity placement -/

theorem randomIndex_inGrid (rng : Rng) (i j : Nat) {n : Nat} (hn : 0 < n) :
    InGrid n n (randomIndex rng i n) (randomIndex rng j n) :=
  ⟨randomIndex_nonneg rng i n, randomIndex_lt rng i hn, randomIndex_nonneg rng j n,
    randomIndex_lt rng j hn⟩

theorem block_inside_test (px : ℚ) (cx : Int) (h : |cx - ⌊px⌋| ≤ 2) : |(cx : ℚ) - px| < 3 := by
  have h1 : ((⌊px⌋ : Int) : ℚ) ≤ px := Int.floor_le px
  have h2 : px < ((⌊px⌋ : Int) : ℚ) + 1 := Int.lt_floor_add_one px
  rw [abs_le] at h
  have h3 : ((cx - ⌊px⌋ : Int) : ℚ) ≤ 2 := by exact_mod_cast h.2
  have h4 : (-2 : ℚ) ≤ ((cx - ⌊px⌋ : Int) : ℚ) := by exact_mod_cast h.1
  push_cast at h3 h4
  rw [abs_lt]
  constructor <;> linarith

theorem sampleEnemyCell_spec (rng : Rng) {n : Nat} (hn : 0 < n) (px py : ℚ) :
    ∀ (fuel c : Nat) (x y : Int) (c1 : Nat),
      sampleEnemyCell rng n px py fuel c = some (x, y, c1) →
      InGrid n n x y ∧ AwayFrom px py x y := by
  intro fuel
  induction fuel with
  | zero =>
    intro c x y c1 h
    simp [sampleEnemyCell] at h
  | succ fuel ih =>
    intro c x y c1 h
    unfold sampleEnemyCell at h
    dsimp only at h
    split at h
    · exact ih _ x y c1 h
    · rename_i hrej
      simp only [Option.some.injEq, Prod.mk.injEq] at h
      obtain ⟨rfl, rfl, _⟩ := h
      refine ⟨randomIndex_inGrid rng _ _ hn, hrej, ?_⟩
      intro hblock
      exact hrej ⟨block_inside_test px _ hblock.1, block_inside_test py _ hblock.2⟩

theorem generateEnemiesLoop_spec (rng : Rng) {n : Nat} (hn : 0 < n) (px py : ℚ) (fuel : Nat) :
    ∀ (k c : Nat) (es : List Enemy), generateEnemiesLoop rng n px py fuel k c = some es →
      es.length = k ∧ ∀ e ∈ es, e.speed = 3 / 100 ∧ e.size = 12 ∧
        CentreOf n (AwayFrom px py) e.x e.y := by
  intro k
  induction k with
  | zero =>
    intro c es h
    simp only [generateEnemiesLoop, Option.some.injEq] at h
    subst h
    exact ⟨rfl, fun e he => absurd he (List.not_mem_nil e)⟩
  | succ k ih =>
    intro c es h
    unfold generateEnemiesLoop at h
    split at h
    · exact absurd h (by simp)
    · rename_i x y c1 hcell
      dsimp only at h
      split at h
      · exact absurd h (by simp)
      · rename_i rest hrest
        simp only [Option.some.injEq] at h
        subst h
        obtain ⟨hlen, hall⟩ := ih _ rest hrest
        obtain ⟨hg, haway⟩ := sampleEnemyCell_spec rng hn px py fuel c x y c1 hcell
        refine ⟨by simp [hlen], ?_⟩
        intro e he
        rcases List.mem_cons.mp he with rfl | he1
        · exact ⟨rfl, rfl, x, y, hg, rfl, rfl, haway⟩
        · exact hall e he1

theorem sampleItemCell_spec (rng : Rng) {n : Nat} (hn : 0 < n) (px py ex ey : ℚ) :
    ∀ (fuel c : Nat) (x y : Int) (c1 : Nat),
      sampleItemCell rng n px py ex ey fuel c = some (x, y, c1) →
      InGrid n n x y ∧ FreeCell px py ex ey x y := by
  intro fuel
  induction fuel with
  | zero =>
    intro c x y c1 h
    simp [sampleItemCell] at h
  | succ fuel ih =>
    intro c x y c1 h
    unfold sampleItemCell at h
    dsimp only at h
    split at h
    · exact ih _ x y c1 h
    · rename_i hrej
      simp only [Option.some.injEq, Prod.mk.injEq] at h
      obtain ⟨rfl, rfl, _⟩ := h
      refine ⟨randomIndex_inGrid rng _ _ hn, ?_, ?_⟩
      · exact fun hp => hrej (Or.inl hp)
      · exact fun he => hrej (Or.inr he)

theorem generateItemsLoop_spec (rng : Rng) {n : Nat} (hn : 0 < n) (px py ex ey : ℚ)
    (fuel : Nat) (type : ItemType) :
    ∀ (k c : Nat) (items : List Collectible) (c1 : Nat),
      generateItemsLoop rng n px py ex ey fuel type k c = some (items, c1) →
      items.length = k ∧ ∀ item ∈ items, item.type = type ∧ item.collected = false ∧
        CentreOf n (FreeCell px py ex ey) item.x item.y := by
  intro k
  induction k with
  | zero =>
    intro c items c1 h
    simp only [generateItemsLoop, Option.some.injEq, Prod.mk.injEq] at h
    obtain ⟨rfl, _⟩ := h
    exact ⟨rfl, fun e he => absurd he (List.not_mem_nil e)⟩
  | succ k ih =>
    intro c items c1 h
    unfold generateItemsLoop at h
    split at h
    · exact absurd h (by simp)
    · rename_i x y c2 hcell
      dsimp only at h
      split at h
      · exact absurd h (by simp)
      · rename_i rest c3 hrest
        simp only [Option.some.injEq, Prod.mk.injEq] at h
        obtain ⟨rfl, _⟩ := h
        obtain ⟨hlen, hall⟩ := ih _ rest c3 hrest
        obtain ⟨hg, hfree⟩ := sampleItemCell_spec rng hn px py ex ey fuel c x y c2 hcell
        refine ⟨by simp [hlen], ?_⟩
        intro e he
        rcases List.mem_cons.mp he with rfl | he1
        · exact ⟨rfl, rfl, x, y, hg, rfl, rfl, hfree⟩
        · exact hall e he1

theorem generatePowerUpsLoop_spec (rng : Rng) {n : Nat} (hn : 0 < n) (px py ex ey : ℚ)
    (fuel : Nat) :
    ∀ (k c : Nat) (ps : List PowerUp) (c1 : Nat),
      generatePowerUpsLoop rng n px py ex ey fuel k c = some (ps, c1) →
      ps.length = k ∧ ∀ p ∈ ps, p.collected = false ∧
        (∃ i : Int, 0 ≤ i ∧ i < 3 ∧ p.type = powerTypeAt i) ∧
        CentreOf n (FreeCell px py ex ey) p.x p.y := by
  intro k
  induction k with
  | zero =>
    intro c ps c1 h
    simp only [generatePowerUpsLoop, Option.some.injEq, Prod.mk.injEq] at h
    obtain ⟨rfl, _⟩ := h
    exact ⟨rfl, fun e he => absurd he (List.not_mem_nil e)⟩
  | succ k ih =>
    intro c ps c1 h
    unfold generatePowerUpsLoop at h
    split at h
    · exact absurd h (by simp)
    · rename_i x y c2 hcell
      dsimp only at h
      split at h
      · exact absurd h (by simp)
      · rename_i rest c3 hrest
        simp only [Option.some.injEq, Prod.mk.injEq] at h
        obtain ⟨rfl, _⟩ := h
        obtain ⟨hlen, hall⟩ := ih _ rest c3 hrest
        obtain ⟨hg, hfree⟩ := sampleItemCell_spec rng hn px py ex ey fuel c x y c2 hcell
        refine ⟨by simp [hlen], ?_⟩
        intro e he
        rcases List.mem_cons.mp he with rfl | he1
        · exact ⟨rfl, ⟨_, randomIndex_nonneg rng c2 3, randomIndex_lt rng c2 (by norm_num), rfl⟩,
            x, y, hg, rfl, rfl, hfree⟩
        · exact hall e he1

theorem generateEnemies_parts {rng : Rng} {fuel : Nat} {s s1 : GameState}
    (h : generateEnemies rng fuel s = some s1) :
    ∃ es, generateEnemiesLoop rng s.mazeSize s.player.x s.player.y fuel
        (s.currentLevel / 2 + 1) 0 = some es ∧ s1 = { s with enemies := es } := by
  unfold generateEnemies at h
  simp only [Option.map_eq_some'] at h
  obtain ⟨es, hes, rfl⟩ := h
  exact ⟨es, hes, rfl⟩

theorem generateCollectibles_parts {rng : Rng} {fuel : Nat} {s s1 : GameState}
    (h : generateCollectibles rng fuel s = some s1) :
    ∃ keyItems c1 treasureItems c2 ps c3,
      generateItemsLoop rng s.mazeSize s.player.x s.player.y s.exit.x s.exit.y fuel
        ItemType.key (min s.currentLevel 3) 0 = some (keyItems, c1) ∧
      generateItemsLoop rng s.mazeSize s.player.x s.player.y s.exit.x s.exit.y fuel
        ItemType.treasure (min (s.currentLevel * 2) 10) c1 = some (treasureItems, c2) ∧
      generatePowerUpsLoop rng s.mazeSize s.player.x s.player.y s.exit.x s.exit.y fuel
        (if s.currentLevel > 1 then min (s.currentLevel - 1) 2 else 0) c2 = some (ps, c3) ∧
      s1 = { s with collectibles := keyItems ++ treasureItems, powerUps := ps } := by
  unfold generateCollectibles at h
  simp only at h
  split at h
  · exact absurd h (by simp)
  · rename_i keyItems c1 hk
    split at h
    · exact absurd h (by simp)
    · rename_i treasureItems c2 ht
      split at h
      · exact absurd h (by simp)
      · rename_i ps c3 hp
        simp only [Option.some.injEq] at h
        exact ⟨keyItems, c1, treasureItems, c2, ps, c3, hk, ht, hp, h.symm⟩

/-- The items that `generateCollectibles` leaves in the state. -/
theorem generateCollectibles_items {rng : Rng} {fuel : Nat} {s s1 : GameState}
    (hsize : 0 < s.mazeSize) (h : generateCollectibles rng fuel s = some s1) :
    s1.collectibles.countP (fun item => decide (item.type = ItemType.key)) =
      min s.currentLevel 3 ∧
    s1.collectibles.countP (fun item => decide (item.type = ItemType.treasure)) =
      min (s.currentLevel * 2) 10 ∧
    s1.powerUps.length = (if s.currentLevel ≤ 1 then 0 else min (s.currentLevel - 1) 2) ∧
    (∀ item ∈ s1.collectibles, item.collected = false ∧
      CentreOf s.mazeSize (FreeCell s.player.x s.player.y s.exit.x s.exit.y) item.x item.y) ∧
    (∀ p ∈ s1.powerUps, p.collected = false ∧
      (∃ i : Int, 0 ≤ i ∧ i < 3 ∧ p.type = powerTypeAt i) ∧
      CentreOf s.mazeSize (FreeCell s.player.x s.player.y s.exit.x s.exit.y) p.x p.y) := by
  obtain ⟨keyItems, c1, treasureItems, c2, ps, c3, hk, ht, hp, rfl⟩ :=
    generateCollectibles_parts h
  obtain ⟨hklen, hkall⟩ := generateItemsLoop_spec rng hsize _ _ _ _ fuel _ _ _ _ _ hk
  obtain ⟨htlen, htall⟩ := generateItemsLoop_spec rng hsize _ _ _ _ fuel _ _ _ _ _ ht
  obtain ⟨hplen, hpall⟩ := generatePowerUpsLoop_spec rng hsize _ _ _ _ fuel _ _ _ _ hp
  have hkk : keyItems.countP (fun item => decide (item.type = ItemType.key)) =
      keyItems.length := by
    rw [List.countP_eq_length]
    intro item hi
    simp [(hkall item hi).1]
  have hkt : keyItems.countP (fun item => decide (item.type = ItemType.treasure)) = 0 := by
    rw [List.countP_eq_zero]
    intro item hi
    simp [(hkall item hi).1]
  have htk : treasureItems.countP (fun item => decide (item.type = ItemType.key)) = 0 := by
    rw [List.countP_eq_zero]
    intro item hi
    simp [(htall item hi).1]
  have htt : treasureItems.countP (fun item => decide (item.type = ItemType.treasure)) =
      treasureItems.length := by
    rw [List.countP_eq_length]
    intro item hi
    simp [(htall item hi).1]
  refine ⟨?_, ?_, ?_, ?_, hpall⟩
  · show (keyItems ++ treasureItems).countP _ = _
    rw [List.countP_append, hkk, htk, hklen]
    rfl
  · show (keyItems ++ treasureItems).countP _ = _
    rw [List.countP_append, hkt, htt, htlen]
    omega
  · show ps.length = _
    rw [hplen]
    by_cases hl : s.currentLevel > 1
    · rw [if_pos hl, if_neg (by omega)]
    · rw [if_neg hl, if_pos (by omega)]
  · intro item hi
    have hi' : item ∈ keyItems ++ treasureItems := hi
    rcases List.mem_append.mp hi' with hi1 | hi1
    · exact (hkall item hi1).2
    · exact (htall item hi1).2

/-! ## Draws on which the sampling ends -/

theorem randomIndex_corner (c n : Nat) :
    randomIndex cornerDraws c n = ⌊(14 / 15 : ℚ) * (n : ℚ)⌋ := by
  have : random cornerDraws c = 14 / 15 := by
    norm_num [random, cornerDraws, Int.fract]
  unfold randomIndex
  rw [this]

theorem randomIndex_corner_ge (c : Nat) {n : Nat} (hn : 15 ≤ n) :
    14 ≤ randomIndex cornerDraws c n ∧ ((n / 2 : Nat) : Int) < randomIndex cornerDraws c n := by
  rw [randomIndex_corner]
  have hq : (15 : ℚ) ≤ (n : ℚ) := by exact_mod_cast hn
  have hdiv : 2 * (n / 2) ≤ n := Nat.mul_div_le n 2
  generalize n / 2 = k at hdiv
  have hc : (2 : ℚ) * (k : ℚ) ≤ (n : ℚ) := by exact_mod_cast hdiv
  constructor
  · rw [Int.le_floor]
    have : ((14 : Int) : ℚ) = 14 := by norm_num
    rw [this]
    linarith
  · have : (k : Int) + 1 ≤ ⌊(14 / 15 : ℚ) * (n : ℚ)⌋ := by
      rw [Int.le_floor]
      have e : (((k : Int) + 1 : Int) : ℚ) = (k : ℚ) + 1 := by norm_num
      rw [e]
      linarith
    omega

theorem sampleEnemyCell_corner (c : Nat) {n : Nat} (hn : 15 ≤ n) :
    sampleEnemyCell cornerDraws n (1 / 2) (1 / 2) 1 c =
      some (randomIndex cornerDraws c n, randomIndex cornerDraws (c + 1) n, c + 2) := by
  unfold sampleEnemyCell
  dsimp only
  have h := (randomIndex_corner_ge c hn).1
  have hq : (14 : ℚ) ≤ ((randomIndex cornerDraws c n : Int) : ℚ) := by exact_mod_cast h
  rw [if_neg]
  rintro ⟨hx, _⟩
  rw [abs_lt] at hx
  linarith [hx.2]

theorem generateEnemiesLoop_corner {n : Nat} (hn : 15 ≤ n) :
    ∀ k c : Nat, ∃ es, generateEnemiesLoop cornerDraws n (1 / 2) (1 / 2) 1 k c = some es := by
  intro k
  induction k with
  | zero => intro c; exact ⟨[], rfl⟩
  | succ k ih =>
    intro c
    obtain ⟨rest, hrest⟩ := ih (c + 2 + 1)
    unfold generateEnemiesLoop
    rw [sampleEnemyCell_corner c hn]
    dsimp only
    rw [hrest]
    exact ⟨_, rfl⟩

theorem sampleItemCell_corner (c : Nat) {n : Nat} (hn : 15 ≤ n) (ex ey : ℚ)
    (hex : ⌊ex⌋ = ((n / 2 : Nat) : Int)) :
    sampleItemCell cornerDraws n (1 / 2) (1 / 2) ex ey 1 c =
      some (randomIndex cornerDraws c n, randomIndex cornerDraws (c + 1) n, c + 2) := by
  unfold sampleItemCell
  dsimp only
  obtain ⟨h14, hhalf⟩ := randomIndex_corner_ge c hn
  have hfl : ⌊(1 / 2 : ℚ)⌋ = 0 := by norm_num
  rw [if_neg]
  rw [hfl, hex]
  rintro (⟨hx, _⟩ | ⟨hx, _⟩) <;> omega

theorem generateItemsLoop_corner {n : Nat} (hn : 15 ≤ n) (ex ey : ℚ)
    (hex : ⌊ex⌋ = ((n / 2 : Nat) : Int)) (type : ItemType) :
    ∀ k c : Nat, ∃ r, generateItemsLoop cornerDraws n (1 / 2) (1 / 2) ex ey 1 type k c =
      some r := by
  intro k
  induction k with
  | zero => intro c; exact ⟨_, rfl⟩
  | succ k ih =>
    intro c
    obtain ⟨⟨rest, c1⟩, hrest⟩ := ih (c + 2)
    unfold generateItemsLoop
    rw [sampleItemCell_corner c hn ex ey hex]
    dsimp only
    rw [hrest]
    exact ⟨_, rfl⟩

theorem generatePowerUpsLoop_corner {n : Nat} (hn : 15 ≤ n) (ex ey : ℚ)
    (hex : ⌊ex⌋ = ((n / 2 : Nat) : Int)) :
    ∀ k c : Nat, ∃ r, generatePowerUpsLoop cornerDraws n (1 / 2) (1 / 2) ex ey 1 k c =
      some r := by
  intro k
  induction k with
  | zero => intro c; exact ⟨_, rfl⟩
  | succ k ih =>
    intro c
    obtain ⟨⟨rest, c1⟩, hrest⟩ := ih (c + 2 + 1)
    unfold generatePowerUpsLoop
    rw [sampleItemCell_corner c hn ex ey hex]
    dsimp only
    rw [hrest]
    exact ⟨_, rfl⟩

/-- With the draws `cornerDraws` every sampling loop of `generateEnemies` accepts its first
cell, on a level of size at least 15 with the player at the start. -/
theorem generateEnemies_corner_ne (s : GameState) (hn : 15 ≤ s.mazeSize)
    (hx : s.player.x = 1 / 2) (hy : s.player.y = 1 / 2) :
    generateEnemies cornerDraws 1 s ≠ none := by
  obtain ⟨es, hes⟩ := generateEnemiesLoop_corner hn (s.currentLevel / 2 + 1) 0
  unfold generateEnemies
  rw [hx, hy]
  dsimp only
  rw [hes]
  simp

/-- With the draws `cornerDraws` every sampling loop of `generateCollectibles` accepts its
first cell, on a level of size at least 15 with the player at the start and the exit at the
centre. -/
theorem generateCollectibles_corner_ne (s : GameState) (hn : 15 ≤ s.mazeSize)
    (hx : s.player.x = 1 / 2) (hy : s.player.y = 1 / 2)
    (hex : ⌊s.exit.x⌋ = ((s.mazeSize / 2 : Nat) : Int)) :
    generateCollectibles cornerDraws 1 s ≠ none := by
  unfold generateCollectibles
  rw [hx, hy]
  dsimp only
  obtain ⟨⟨ks, c1⟩, hk⟩ := generateItemsLoop_corner hn s.exit.x s.exit.y hex ItemType.key
    (min s.currentLevel 3) 0
  rw [hk]
  dsimp only
  obtain ⟨⟨ts, c2⟩, ht⟩ := generateItemsLoop_corner hn s.exit.x s.exit.y hex ItemType.treasure
    (min (s.currentLevel * 2) 10) c1
  rw [ht]
  dsimp only
  obtain ⟨⟨ps, c3⟩, hp⟩ := generatePowerUpsLoop_corner hn s.exit.x s.exit.y hex
    (if s.currentLevel > 1 then min (s.currentLevel - 1) 2 else 0) c2
  rw [hp]
  simp

theorem exit_floor (n : Nat) : ⌊((n / 2 : Nat) : ℚ) + 1 / 2⌋ = ((n / 2 : Nat) : Int) := by
  generalize n / 2 = k
  rw [Int.floor_eq_iff]
  have e : (((k : Nat) : Int) : ℚ) = (k : ℚ) := by norm_num
  rw [e]
  constructor <;> linarith

/-- With the draws `cornerDraws` the function `nextLevel` returns from every state. -/
theorem nextLevel_corner (s : GameState) :
    ∃ s1, nextLevel cornerDraws cornerDraws cornerDraws 1 s = some s1 := by
  have hn : 15 ≤ min (15 + (s.currentLevel + 1)) 25 := by omega
  obtain ⟨m, hm, _⟩ := generateMaze_spec (min (15 + (s.currentLevel + 1)) 25)
    (min (15 + (s.currentLevel + 1)) 25) (by omega) (by omega) cornerDraws
  cases hnext : nextLevel cornerDraws cornerDraws cornerDraws 1 s with
  | some s1 => exact ⟨s1, rfl⟩
  | none =>
    exfalso
    unfold nextLevel at hnext
    simp only at hnext
    split at hnext
    · rename_i hnone
      have hm1 : generateMaze (min (15 + (s.currentLevel + 1)) 25)
        (min (15 + (s.currentLevel + 1)) 25) cornerDraws = none := hnone
      rw [hm] at hm1
      exact absurd hm1 (by simp)
    · split at hnext
      · rename_i hnone
        exact generateEnemies_corner_ne _ hn rfl rfl hnone
      · rename_i s2 h2
        obtain ⟨es, rfl⟩ := generateEnemies_eq h2
        split at hnext
        · rename_i hnone
          exact generateCollectibles_corner_ne _ hn rfl rfl (exit_floor _) hnone
        · exact absurd hnext (by simp)

theorem nextLevel_parts {rm re rc : Rng} {fuel : Nat} {s s1 : GameState}
    (h : nextLevel rm re rc fuel s = some s1) :
    ∃ m es items ps,
      generateMaze (min (15 + (s.currentLevel + 1)) 25) (min (15 + (s.currentLevel + 1)) 25) rm =
        some m ∧
      generateEnemies re fuel (nextLevelSetup s m) =
        some { nextLevelSetup s m with enemies := es } ∧
      generateCollectibles rc fuel { nextLevelSetup s m with enemies := es } =
        some { nextLevelSetup s m with enemies := es, collectibles := items, powerUps := ps } ∧
      s1 = { nextLevelSetup s m with
        enemies := es, collectibles := items, powerUps := ps, gameOver := false } := by
  unfold nextLevel at h
  simp only at h
  split at h
  · exact absurd h (by simp)
  · rename_i m hm
    split at h
    · exact absurd h (by simp)
    · rename_i s2 h2
      split at h
      · exact absurd h (by simp)
      · rename_i s3 h3
        obtain ⟨es, rfl⟩ := generateEnemies_eq h2
        obtain ⟨items, ps, rfl⟩ := generateCollectibles_eq h3
        simp only [Option.some.injEq] at h
        exact ⟨m, es, items, ps, hm, h2, h3, h.symm⟩

theorem init_parts {rm re rc : Rng} {fuel : Nat} {s : GameState}
    (h : init rm re rc fuel = some s) :
    ∃ m es items ps,
      generateMaze 15 15 rm = some m ∧
      generateEnemies re fuel (initSetup m) = some { initSetup m with enemies := es } ∧
      generateCollectibles rc fuel { initSetup m with enemies := es } =
        some { initSetup m with enemies := es, collectibles := items, powerUps := ps } ∧
      s = { initSetup m with enemies := es, collectibles := items, powerUps := ps } := by
  unfold init at h
  simp only at h
  split at h
  · exact absurd h (by simp)
  · rename_i m hm
    split at h
    · exact absurd h (by simp)
    · rename_i s2 h2
      obtain ⟨es, rfl⟩ := generateEnemies_eq h2
      obtain ⟨items, ps, rfl⟩ := generateCollectibles_eq h
      exact ⟨m, es, items, ps, hm, h2, h, rfl⟩

theorem explorationProgress_mono {s t : GameState} (hsub : s.visitedCells ⊆ t.visitedCells)
    (hsize : t.mazeSize = s.mazeSize) : explorationProgress s ≤ explorationProgress t := by
  unfold explorationProgress
  rw [hsize]
  have hcard : (s.visitedCells.card : ℚ) ≤ (t.visitedCells.card : ℚ) := by
    exact_mod_cast Finset.card_le_card hsub
  gcongr

/-! ## The power-up timer -/

/-- One call of `updatePowerUp` with a power-up active and `k + 1` sixtieths left. -/
theorem updatePowerUp_tick (s : GameState) (p : PowerType) (k : Nat)
    (ha : s.activePowerUp = some p) (ht : s.powerUpTimer = ((k + 1 : Nat) : ℚ) / 60) :
    (updatePowerUp s).powerUpTimer = (k : ℚ) / 60 ∧
    (updatePowerUp s).activePowerUp = if k = 0 then none else some p := by
  have hpos : s.powerUpTimer > 0 := by
    rw [ht]
    positivity
  have hsub : s.powerUpTimer - 1 / 60 = (k : ℚ) / 60 := by
    rw [ht]
    push_cast
    ring
  unfold updatePowerUp
  rw [if_pos ⟨by rw [ha]; rfl, hpos⟩]
  dsimp only
  rw [hsub]
  by_cases hk : k = 0
  · subst hk
    rw [if_pos (by norm_num), if_pos rfl]
    exact ⟨rfl, rfl⟩
  · have hkpos : (0 : ℚ) < (k : ℚ) / 60 := by
      have : (0 : ℚ) < k := by exact_mod_cast Nat.pos_of_ne_zero hk
      positivity
    rw [if_neg (not_le.mpr hkpos), if_neg hk]
    exact ⟨rfl, ha⟩

theorem updatePowerUp_idle (s : GameState) (h : s.activePowerUp = none) :
    updatePowerUp s = s := by
  unfold updatePowerUp
  rw [if_neg]
  rintro ⟨hsome, _⟩
  rw [h] at hsome
  exact absurd hsome (by simp)

/-- The timer after `n` calls of `updatePowerUp` that follow a pickup. -/
theorem updatePowerUp_run (s : GameState) (p : PowerType) (ha : s.activePowerUp = some p)
    (ht : s.powerUpTimer = 10) : ∀ n : Nat, n ≤ 600 →
      (updatePowerUp^[n] s).powerUpTimer = ((600 - n : Nat) : ℚ) / 60 ∧
      (updatePowerUp^[n] s).activePowerUp = if n = 600 then none else some p := by
  intro n
  induction n with
  | zero =>
    intro _
    refine ⟨?_, ?_⟩
    · show s.powerUpTimer = _
      rw [ht]
      norm_num
    · show s.activePowerUp = _
      rw [ha, if_neg (by decide)]
  | succ n ih =>
    intro hn
    obtain ⟨h1, h2⟩ := ih (by omega)
    rw [if_neg (by omega)] at h2
    rw [Function.iterate_succ_apply']
    have hk : 600 - n = (600 - (n + 1)) + 1 := by omega
    rw [hk] at h1
    obtain ⟨g1, g2⟩ := updatePowerUp_tick _ p (600 - (n + 1)) h2 h1
    refine ⟨g1, ?_⟩
    rw [g2]
    by_cases hlast : n + 1 = 600
    · rw [if_pos hlast, if_pos (by omega)]
    · rw [if_neg hlast, if_neg (by omega)]

theorem updatePowerUp_timerOk (s : GameState) (h : TimerOk s) : TimerOk (updatePowerUp s) := by
  obtain ⟨k, hk, ht⟩ := h
  unfold updatePowerUp
  split
  · rename_i hcond
    have hkpos : k ≠ 0 := by
      rintro rfl
      rw [ht] at hcond
      exact absurd hcond.2 (by norm_num)
    have hsub : s.powerUpTimer - 1 / 60 = ((k - 1 : Nat) : ℚ) / 60 := by
      rw [ht]
      have : ((k - 1 : Nat) : ℚ) = (k : ℚ) - 1 := by
        have h1 : 1 ≤ k := Nat.pos_of_ne_zero hkpos
        push_cast [Nat.cast_sub h1]
        ring
      rw [this]
      ring
    dsimp only
    split
    · exact ⟨k - 1, by omega, hsub⟩
    · exact ⟨k - 1, by omega, hsub⟩
  · exact ⟨k, hk, ht⟩

/-- The power fields after `updatePowerUp` depend on the power fields alone. -/
theorem updatePowerUp_congr {s t : GameState} (ha : t.activePowerUp = s.activePowerUp)
    (ht : t.powerUpTimer = s.powerUpTimer) :
    (updatePowerUp t).activePowerUp = (updatePowerUp s).activePowerUp ∧
    (updatePowerUp t).powerUpTimer = (updatePowerUp s).powerUpTimer := by
  unfold updatePowerUp
  rw [ha, ht]
  split
  · dsimp only
    split
    · exact ⟨rfl, rfl⟩
    · exact ⟨rfl, rfl⟩
  · exact ⟨ha, ht⟩

theorem updatePowerUp_iterate_congr (n : Nat) : ∀ {s t : GameState},
    t.activePowerUp = s.activePowerUp → t.powerUpTimer = s.powerUpTimer →
    (updatePowerUp^[n] t).activePowerUp = (updatePowerUp^[n] s).activePowerUp ∧
    (updatePowerUp^[n] t).powerUpTimer = (updatePowerUp^[n] s).powerUpTimer := by
  induction n with
  | zero => intro s t ha ht; exact ⟨ha, ht⟩
  | succ n ih =>
    intro s t ha ht
    rw [Function.iterate_succ_apply, Function.iterate_succ_apply]
    obtain ⟨h1, h2⟩ := updatePowerUp_congr ha ht
    exact ih h1 h2

/-- A frame that runs to completion moves the power fields as `updatePowerUp` does; a frame
that ends early leaves them as they are. -/
theorem animate_power (trig : Trig) (rng : Rng) (s : GameState) :
    ((animate trig rng s).2 = true →
      (animate trig rng s).1.activePowerUp = (updatePowerUp s).activePowerUp ∧
      (animate trig rng s).1.powerUpTimer = (updatePowerUp s).powerUpTimer) ∧
    ((animate trig rng s).2 = false →
      (animate trig rng s).1.activePowerUp = s.activePowerUp ∧
      (animate trig rng s).1.powerUpTimer = s.powerUpTimer) := by
  have h1 := (updatePlayerAnimation_sameLevel s).2.1
  have h2 := (updateEnemies_sameLevel trig rng (updatePlayerAnimation s)).2
  have h12 := samePower_trans h1 h2
  have h3 := updatePowerUp_congr h12.activePowerUp h12.powerUpTimer
  unfold animate
  dsimp only
  split
  · refine ⟨fun h => absurd h (by simp), fun _ => ⟨h12.activePowerUp, h12.powerUpTimer⟩⟩
  · split
    · exact ⟨fun _ => h3, fun h => absurd h (by simp)⟩
    · exact ⟨fun _ => h3, fun h => absurd h (by simp)⟩

theorem animate_timerOk (trig : Trig) (rng : Rng) (s : GameState) (h : TimerOk s) :
    TimerOk (animate trig rng s).1 := by
  obtain ⟨hc, hf⟩ := animate_power trig rng s
  cases hflag : (animate trig rng s).2 with
  | true =>
    obtain ⟨k, hk, ht⟩ := updatePowerUp_timerOk s h
    exact ⟨k, hk, (hc hflag).2.trans ht⟩
  | false =>
    obtain ⟨k, hk, ht⟩ := h
    exact ⟨k, hk, (hf hflag).2.trans ht⟩

/-- The power fields after the frames of `runTicks`, when all of them run to completion. -/
theorem runTicks_power (trig : Trig) (l : List Rng) : ∀ s : GameState, AllComplete trig l s →
    (runTicks trig l s).activePowerUp = (updatePowerUp^[l.length] s).activePowerUp ∧
    (runTicks trig l s).powerUpTimer = (updatePowerUp^[l.length] s).powerUpTimer := by
  induction l with
  | nil => intro s _; exact ⟨rfl, rfl⟩
  | cons rng rest ih =>
    intro s hall
    obtain ⟨hflag, hrest⟩ := hall
    obtain ⟨h1, h2⟩ := ih _ hrest
    obtain ⟨g1, g2⟩ := (animate_power trig rng s).1 hflag
    obtain ⟨k1, k2⟩ := updatePowerUp_iterate_congr rest.length g1 g2
    show (runTicks trig rest (animate trig rng s).1).activePowerUp = _ ∧
      (runTicks trig rest (animate trig rng s).1).powerUpTimer = _
    rw [List.length_cons, Function.iterate_succ_apply]
    exact ⟨h1.trans k1, h2.trans k2⟩

theorem checkPowerUpsLoop_timer (items : List PowerUp) : ∀ s : GameState,
    (checkPowerUpsLoop s items).1.powerUpTimer = s.powerUpTimer ∨
      (checkPowerUpsLoop s items).1.powerUpTimer = 10 := by
  induction items with
  | nil => intro s; exact Or.inl rfl
  | cons item rest ih =>
    intro s
    unfold checkPowerUpsLoop
    split
    · rcases ih { s with activePowerUp := some item.type, powerUpTimer := 10 } with h | h
      · exact Or.inr h
      · exact Or.inr h
    · exact ih s

theorem keyDown_timer (key : Key) (s : GameState) :
    (keyDown key s).1.powerUpTimer = s.powerUpTimer ∨ (keyDown key s).1.powerUpTimer = 10 := by
  unfold keyDown
  split
  · rcases (tryMovePlayer_cases { s with keysPressed := s.keysPressed.set key true }).1 with h | h
    · rw [h]
      exact Or.inl rfl
    · rw [h]
      have hc := (sansItems_fields (checkCollectibles_sans
        (commitMove { s with keysPressed := s.keysPressed.set key true }
          (moveTarget { s with keysPressed := s.keysPressed.set key true }).1
          (moveTarget { s with keysPressed := s.keysPressed.set key true }).2))).2.2.2.2.2.2.2.2.2.2.2.2.2
      rcases checkPowerUpsLoop_timer _ (checkCollectibles
        (commitMove { s with keysPressed := s.keysPressed.set key true }
          (moveTarget { s with keysPressed := s.keysPressed.set key true }).1
          (moveTarget { s with keysPressed := s.keysPressed.set key true }).2)) with g | g
      · exact Or.inl (g.trans hc)
      · exact Or.inr g
  · exact Or.inl rfl

theorem timerOk_of_eq {s t : GameState} (h : TimerOk s)
    (ht : t.powerUpTimer = s.powerUpTimer ∨ t.powerUpTimer = 10) : TimerOk t := by
  rcases ht with ht | ht
  · obtain ⟨k, hk, hs⟩ := h
    exact ⟨k, hk, ht.trans hs⟩
  · exact ⟨600, le_refl _, by rw [ht]; norm_num⟩

/-- In every reachable state the timer is a whole number of sixtieths between 0 and 10. -/
theorem reachable_timerOk {trig : Trig} {s : GameState} (hr : Reachable trig s) : TimerOk s := by
  induction hr with
  | init rm re rc fuel h =>
    obtain ⟨m, es, items, ps, _, _, _, rfl⟩ := init_parts h
    exact ⟨0, by omega, by show (0 : ℚ) = _; norm_num⟩
  | step _ hstep ih =>
    cases hstep with
    | frame rng => exact animate_timerOk trig rng _ ih
    | keyDown key => exact timerOk_of_eq ih (keyDown_timer key _)
    | keyUp key => exact timerOk_of_eq ih (Or.inl rfl)
    | nextLevel rm re rc fuel hgo hnext =>
      obtain ⟨m, es, items, ps, _, _, _, rfl⟩ := nextLevel_parts hnext
      exact timerOk_of_eq ih (Or.inl rfl)

/-- A frame of a state without enemies runs to completion and adds no enemy. -/
theorem animate_no_enemies (trig : Trig) (rng : Rng) (s : GameState) (h : s.enemies = []) :
    (animate trig rng s).2 = true ∧ (animate trig rng s).1.enemies = [] ∧
    (animate trig rng s).1.player = s.player := by
  have hu := updatePlayerAnimation_sameLevel s
  have he : (updatePlayerAnimation s).enemies = [] := hu.2.2.2.trans h
  have hu : (updateEnemies trig rng (updatePlayerAnimation s)).2 = true ∧
      (updateEnemies trig rng (updatePlayerAnimation s)).1.enemies = [] ∧
      (updateEnemies trig rng (updatePlayerAnimation s)).1.player = s.player := by
    unfold updateEnemies
    split
    · exact ⟨rfl, he, hu.2.2.1⟩
    · rw [he]
      exact ⟨rfl, rfl, hu.2.2.1⟩
  have hp : ∀ t : GameState, (updatePowerUp t).enemies = t.enemies ∧
      (updatePowerUp t).player = t.player := by
    intro t
    unfold updatePowerUp
    split
    · dsimp only
      split
      · exact ⟨rfl, rfl⟩
      · exact ⟨rfl, rfl⟩
    · exact ⟨rfl, rfl⟩
  unfold animate
  dsimp only
  rw [if_neg (by rw [hu.1]; simp)]
  split
  · exact ⟨rfl, (hp _).1.trans hu.2.1, (hp _).2.trans hu.2.2⟩
  · exact ⟨rfl, (hp _).1.trans hu.2.1, (hp _).2.trans hu.2.2⟩

theorem allComplete_no_enemies (trig : Trig) (l : List Rng) : ∀ s : GameState,
    s.enemies = [] → AllComplete trig l s := by
  induction l with
  | nil => intro s _; trivial
  | cons rng rest ih =>
    intro s h
    obtain ⟨h1, h2, _⟩ := animate_no_enemies trig rng s h
    exact ⟨h1, ih _ h2⟩

/-! ## Enemies and the active power-up -/

/-- The loop of `updateEnemies` neither reads nor writes the power fields. -/
theorem updateEnemiesLoop_withPower (trig : Trig) (rng : Rng) (p : Option PowerType)
    (timer : ℚ) (es : List Enemy) : ∀ (s : GameState) (c : Nat),
      updateEnemiesLoop trig rng es (withPower p timer s, c) =
        (withPower p timer (updateEnemiesLoop trig rng es (s, c)).1,
          (updateEnemiesLoop trig rng es (s, c)).2.1,
          (updateEnemiesLoop trig rng es (s, c)).2.2) := by
  induction es with
  | nil => intro s c; rfl
  | cons e rest ih =>
    intro s c
    unfold updateEnemiesLoop
    dsimp only
    have hmaze : (withPower p timer s).maze = s.maze := rfl
    have hsize : (withPower p timer s).mazeSize = s.mazeSize := rfl
    rw [hmaze, hsize]
    cases hstep : stepEnemy trig rng s.maze s.mazeSize (turnEnemy rng c e).2 (turnEnemy rng c e).1 with
    | none => rfl
    | some r =>
      obtain ⟨e1, c1⟩ := r
      dsimp only
      have hpl : (withPower p timer s).player = s.player := rfl
      have hgo : (withPower p timer s).gameOver = s.gameOver := rfl
      rw [hpl, hgo]
      by_cases ht : touches s.player.x s.player.y s.player.size e1 = true ∧ s.gameOver = false
      · rw [if_pos ht, if_pos ht]
        have hc : catchPlayer (withPower p timer s) = withPower p timer (catchPlayer s) := rfl
        rw [hc, ih]
      · rw [if_neg ht, if_neg ht, ih]

/-- Unless it is the freeze power-up, the active power-up has no part in `updateEnemies`. -/
theorem updateEnemies_withPower (trig : Trig) (rng : Rng) (p : Option PowerType) (timer : ℚ)
    (s : GameState) (hp : p ≠ some PowerType.freeze)
    (hs : s.activePowerUp ≠ some PowerType.freeze) :
    updateEnemies trig rng (withPower p timer s) =
      (withPower p timer (updateEnemies trig rng s).1, (updateEnemies trig rng s).2) := by
  unfold updateEnemies
  have hw : (withPower p timer s).activePowerUp = p := rfl
  rw [hw, if_neg hp, if_neg hs]
  dsimp only
  have he : (withPower p timer s).enemies = s.enemies := rfl
  rw [he, updateEnemiesLoop_withPower]
  rfl

theorem withPower_self (s : GameState) : withPower s.activePowerUp s.powerUpTimer s = s := rfl

theorem ghostState_frame :
    updateEnemies sampleTrig quietDraws ghostState =
      (withPower (some PowerType.ghost) 10 (updateEnemies sampleTrig quietDraws twoEnemyState).1,
        true) := by
  have h := updateEnemies_withPower sampleTrig quietDraws (some PowerType.ghost) 10
    twoEnemyState (by decide) (by simp [twoEnemyState, initialState])
  rw [twoEnemyState_frame] at h
  rw [twoEnemyState_frame]
  exact h

/-! ## The win -/

theorem checkExit_congr {s t : GameState} (hp : t.player = s.player) (he : t.exit = s.exit)
    (hk : t.keys = s.keys) (hl : t.currentLevel = s.currentLevel) :
    checkExit t = checkExit s := by
  unfold checkExit
  rw [hp, he, hk, hl]

/-- A player at the start position is not at an exit that lies seven cells to the east. -/
theorem checkExit_start (s : GameState) (hx : s.player.x = 1 / 2) (hfar : ExitFar s) :
    checkExit s = false := by
  have hno : ¬ (0 < (1 / 2 : ℚ) ∧
      (s.player.x - s.exit.x) ^ 2 + (s.player.y - s.exit.y) ^ 2 < 1 / 2 * (1 / 2)) := by
    rintro ⟨_, h⟩
    rw [hx] at h
    unfold ExitFar at hfar
    nlinarith [sq_nonneg (s.player.y - s.exit.y), mul_self_nonneg (s.exit.x - 15 / 2)]
  unfold checkExit sqrtLt
  simp only [decide_eq_false hno, Bool.false_and]

theorem exitFar_of_size (n : Nat) (hn : 15 ≤ n) : (15 / 2 : ℚ) ≤ ((n / 2 : Nat) : ℚ) + 1 / 2 := by
  have h7 : 7 ≤ n / 2 := by omega
  have h7q : (7 : ℚ) ≤ ((n / 2 : Nat) : ℚ) := by exact_mod_cast h7
  linarith

/-- In every reachable state the exit lies at least seven cells east of the start. -/
theorem reachable_exitFar {trig : Trig} {s : GameState} (hr : Reachable trig s) : ExitFar s := by
  induction hr with
  | init rm re rc fuel h =>
    obtain ⟨m, es, items, ps, _, _, _, rfl⟩ := init_parts h
    exact exitFar_of_size 15 (le_refl _)
  | @step s0 s1 _ hstep ih =>
    cases hstep with
    | frame rng =>
      unfold ExitFar
      rw [(animate_sameLevel trig rng _).exit]
      exact ih
    | keyDown key =>
      unfold ExitFar
      rw [(keyDown_rest key _).2.2.1]
      exact ih
    | keyUp key => exact ih
    | nextLevel rm re rc fuel hgo hnext =>
      obtain ⟨m, es, items, ps, _, _, _, rfl⟩ := nextLevel_parts hnext
      exact exitFar_of_size (min (15 + (s0.currentLevel + 1)) 25) (by omega)

/-- The frame of a state with `gameOver` unset: `gameOver` is set at its end exactly when the
frame runs to completion with `checkExit` true at its end, and then the score has risen by
exactly 100 and `checkExit` was true at the start of the frame; otherwise `gameOver` stays
unset. -/
theorem animate_win (trig : Trig) (rng : Rng) (s : GameState) (hfar : ExitFar s)
    (hgo : s.gameOver = false) :
    ((animate trig rng s).2 = true → checkExit (animate trig rng s).1 = true →
      (animate trig rng s).1.gameOver = true) ∧
    ((animate trig rng s).1.gameOver = true →
      (animate trig rng s).2 = true ∧ checkExit (animate trig rng s).1 = true ∧
      checkExit s = true ∧ (animate trig rng s).1.score = s.score + 100) := by
  have hu := updatePlayerAnimation_sameLevel s
  have he := updateEnemies_sameLevel trig rng (updatePlayerAnimation s)
  have hp := updatePowerUp_sameLevel (updateEnemies trig rng (updatePlayerAnimation s)).1
  have hlev := sameLevel_trans (sameLevel_trans hu.1 he.1) hp.1
  have hgo1 : (updateEnemies trig rng (updatePlayerAnimation s)).1.gameOver = false :=
    (he.2.gameOver.trans hu.2.1.gameOver).trans hgo
  have hgo2 : (updatePowerUp (updateEnemies trig rng (updatePlayerAnimation s)).1).gameOver =
      false := hp.2.1.trans hgo1
  unfold animate
  dsimp only
  split
  · rename_i hflag
    refine ⟨fun h => absurd h (by simp), fun h => ?_⟩
    rw [hgo1] at h
    exact absurd h (by simp)
  · split
    · rename_i hwin
      refine ⟨fun _ _ => rfl, fun _ => ⟨rfl, ?_, ?_, ?_⟩⟩
      · exact (checkExit_congr rfl rfl rfl rfl).trans hwin.1
      · rcases (updateEnemies_cases trig rng (updatePlayerAnimation s)).1 with
          ⟨es, hcase⟩ | ⟨k, es, hcase⟩
        · rw [← hwin.1]
          refine (checkExit_congr ?_ hlev.exit hlev.keys hlev.currentLevel).symm
          rw [hp.2.2, hcase]
          exact hu.2.2.1
        · exfalso
          have hx : (updatePowerUp (updateEnemies trig rng (updatePlayerAnimation s)).1).player.x =
              1 / 2 := by
            rw [hp.2.2, hcase]
            rfl
          have hfar1 : ExitFar (updatePowerUp
              (updateEnemies trig rng (updatePlayerAnimation s)).1) := by
            unfold ExitFar
            rw [hlev.exit]
            exact hfar
          rw [checkExit_start _ hx hfar1] at hwin
          exact absurd hwin.1 (by simp)
      · rcases (updateEnemies_cases trig rng (updatePlayerAnimation s)).1 with
          ⟨es, hcase⟩ | ⟨k, es, hcase⟩
        · show (updatePowerUp (updateEnemies trig rng (updatePlayerAnimation s)).1).score + 100 =
            s.score + 100
          rw [updatePowerUp_score, hcase]
          show (updatePlayerAnimation s).score + 100 = s.score + 100
          rw [updatePlayerAnimation_score]
        · exfalso
          have hx : (updatePowerUp (updateEnemies trig rng (updatePlayerAnimation s)).1).player.x =
              1 / 2 := by
            rw [hp.2.2, hcase]
            rfl
          have hfar1 : ExitFar (updatePowerUp
              (updateEnemies trig rng (updatePlayerAnimation s)).1) := by
            unfold ExitFar
            rw [hlev.exit]
            exact hfar
          rw [checkExit_start _ hx hfar1] at hwin
          exact absurd hwin.1 (by simp)
    · rename_i hnowin
      refine ⟨fun _ hc => absurd ⟨hc, hgo2⟩ hnowin, fun h => ?_⟩
      rw [hgo2] at h
      exact absurd h (by simp)

/-- While `gameOver` is set a frame changes neither the score nor `gameOver`. -/
theorem animate_gameOver (trig : Trig) (rng : Rng) (s : GameState) (hgo : s.gameOver = true) :
    (animate trig rng s).1.score = s.score ∧ (animate trig rng s).1.gameOver = true ∧
    (animate trig rng s).1.player = s.player := by
  have hu := updatePlayerAnimation_sameLevel s
  have hgo0 : (updatePlayerAnimation s).gameOver = true := hu.2.1.gameOver.trans hgo
  obtain ⟨es, hcase⟩ := (updateEnemies_cases trig rng (updatePlayerAnimation s)).2 hgo0
  have hp := updatePowerUp_sameLevel (updateEnemies trig rng (updatePlayerAnimation s)).1
  have hgo2 : (updatePowerUp (updateEnemies trig rng (updatePlayerAnimation s)).1).gameOver =
      true := by
    rw [hp.2.1, hcase]
    exact hgo0
  have hsc : (updateEnemies trig rng (updatePlayerAnimation s)).1.score = s.score := by
    rw [hcase]
    exact updatePlayerAnimation_score s
  have hpl : (updateEnemies trig rng (updatePlayerAnimation s)).1.player = s.player := by
    rw [hcase]
    exact hu.2.2.1
  have hgo1 : (updateEnemies trig rng (updatePlayerAnimation s)).1.gameOver = true := by
    rw [hcase]
    exact hgo0
  unfold animate
  dsimp only
  split
  · exact ⟨hsc, hgo1, hpl⟩
  · rw [if_neg (by rw [hgo2]; simp)]
    exact ⟨(updatePowerUp_score _).trans hsc, hgo2, hp.2.2.trans hpl⟩

/-- While `gameOver` is set a key press changes nothing but the held keys. -/
theorem keyDown_over (key : Key) (s : GameState) (hgo : s.gameOver = true) :
    (keyDown key s).1.score = s.score ∧ (keyDown key s).1.gameOver = true ∧
    (keyDown key s).1.keys = s.keys ∧ (keyDown key s).1.treasures = s.treasures ∧
    (keyDown key s).1.player = s.player ∧ (keyDown key s).1.collectibles = s.collectibles ∧
    (keyDown key s).1.powerUps = s.powerUps := by
  unfold keyDown
  split
  · have h := (tryMovePlayer_cases { s with keysPressed := s.keysPressed.set key true }).2 hgo
    rw [h]
    exact ⟨rfl, hgo, rfl, rfl, rfl, rfl, rfl⟩
  · exact ⟨rfl, hgo, rfl, rfl, rfl, rfl, rfl⟩

/-! ## Counters and collected items -/

theorem keptItem_refl (l : List Collectible) : List.Forall₂ KeptItem l l := by
  induction l with
  | nil => exact List.Forall₂.nil
  | cons a l ih => exact List.Forall₂.cons ⟨rfl, rfl, rfl, fun h => h⟩ ih

theorem keptPower_refl (l : List PowerUp) : List.Forall₂ KeptPower l l := by
  induction l with
  | nil => exact List.Forall₂.nil
  | cons a l ih => exact List.Forall₂.cons ⟨rfl, rfl, rfl, fun h => h⟩ ih

theorem collectedCount_cons (ty : ItemType) (a : Collectible) (l : List Collectible) :
    collectedCount ty (a :: l) =
      collectedCount ty l + (if a.type = ty ∧ a.collected = true then 1 else 0) := by
  unfold collectedCount
  rw [List.countP_cons]
  by_cases h : a.type = ty ∧ a.collected = true
  · simp [h]
  · simp [h]

theorem itemCount_cons (ty : ItemType) (a : Collectible) (l : List Collectible) :
    itemCount ty (a :: l) = itemCount ty l + (if a.type = ty then 1 else 0) := by
  unfold itemCount
  rw [List.countP_cons]
  by_cases h : a.type = ty
  · simp [h]
  · simp [h]

theorem collectedCount_le (ty : ItemType) (l : List Collectible) :
    collectedCount ty l ≤ itemCount ty l := by
  induction l with
  | nil => exact le_refl _
  | cons a l ih =>
    rw [collectedCount_cons, itemCount_cons]
    by_cases h : a.type = ty ∧ a.collected = true
    · rw [if_pos h, if_pos h.1]
      omega
    · rw [if_neg h]
      omega

theorem collectedCount_fresh (ty : ItemType) (l : List Collectible)
    (h : ∀ item ∈ l, item.collected = false) : collectedCount ty l = 0 := by
  unfold collectedCount
  rw [List.countP_eq_zero]
  intro item hi
  simp [h item hi]

/-- The loop of `checkCollectibles`: each counter rises by the number of items of its type
whose flag the loop sets, the score by 50 for each such key and 25 for each such treasure,
and no item changes its place or type or loses its flag. -/
theorem checkCollectiblesLoop_counts (items : List Collectible) : ∀ s : GameState,
    (checkCollectiblesLoop s items).1.keys + collectedCount ItemType.key items =
      s.keys + collectedCount ItemType.key (checkCollectiblesLoop s items).2 ∧
    (checkCollectiblesLoop s items).1.treasures + collectedCount ItemType.treasure items =
      s.treasures + collectedCount ItemType.treasure (checkCollectiblesLoop s items).2 ∧
    itemCount ItemType.key (checkCollectiblesLoop s items).2 = itemCount ItemType.key items ∧
    List.Forall₂ KeptItem items (checkCollectiblesLoop s items).2 ∧
    (checkCollectiblesLoop s items).1.score + 50 * (s.keys : Int) + 25 * (s.treasures : Int) =
      s.score + 50 * ((checkCollectiblesLoop s items).1.keys : Int) +
        25 * ((checkCollectiblesLoop s items).1.treasures : Int) := by
  induction items with
  | nil =>
    intro s
    exact ⟨rfl, rfl, rfl, List.Forall₂.nil, rfl⟩
  | cons item rest ih =>
    intro s
    unfold checkCollectiblesLoop
    split
    · rename_i hpick
      dsimp only
      obtain ⟨h1, h2, h3, h4, h5⟩ := ih (collect s item)
      have hflag : item.collected = false := hpick.1
      rw [collectedCount_cons, collectedCount_cons, collectedCount_cons, collectedCount_cons,
        itemCount_cons, itemCount_cons]
      cases hty : item.type with
      | key =>
        have hk : (collect s item).keys = s.keys + 1 := by
          unfold collect
          rw [hty]
        have ht : (collect s item).treasures = s.treasures := by
          unfold collect
          rw [hty]
        have hs : (collect s item).score = s.score + 50 := by
          unfold collect
          rw [hty]
        rw [hk] at h1 h5
        rw [ht] at h2 h5
        rw [hs] at h5
        simp only [hflag, hty]
        refine ⟨?_, ?_, ?_, List.Forall₂.cons ⟨rfl, rfl, hty.symm, fun _ => rfl⟩ h4, ?_⟩
        · simp
          omega
        · simp
          omega
        · rw [h3]
        · push_cast at h5
          linarith
      | treasure =>
        have hk : (collect s item).keys = s.keys := by
          unfold collect
          rw [hty]
        have ht : (collect s item).treasures = s.treasures + 1 := by
          unfold collect
          rw [hty]
        have hs : (collect s item).score = s.score + 25 := by
          unfold collect
          rw [hty]
        rw [hk] at h1 h5
        rw [ht] at h2 h5
        rw [hs] at h5
        simp only [hflag, hty]
        refine ⟨?_, ?_, ?_, List.Forall₂.cons ⟨rfl, rfl, hty.symm, fun _ => rfl⟩ h4, ?_⟩
        · simp
          omega
        · simp
          omega
        · rw [h3]
        · push_cast at h5
          linarith
    · dsimp only
      obtain ⟨h1, h2, h3, h4, h5⟩ := ih s
      rw [collectedCount_cons, collectedCount_cons, collectedCount_cons, collectedCount_cons,
        itemCount_cons, itemCount_cons]
      refine ⟨by omega, by omega, by rw [h3],
        List.Forall₂.cons ⟨rfl, rfl, rfl, fun h => h⟩ h4, h5⟩

/-- The loop of `checkPowerUps` changes no place or type and clears no flag. -/
theorem checkPowerUpsLoop_kept (items : List PowerUp) : ∀ s : GameState,
    List.Forall₂ KeptPower items (checkPowerUpsLoop s items).2 := by
  induction items with
  | nil => intro s; exact List.Forall₂.nil
  | cons item rest ih =>
    intro s
    unfold checkPowerUpsLoop
    split
    · exact List.Forall₂.cons ⟨rfl, rfl, rfl, fun _ => rfl⟩ (ih _)
    · exact List.Forall₂.cons ⟨rfl, rfl, rfl, fun h => h⟩ (ih _)

/-- An item with its flag set is passed over by the loop of `checkCollectibles`. -/
theorem checkCollectiblesLoop_skip (s : GameState) (item : Collectible)
    (rest : List Collectible) (h : item.collected = true) :
    checkCollectiblesLoop s (item :: rest) =
      ((checkCollectiblesLoop s rest).1, item :: (checkCollectiblesLoop s rest).2) := by
  have hno : ¬ (item.collected = false ∧ ⌊item.x⌋ = ⌊s.player.x⌋ ∧ ⌊item.y⌋ = ⌊s.player.y⌋) := by
    rintro ⟨hf, _⟩
    rw [h] at hf
    exact absurd hf (by simp)
  rw [checkCollectiblesLoop, if_neg hno]

/-- A power-up with its flag set is passed over by the loop of `checkPowerUps`. -/
theorem checkPowerUpsLoop_skip (s : GameState) (p : PowerUp) (rest : List PowerUp)
    (h : p.collected = true) :
    checkPowerUpsLoop s (p :: rest) =
      ((checkPowerUpsLoop s rest).1, p :: (checkPowerUpsLoop s rest).2) := by
  have hno : ¬ (p.collected = false ∧ ⌊p.x⌋ = ⌊s.player.x⌋ ∧ ⌊p.y⌋ = ⌊s.player.y⌋) := by
    rintro ⟨hf, _⟩
    rw [h] at hf
    exact absurd hf (by simp)
  rw [checkPowerUpsLoop, if_neg hno]

/-- What `checkPowerUps` after `checkCollectibles` does to counters, items and score. -/
theorem pickups_counts (s : GameState) :
    (checkPowerUps (checkCollectibles s)).keys + collectedCount ItemType.key s.collectibles =
      s.keys + collectedCount ItemType.key (checkPowerUps (checkCollectibles s)).collectibles ∧
    (checkPowerUps (checkCollectibles s)).treasures +
        collectedCount ItemType.treasure s.collectibles =
      s.treasures +
        collectedCount ItemType.treasure (checkPowerUps (checkCollectibles s)).collectibles ∧
    itemCount ItemType.key (checkPowerUps (checkCollectibles s)).collectibles =
      itemCount ItemType.key s.collectibles ∧
    List.Forall₂ KeptItem s.collectibles (checkPowerUps (checkCollectibles s)).collectibles ∧
    List.Forall₂ KeptPower s.powerUps (checkPowerUps (checkCollectibles s)).powerUps ∧
    (checkPowerUps (checkCollectibles s)).score + 50 * (s.keys : Int) +
        25 * (s.treasures : Int) =
      s.score + 50 * ((checkPowerUps (checkCollectibles s)).keys : Int) +
        25 * ((checkPowerUps (checkCollectibles s)).treasures : Int) := by
  obtain ⟨_, _, _, _, _, _, _, _, _, _, _, a1, a2, a3, a4⟩ :=
    sansPower_fields (checkPowerUps_sans (checkCollectibles s))
  obtain ⟨_, _, _, _, _, _, _, _, _, _, _, b12, _, _⟩ :=
    sansItems_fields (checkCollectibles_sans s)
  obtain ⟨h1, h2, h3, h4, h5⟩ := checkCollectiblesLoop_counts s.collectibles s
  have hkept : List.Forall₂ KeptPower s.powerUps
      (checkPowerUps (checkCollectibles s)).powerUps := by
    have h0 : List.Forall₂ KeptPower (checkCollectibles s).powerUps
        (checkPowerUps (checkCollectibles s)).powerUps :=
      checkPowerUpsLoop_kept (checkCollectibles s).powerUps (checkCollectibles s)
    rw [b12] at h0
    exact h0
  rw [a1, a2, a3, a4]
  exact ⟨h1, h2, h3, h4, hkept, h5⟩

/-- What a key press does to counters, items and score. -/
theorem keyDown_counts (key : Key) (s : GameState) :
    (keyDown key s).1.keys + collectedCount ItemType.key s.collectibles =
      s.keys + collectedCount ItemType.key (keyDown key s).1.collectibles ∧
    (keyDown key s).1.treasures + collectedCount ItemType.treasure s.collectibles =
      s.treasures + collectedCount ItemType.treasure (keyDown key s).1.collectibles ∧
    itemCount ItemType.key (keyDown key s).1.collectibles =
      itemCount ItemType.key s.collectibles ∧
    List.Forall₂ KeptItem s.collectibles (keyDown key s).1.collectibles ∧
    List.Forall₂ KeptPower s.powerUps (keyDown key s).1.powerUps ∧
    (keyDown key s).1.score + 50 * (s.keys : Int) + 25 * (s.treasures : Int) =
      s.score + 50 * ((keyDown key s).1.keys : Int) +
        25 * ((keyDown key s).1.treasures : Int) := by
  have hsame : ∀ t : GameState, t.keys = s.keys → t.treasures = s.treasures →
      t.collectibles = s.collectibles → t.powerUps = s.powerUps → t.score = s.score →
      t.keys + collectedCount ItemType.key s.collectibles =
        s.keys + collectedCount ItemType.key t.collectibles ∧
      t.treasures + collectedCount ItemType.treasure s.collectibles =
        s.treasures + collectedCount ItemType.treasure t.collectibles ∧
      itemCount ItemType.key t.collectibles = itemCount ItemType.key s.collectibles ∧
      List.Forall₂ KeptItem s.collectibles t.collectibles ∧
      List.Forall₂ KeptPower s.powerUps t.powerUps ∧
      t.score + 50 * (s.keys : Int) + 25 * (s.treasures : Int) =
        s.score + 50 * (t.keys : Int) + 25 * (t.treasures : Int) := by
    intro t h1 h2 h3 h4 h5
    rw [h1, h2, h3, h4, h5]
    exact ⟨rfl, rfl, rfl, keptItem_refl _, keptPower_refl _, rfl⟩
  unfold keyDown
  split
  · rcases (tryMovePlayer_cases { s with keysPressed := s.keysPressed.set key true }).1 with h | h
    · rw [h]
      exact hsame _ rfl rfl rfl rfl rfl
    · rw [h]
      exact pickups_counts (commitMove { s with keysPressed := s.keysPressed.set key true }
        (moveTarget { s with keysPressed := s.keysPressed.set key true }).1
        (moveTarget { s with keysPressed := s.keysPressed.set key true }).2)
  · exact hsame _ rfl rfl rfl rfl rfl

theorem countersOk_of_fresh {s : GameState} (hk : s.keys = 0) (ht : s.treasures = 0)
    (hfresh : ∀ item ∈ s.collectibles, item.collected = false)
    (hcount : itemCount ItemType.key s.collectibles = min s.currentLevel 3) : CountersOk s :=
  ⟨by rw [hk, collectedCount_fresh _ _ hfresh], by rw [ht, collectedCount_fresh _ _ hfresh],
    hcount⟩

/-- In every reachable state the counters agree with the flags of the items. -/
theorem reachable_countersOk {trig : Trig} {s : GameState} (hr : Reachable trig s) :
    CountersOk s := by
  induction hr with
  | init rm re rc fuel h =>
    obtain ⟨m, es, items, ps, _, _, hitems, rfl⟩ := init_parts h
    have hsize : 0 < ({ initSetup m with enemies := es } : GameState).mazeSize := by
      show 0 < 15
      decide
    obtain ⟨h1, _, _, h4, _⟩ := generateCollectibles_items hsize hitems
    exact countersOk_of_fresh rfl rfl (fun item hi => (h4 item hi).1) h1
  | @step s0 s1 _ hstep ih =>
    cases hstep with
    | frame rng =>
      have hl := animate_sameLevel trig rng s0
      exact ⟨by rw [hl.keys, hl.collectibles]; exact ih.keys,
        by rw [hl.treasures, hl.collectibles]; exact ih.treasures,
        by rw [hl.collectibles, hl.currentLevel]; exact ih.keyItems⟩
    | keyDown key =>
      obtain ⟨h1, h2, h3, _⟩ := keyDown_counts key s0
      have hlev := (keyDown_rest key s0).2.2.2.2.2.1
      have hk := ih.keys
      have ht := ih.treasures
      exact ⟨by omega, by omega, by rw [h3, hlev]; exact ih.keyItems⟩
    | keyUp key => exact ⟨ih.keys, ih.treasures, ih.keyItems⟩
    | nextLevel rm re rc fuel hgo hnext =>
      obtain ⟨m, es, items, ps, _, _, hitems, rfl⟩ := nextLevel_parts hnext
      have hsize : 0 < ({ nextLevelSetup s0 m with enemies := es } : GameState).mazeSize := by
        show 0 < min (15 + (s0.currentLevel + 1)) 25
        omega
      obtain ⟨h1, _, _, h4, _⟩ := generateCollectibles_items hsize hitems
      exact countersOk_of_fresh rfl rfl (fun item hi => (h4 item hi).1) h1

/-! ## A frame that ends before the win check -/

/-- The state left by `updateEnemies` when the validator faults at the only enemy. -/
theorem updateEnemies_single_fault_state (trig : Trig) (rng : Rng) (s : GameState) (e : Enemy)
    (hen : s.enemies = [e]) (hpow : s.activePowerUp ≠ some PowerType.freeze)
    (hstep : stepEnemy trig rng s.maze s.mazeSize (turnEnemy rng 0 e).2 (turnEnemy rng 0 e).1 =
      none) :
    updateEnemies trig rng s = ({ s with enemies := [(turnEnemy rng 0 e).1] }, false) := by
  unfold updateEnemies
  rw [if_neg hpow, hen]
  simp only [updateEnemiesLoop, hstep]

theorem checkExit_winState : checkExit winState = true := by
  have hd : (0 : ℚ) < 1 / 2 ∧
      ((17 / 2 : ℚ) - 17 / 2) ^ 2 + ((17 / 2 : ℚ) - 17 / 2) ^ 2 < 1 / 2 * (1 / 2) := by
    norm_num
  show (sqrtLt (((17 / 2 : ℚ) - 17 / 2) ^ 2 + ((17 / 2 : ℚ) - 17 / 2) ^ 2) (1 / 2) &&
    decide ((2 : Nat) = min 2 3)) = true
  unfold sqrtLt
  rw [decide_eq_true hd]
  rfl

/-- The frame of `faultWinState`: the lookup `maze[16][17]` of `isValidEnemyMove` is
`undefined`, so the frame ends in `updateEnemies` with the state as it was, the camera
apart. -/
theorem faultWinState_frame :
    animate sampleTrig quietDraws faultWinState =
      ({ updatePlayerAnimation faultWinState with
          enemies := [ { x := 1701 / 100, y := 33 / 2, size := 12, speed := 3 / 100,
                         direction := 1 / 2 } ] }, false) := by
  have hu := updatePlayerAnimation_sameLevel faultWinState
  have hmaze : (updatePlayerAnimation faultWinState).maze = twoEnemyState.maze := hu.1.maze
  have hsize : (updatePlayerAnimation faultWinState).mazeSize = 17 := hu.1.mazeSize
  have hen : (updatePlayerAnimation faultWinState).enemies =
      [ { x := 1701 / 100, y := 33 / 2, size := 12, speed := 3 / 100, direction := 1 / 2 } ] :=
    hu.2.2.2
  have hpow : (updatePlayerAnimation faultWinState).activePowerUp ≠ some PowerType.freeze := by
    rw [hu.2.1.activePowerUp]
    simp [faultWinState, winState, twoEnemyState, initialState]
  have hturn : turnEnemy quietDraws 0
      { x := 1701 / 100, y := 33 / 2, size := 12, speed := 3 / 100, direction := 1 / 2 } =
      ({ x := 1701 / 100, y := 33 / 2, size := 12, speed := 3 / 100, direction := 1 / 2 },
        1) := by
    have : ¬ random quietDraws 0 < 1 / 50 := by
      norm_num [random, quietDraws, Int.fract]
    simp only [turnEnemy, if_neg this]
  have hcell : twoEnemyState.maze.cell? 17 16 = none := by
    have := twoEnemyState_size 17 16
    cases hcc : twoEnemyState.maze.cell? 17 16 with
    | none => rfl
    | some c =>
      rw [hcc] at this
      have hin := this.mp rfl
      unfold InGrid at hin
      omega
  have hstep : stepEnemy sampleTrig quietDraws twoEnemyState.maze 17 1
      { x := 1701 / 100, y := 33 / 2, size := 12, speed := 3 / 100, direction := 1 / 2 } =
      none := by
    have f1 : ⌊(1701 / 100 : ℚ)⌋ = 17 := by norm_num
    have f2 : ⌊(33 / 2 : ℚ)⌋ = 16 := by norm_num
    have f3 : ⌊(1701 / 100 + -1 * (3 / 100) : ℚ)⌋ = 16 := by norm_num
    have f4 : ⌊(33 / 2 + 0 * (3 / 100) : ℚ)⌋ = 16 := by norm_num
    simp only [stepEnemy, sampleTrig, isValidEnemyMove, f1, f2, f3, f4, hcell]
    norm_num
  have hupd := updateEnemies_single_fault_state sampleTrig quietDraws
    (updatePlayerAnimation faultWinState) _ hen hpow (by rw [hturn, hmaze, hsize]; exact hstep)
  rw [hturn] at hupd
  unfold animate
  dsimp only
  rw [hupd]
  rfl

/-! ## Claims on the generated maze -/

/-- C1: for every width and height of at least one and every sequence of draws,
`generateMaze` returns a maze whose cells are exactly those of the grid and in which every
cell is reachable from every other cell by steps between neighbouring cells whose shared
wall is removed on both sides. -/
theorem generateMaze_connected (width height : Nat) (hw : 1 ≤ width) (hh : 1 ≤ height)
    (rng : Rng) :
    ∃ m, generateMaze width height rng = some m ∧ m.HasSize width height ∧
      ∀ a b : Int × Int, InGrid width height a.1 a.2 → InGrid width height b.1 b.2 →
        Connected width height m a b := by
  obtain ⟨m, hm, hinv, _, hconn, _⟩ := generateMaze_spec width height hw hh rng
  exact ⟨m, hm, hinv.size, hconn⟩

/-- Witness of C1 on a 2 by 2 grid with all draws zero. -/
theorem generateMaze_connected_witness :
    1 ≤ 2 ∧ 1 ≤ 2 ∧ ∃ m, generateMaze 2 2 (fun _ => 0) = some m ∧ m.HasSize 2 2 ∧
      ∀ a b : Int × Int, InGrid 2 2 a.1 a.2 → InGrid 2 2 b.1 b.2 → Connected 2 2 m a b :=
  ⟨by decide, by decide, generateMaze_connected 2 2 (by decide) (by decide) (fun _ => 0)⟩

/-- C2: in every maze produced by `generateMaze`, the east flag of a cell equals the west
flag of its right neighbour and the south flag of a cell equals the north flag of the
neighbour below, so a wall is removed on one side exactly when it is removed on the other. -/
theorem generateMaze_walls_agree (width height : Nat) (rng : Rng) (m : Maze)
    (hm : generateMaze width height rng = some m) (x y : Int) (a b : Cell) :
    (m.cell? x y = some a → m.cell? (x + 1) y = some b → a.east = b.west) ∧
    (m.cell? x y = some a → m.cell? x (y + 1) = some b → a.south = b.north) := by
  have hpos : 1 ≤ width ∧ 1 ≤ height := by
    by_contra hneg
    have hz : width = 0 ∨ height = 0 := by omega
    rw [generateMaze_degenerate width height rng hz] at hm
    exact absurd hm (by simp)
  obtain ⟨m1, hm1, hinv, _, _, _⟩ := generateMaze_spec width height hpos.1 hpos.2 rng
  have hmm : m1 = m := by
    rw [hm1] at hm
    exact Option.some.inj hm
  subst hmm
  have hin : ∀ (px py : Int) (c : Cell), m1.cell? px py = some c → InGrid width height px py := by
    intro px py c hc
    exact (hinv.size px py).mp (by simp [hc])
  constructor
  · intro ha hb
    have h := hinv.sym x y (hin x y a ha) ⟨1, 0, Wall.east, Wall.west⟩ (by simp [directions])
      (by simpa using hin (x + 1) y b hb)
    simp only [Maze.Open, Maze.cellD, Cell.wall, add_zero, ha, hb, Option.getD_some] at h
    cases hea : a.east <;> cases hbw : b.west <;> simp_all
  · intro ha hb
    have h := hinv.sym x y (hin x y a ha) ⟨0, 1, Wall.south, Wall.north⟩ (by simp [directions])
      (by simpa using hin x (y + 1) b hb)
    simp only [Maze.Open, Maze.cellD, Cell.wall, add_zero, ha, hb, Option.getD_some] at h
    cases hea : a.south <;> cases hbw : b.north <;> simp_all

/-- Witness of C2: the maze generated on a 2 by 2 grid with all draws zero. -/
theorem generateMaze_walls_agree_witness :
    ∃ m, generateMaze 2 2 (fun _ => 0) = some m ∧ ∀ (x y : Int) (a b : Cell),
      (m.cell? x y = some a → m.cell? (x + 1) y = some b → a.east = b.west) ∧
      (m.cell? x y = some a → m.cell? x (y + 1) = some b → a.south = b.north) := by
  obtain ⟨m, hm, _⟩ := generateMaze_spec 2 2 (by decide) (by decide) (fun _ => 0)
  exact ⟨m, hm, fun x y a b => generateMaze_walls_agree 2 2 (fun _ => 0) m hm x y a b⟩

/-- C3: every maze produced by `generateMaze` on a grid with at least one cell is a spanning
tree of the grid: all cells are connected, and the number of neighbouring pairs whose wall
is removed is the number of cells minus one. -/
theorem generateMaze_spanning_tree (width height : Nat) (hw : 1 ≤ width) (hh : 1 ≤ height)
    (rng : Rng) :
    ∃ m, generateMaze width height rng = some m ∧
      (∀ a b : Int × Int, InGrid width height a.1 a.2 → InGrid width height b.1 b.2 →
        Connected width height m a b) ∧
      removedWalls width height m = width * height - 1 := by
  obtain ⟨m, hm, _, _, hconn, hcount⟩ := generateMaze_spec width height hw hh rng
  exact ⟨m, hm, hconn, by omega⟩

/-- Witness of C3 on a 3 by 2 grid. -/
theorem generateMaze_spanning_tree_witness :
    1 ≤ 3 ∧ 1 ≤ 2 ∧ ∃ m, generateMaze 3 2 (fun i => (i : ℚ) / 7) = some m ∧
      (∀ a b : Int × Int, InGrid 3 2 a.1 a.2 → InGrid 3 2 b.1 b.2 → Connected 3 2 m a b) ∧
      removedWalls 3 2 m = 3 * 2 - 1 :=
  ⟨by decide, by decide,
    generateMaze_spanning_tree 3 2 (by decide) (by decide) (fun i => (i : ℚ) / 7)⟩

/-! ## Claims on the validators and the win check -/

/-- C4: for a maze of size `mazeSize` and a source position whose cell lies in the grid,
`isValidMove` returns a value, and that value is true exactly when the target lies in
`[1/2, mazeSize + 1/2)` on both axes, the target cell differs from the source cell along
exactly one axis, and the wall flag of the source cell in the direction of travel is false.
In particular the value is false for an out-of-bounds target, for a target cell that differs
on both axes, and for a target in the source cell. -/
theorem isValidMove_iff (maze : Maze) (mazeSize : Nat) (hs : maze.HasSize mazeSize mazeSize)
    (fromX fromY toX toY : ℚ) (hsrc : InGrid mazeSize mazeSize ⌊fromX⌋ ⌊fromY⌋) :
    ∃ b, isValidMove maze mazeSize fromX fromY toX toY = some b ∧
      (b = true ↔
        (1 / 2 ≤ toX ∧ toX < mazeSize + 1 / 2 ∧ 1 / 2 ≤ toY ∧ toY < mazeSize + 1 / 2) ∧
        ((⌊toX⌋ ≠ ⌊fromX⌋ ∧ ⌊toY⌋ = ⌊fromY⌋) ∨ (⌊toX⌋ = ⌊fromX⌋ ∧ ⌊toY⌋ ≠ ⌊fromY⌋)) ∧
        (maze.cellD ⌊fromX⌋ ⌊fromY⌋).wall (travelWall ⌊fromX⌋ ⌊fromY⌋ ⌊toX⌋ ⌊toY⌋) = false) ∧
      ((toX < 1 / 2 ∨ mazeSize + 1 / 2 ≤ toX ∨ toY < 1 / 2 ∨ mazeSize + 1 / 2 ≤ toY) →
        b = false) ∧
      (⌊toX⌋ ≠ ⌊fromX⌋ → ⌊toY⌋ ≠ ⌊fromY⌋ → b = false) ∧
      (⌊toX⌋ = ⌊fromX⌋ → ⌊toY⌋ = ⌊fromY⌋ → b = false) := by
  obtain ⟨b, hb, hiff⟩ := isValidMove_char maze mazeSize hs fromX fromY toX toY hsrc
  refine ⟨b, hb, hiff, ?_, ?_, ?_⟩
  · intro hout
    rw [Bool.eq_false_iff]
    intro hbt
    obtain ⟨⟨h1, h2, h3, h4⟩, _⟩ := hiff.mp hbt
    rcases hout with h | h | h | h
    · exact absurd h1 (not_le.mpr h)
    · exact absurd h2 (not_lt.mpr h)
    · exact absurd h3 (not_le.mpr h)
    · exact absurd h4 (not_lt.mpr h)
  · intro hx hy
    rw [Bool.eq_false_iff]
    intro hbt
    rcases (hiff.mp hbt).2.1 with h | h
    · exact hy h.2
    · exact hx h.1
  · intro hx hy
    rw [Bool.eq_false_iff]
    intro hbt
    rcases (hiff.mp hbt).2.1 with h | h
    · exact h.1 hx
    · exact h.2 hy

/-- Witness of C4: a step to the right from the start cell of a generated 15 by 15 maze. -/
theorem isValidMove_iff_witness :
    ∃ m, generateMaze 15 15 cornerDraws = some m ∧ m.HasSize 15 15 ∧
      InGrid 15 15 ⌊(1 / 2 : ℚ)⌋ ⌊(1 / 2 : ℚ)⌋ ∧
      ∃ b, isValidMove m 15 (1 / 2) (1 / 2) (3 / 2) (1 / 2) = some b ∧
        (b = true ↔
          (1 / 2 ≤ (3 / 2 : ℚ) ∧ (3 / 2 : ℚ) < (15 : Nat) + 1 / 2 ∧ 1 / 2 ≤ (1 / 2 : ℚ) ∧
            (1 / 2 : ℚ) < (15 : Nat) + 1 / 2) ∧
          ((⌊(3 / 2 : ℚ)⌋ ≠ ⌊(1 / 2 : ℚ)⌋ ∧ ⌊(1 / 2 : ℚ)⌋ = ⌊(1 / 2 : ℚ)⌋) ∨
            (⌊(3 / 2 : ℚ)⌋ = ⌊(1 / 2 : ℚ)⌋ ∧ ⌊(1 / 2 : ℚ)⌋ ≠ ⌊(1 / 2 : ℚ)⌋)) ∧
          (m.cellD ⌊(1 / 2 : ℚ)⌋ ⌊(1 / 2 : ℚ)⌋).wall
            (travelWall ⌊(1 / 2 : ℚ)⌋ ⌊(1 / 2 : ℚ)⌋ ⌊(3 / 2 : ℚ)⌋ ⌊(1 / 2 : ℚ)⌋) = false) := by
  obtain ⟨m, hm, hinv, _⟩ := generateMaze_spec 15 15 (by decide) (by decide) cornerDraws
  have hsrc : InGrid 15 15 ⌊(1 / 2 : ℚ)⌋ ⌊(1 / 2 : ℚ)⌋ := by
    have f : ⌊(1 / 2 : ℚ)⌋ = 0 := by norm_num
    rw [f]
    decide
  obtain ⟨b, hb, hiff, _⟩ := isValidMove_iff m 15 hinv.size (1 / 2) (1 / 2) (3 / 2) (1 / 2) hsrc
  exact ⟨m, hm, hinv.size, hsrc, b, hb, hiff⟩

/-- C5: `checkExit` returns true exactly when the squared distance from the player to the
exit is below 1/4, equivalently the Euclidean distance is below 1/2, and the key count
equals `min(currentLevel, 3)`; on the exit position with one key missing it returns false. -/
theorem checkExit_iff (s : GameState) :
    (checkExit s = true ↔
      (s.player.x - s.exit.x) ^ 2 + (s.player.y - s.exit.y) ^ 2 < 1 / 4 ∧
        s.keys = min s.currentLevel 3) ∧
    (checkExit s = true ↔
      Real.sqrt ((((s.player.x - s.exit.x) ^ 2 + (s.player.y - s.exit.y) ^ 2 : ℚ)) : ℝ) < 1 / 2 ∧
        s.keys = min s.currentLevel 3) ∧
    (s.player.x = s.exit.x → s.player.y = s.exit.y → s.keys + 1 = min s.currentLevel 3 →
      checkExit s = false) := by
  refine ⟨?_, ?_, ?_⟩
  · unfold checkExit sqrtLt
    simp only [Bool.and_eq_true, decide_eq_true_iff]
    constructor
    · rintro ⟨⟨_, hd⟩, hk⟩
      exact ⟨by linarith, hk⟩
    · rintro ⟨hd, hk⟩
      exact ⟨⟨by norm_num, by linarith⟩, hk⟩
  · unfold checkExit
    simp only [Bool.and_eq_true, decide_eq_true_iff, sqrtLt_iff_real]
    norm_num
  · intro hx hy hk
    unfold checkExit
    have : ¬ s.keys = min s.currentLevel 3 := by omega
    simp [this]


/-- Witness of C5: the player of `twoEnemyState` moved onto the exit with one of the two
keys of level two. -/
theorem checkExit_iff_witness :
    checkExit { twoEnemyState with player := { x := 17 / 2, y := 17 / 2, size := 14 },
                                   keys := 1 } = false :=
  (checkExit_iff { twoEnemyState with player := { x := 17 / 2, y := 17 / 2, size := 14 },
                                      keys := 1 }).2.2 rfl rfl rfl

/-- C8: `isValidEnemyMove` accepts a step from cell `(1, 1)` into the diagonal cell
`(2, 2)` in every maze, without reading a wall flag, while `isValidMove` rejects the same
step: on a cell change along both axes the two validators disagree. -/
theorem isValidEnemyMove_diagonal (maze : Maze) :
    isValidEnemyMove maze 15 (199 / 100) (199 / 100) (201 / 100) (201 / 100) = some true ∧
    isValidMove maze 15 (199 / 100) (199 / 100) (201 / 100) (201 / 100) = some false := by
  have f1 : ⌊(199 / 100 : ℚ)⌋ = 1 := by norm_num
  have f2 : ⌊(201 / 100 : ℚ)⌋ = 2 := by norm_num
  constructor
  · unfold isValidEnemyMove
    rw [f1, f2]
    norm_num
  · unfold isValidMove
    rw [f1, f2]
    norm_num


/-! ## Claims on the running game -/

/-- C6: in every reachable state the score is a non-negative integer, and a catch at a
score below ten sets the score to zero. -/
theorem score_nonneg (trig : Trig) (s : GameState) (hr : Reachable trig s) :
    0 ≤ s.score ∧ (s.score < 10 → (catchPlayer s).score = 0) := by
  have h := reachable_score hr
  refine ⟨h, ?_⟩
  intro hlt
  rw [catchPlayer_score]
  omega

/-- Witness of C6: the state after `init()` with the sample draws and one frame. -/
theorem score_nonneg_witness :
    ∃ s, init cornerDraws enemyDraws cornerDraws 1 = some s ∧
      0 ≤ (animate sampleTrig quietDraws s).1.score ∧
      ((animate sampleTrig quietDraws s).1.score < 10 →
        (catchPlayer (animate sampleTrig quietDraws s).1).score = 0) := by
  obtain ⟨s, hs, _⟩ := init_corner
  exact ⟨s, hs, score_nonneg sampleTrig _
    (Reachable.step (Reachable.init _ _ _ _ hs) (Step.frame quietDraws s))⟩

/-- C7: after `init()` with an enemy placed at `(14.5, 13.5)` on the 15 by 15 level and 24
frames along its heading of an eighth of a turn, the last of which crosses a cell corner,
the enemy stands in column 15, outside the grid; the state is reachable, and the next frame,
in which the enemy turns back west, ends in a `TypeError` of `isValidEnemyMove`: the lookup
`maze[14][15]` is `undefined`. -/
theorem enemy_leaves_grid :
    ∃ s0, init cornerDraws enemyDraws cornerDraws 1 = some s0 ∧
      Reachable sampleTrig (runFrames sampleTrig quietDraws 24 s0) ∧
      (runFrames sampleTrig quietDraws 24 s0).mazeSize = 15 ∧
      (runFrames sampleTrig quietDraws 24 s0).enemies =
        [{ cornerEnemy with x := 1876139 / 125000, y := 1751139 / 125000 }] ∧
      ⌊(1876139 / 125000 : ℚ)⌋ = 15 ∧ ⌊(1751139 / 125000 : ℚ)⌋ = 14 ∧
      (animate sampleTrig turnDraws (runFrames sampleTrig quietDraws 24 s0)).2 = false := by
  obtain ⟨s0, hs0, hcalm0⟩ := init_corner
  obtain ⟨hreach, hcalm⟩ := calm_run s0 hs0 hcalm0 24 (le_refl 24)
  have hpos : Calm (runFrames sampleTrig quietDraws 24 s0)
      (1876139 / 125000) (1751139 / 125000) := by
    have e1 : (29 / 2 : ℚ) + ((24 : Nat) : ℚ) * (21213 / 1000000) = 1876139 / 125000 := by
      norm_num
    have e2 : (27 / 2 : ℚ) + ((24 : Nat) : ℚ) * (21213 / 1000000) = 1751139 / 125000 := by
      norm_num
    rw [e1, e2] at hcalm
    exact hcalm
  exact ⟨s0, hs0, hreach, hpos.mazeSize, hpos.enemies, by norm_num, by norm_num,
    calm_fault _ hpos⟩

/-- C9: `tryMovePlayer` returns the state unchanged when a move animation is in flight or
`gameOver` is set, and when `isValidMove` rejects the target; when `isValidMove` accepts it,
the player position is the target, the target cell is added to the visited set, and the
animation has the target as its target, `moving` set and progress zero. -/
theorem tryMovePlayer_spec (s : GameState) :
    ((s.playerAnimation.moving = true ∨ s.gameOver = true) → tryMovePlayer s = (s, true)) ∧
    (s.playerAnimation.moving = false → s.gameOver = false →
      isValidMove s.maze s.mazeSize s.player.x s.player.y (moveTarget s).1 (moveTarget s).2 =
        some false →
      tryMovePlayer s = (s, true)) ∧
    (s.playerAnimation.moving = false → s.gameOver = false →
      isValidMove s.maze s.mazeSize s.player.x s.player.y (moveTarget s).1 (moveTarget s).2 =
        some true →
      (tryMovePlayer s).2 = true ∧
      (tryMovePlayer s).1.player.x = (moveTarget s).1 ∧
      (tryMovePlayer s).1.player.y = (moveTarget s).2 ∧
      (tryMovePlayer s).1.visitedCells =
        insert (⌊(moveTarget s).1⌋, ⌊(moveTarget s).2⌋) s.visitedCells ∧
      (tryMovePlayer s).1.playerAnimation.targetX = (moveTarget s).1 ∧
      (tryMovePlayer s).1.playerAnimation.targetY = (moveTarget s).2 ∧
      (tryMovePlayer s).1.playerAnimation.moving = true ∧
      (tryMovePlayer s).1.playerAnimation.progress = 0) := by
  refine ⟨?_, ?_, ?_⟩
  · intro h
    unfold tryMovePlayer
    rw [if_pos h]
  · intro hm hg hv
    unfold tryMovePlayer
    rw [if_neg (by simp [hm, hg])]
    simp only [hv]
  · intro hm hg hv
    have hres : tryMovePlayer s =
        (checkPowerUps (checkCollectibles (commitMove s (moveTarget s).1 (moveTarget s).2)),
          true) := by
      unfold tryMovePlayer
      rw [if_neg (by simp [hm, hg])]
      simp only [hv]
    obtain ⟨hp, hvc, ha⟩ := pickups_frame (commitMove s (moveTarget s).1 (moveTarget s).2)
    rw [hres]
    exact ⟨rfl, by rw [hp]; rfl, by rw [hp]; rfl, by rw [hvc]; rfl, by rw [ha]; rfl,
      by rw [ha]; rfl, by rw [ha]; rfl, by rw [ha]; rfl⟩


/-- Witness of C9 on `corridorState`: the accepted step to the right, the rejected step to
the left, and the request during a move. -/
theorem tryMovePlayer_spec_witness :
    ((tryMovePlayer corridorState).2 = true ∧
      (tryMovePlayer corridorState).1.player.x = 3 / 2 ∧
      (tryMovePlayer corridorState).1.playerAnimation.moving = true) ∧
    tryMovePlayer { corridorState with playerAnimation :=
      { corridorState.playerAnimation with moving := true } } =
      ({ corridorState with playerAnimation :=
        { corridorState.playerAnimation with moving := true } }, true) := by
  have h := (tryMovePlayer_spec corridorState).2.2 rfl rfl corridor_valid
  refine ⟨⟨h.1, ?_, h.2.2.2.2.2.2.1⟩, ?_⟩
  · rw [h.2.1]
    norm_num [moveTarget, corridorState, initialState]
  · exact (tryMovePlayer_spec _).1 (Or.inl rfl)

/-- C10 as amended: in a frame without freeze and with the game not over, on a maze of size
`mazeSize` with every enemy in a grid cell, `updateEnemies` runs to completion, and with `k`
the number of catches counted against the player position at the time each enemy is
processed (the position at the start of the frame up to the first catch, `(1/2, 1/2)` after
it): for `k = 0` the player and the score are unchanged, and for `k ≥ 1` the player, the
animation position and the animation target are `(1/2, 1/2)` and the score is
`max 0 (score - 10 k)`. -/
theorem updateEnemies_catches (trig : Trig) (rng : Rng) (s : GameState)
    (hfreeze : s.activePowerUp ≠ some PowerType.freeze) (hgo : s.gameOver = false)
    (hsize : s.maze.HasSize s.mazeSize s.mazeSize)
    (hen : ∀ e ∈ s.enemies, InGrid s.mazeSize s.mazeSize ⌊e.x⌋ ⌊e.y⌋) :
    (updateEnemies trig rng s).2 = true ∧
    (catchCount s.player.size (s.player.x, s.player.y) (updateEnemies trig rng s).1.enemies = 0 →
      (updateEnemies trig rng s).1.player = s.player ∧
      (updateEnemies trig rng s).1.score = s.score) ∧
    (1 ≤ catchCount s.player.size (s.player.x, s.player.y)
        (updateEnemies trig rng s).1.enemies →
      (updateEnemies trig rng s).1.player.x = 1 / 2 ∧
      (updateEnemies trig rng s).1.player.y = 1 / 2 ∧
      (updateEnemies trig rng s).1.playerAnimation.x = 1 / 2 ∧
      (updateEnemies trig rng s).1.playerAnimation.y = 1 / 2 ∧
      (updateEnemies trig rng s).1.playerAnimation.targetX = 1 / 2 ∧
      (updateEnemies trig rng s).1.playerAnimation.targetY = 1 / 2 ∧
      (updateEnemies trig rng s).1.score =
        max 0 (s.score - 10 * (catchCount s.player.size (s.player.x, s.player.y)
          (updateEnemies trig rng s).1.enemies : Nat))) := by
  obtain ⟨hdone, hzero, hpos⟩ := updateEnemiesLoop_catches trig rng s.enemies s 0 hgo hsize hen
  have hres : updateEnemies trig rng s =
      ({ (updateEnemiesLoop trig rng s.enemies (s, 0)).1 with
          enemies := (updateEnemiesLoop trig rng s.enemies (s, 0)).2.1 },
        (updateEnemiesLoop trig rng s.enemies (s, 0)).2.2) := by
    unfold updateEnemies
    rw [if_neg hfreeze]
  rw [hres]
  refine ⟨hdone, ?_, ?_⟩
  · intro hk
    have e := hzero hk
    constructor
    · show (updateEnemiesLoop trig rng s.enemies (s, 0)).1.player = s.player
      rw [e]
    · show (updateEnemiesLoop trig rng s.enemies (s, 0)).1.score = s.score
      rw [e]
  · intro hk
    have e := hpos hk
    refine ⟨?_, ?_, ?_, ?_, ?_, ?_, ?_⟩
    · show (updateEnemiesLoop trig rng s.enemies (s, 0)).1.player.x = 1 / 2
      rw [e]
      rfl
    · show (updateEnemiesLoop trig rng s.enemies (s, 0)).1.player.y = 1 / 2
      rw [e]
      rfl
    · show (updateEnemiesLoop trig rng s.enemies (s, 0)).1.playerAnimation.x = 1 / 2
      rw [e]
      rfl
    · show (updateEnemiesLoop trig rng s.enemies (s, 0)).1.playerAnimation.y = 1 / 2
      rw [e]
      rfl
    · show (updateEnemiesLoop trig rng s.enemies (s, 0)).1.playerAnimation.targetX = 1 / 2
      rw [e]
      rfl
    · show (updateEnemiesLoop trig rng s.enemies (s, 0)).1.playerAnimation.targetY = 1 / 2
      rw [e]
      rfl
    · show (updateEnemiesLoop trig rng s.enemies (s, 0)).1.score = _
      rw [e]

/-- Witness of C10 as amended: the frame of `twoEnemyState`, in which one catch is applied. -/
theorem updateEnemies_catches_witness :
    twoEnemyState.activePowerUp ≠ some PowerType.freeze ∧ twoEnemyState.gameOver = false ∧
    twoEnemyState.maze.HasSize twoEnemyState.mazeSize twoEnemyState.mazeSize ∧
    (∀ e ∈ twoEnemyState.enemies,
      InGrid twoEnemyState.mazeSize twoEnemyState.mazeSize ⌊e.x⌋ ⌊e.y⌋) ∧
    (updateEnemies sampleTrig quietDraws twoEnemyState).2 = true := by
  have hfreeze : twoEnemyState.activePowerUp ≠ some PowerType.freeze := by
    simp [twoEnemyState, initialState]
  have hen : ∀ e ∈ twoEnemyState.enemies,
      InGrid twoEnemyState.mazeSize twoEnemyState.mazeSize ⌊e.x⌋ ⌊e.y⌋ := by
    intro e he
    have f1 : ⌊(11 / 2 : ℚ)⌋ = 5 := by norm_num
    have f2 : ⌊(23 / 4 : ℚ)⌋ = 5 := by norm_num
    simp only [twoEnemyState, List.mem_cons, List.mem_singleton, List.not_mem_nil,
      or_false] at he
    rcases he with rfl | rfl
    · simp only [twoEnemyState, InGrid, f1]
      omega
    · simp only [twoEnemyState, InGrid, f1, f2]
      omega
  exact ⟨hfreeze, rfl, twoEnemyState_size, hen,
    (updateEnemies_catches sampleTrig quietDraws twoEnemyState hfreeze rfl twoEnemyState_size
      hen).1⟩

/-- Counterexample to C10 as stated: in the frame of `twoEnemyState` (no freeze, game not
over) both moved enemies are within catching distance of the player position at the start of
the frame, yet only one catch is applied: the score goes from 150 to 140, not to 130. -/
theorem catches_not_per_touching_enemy :
    twoEnemyState.activePowerUp = none ∧ twoEnemyState.gameOver = false ∧
    twoEnemyState.score = 150 ∧
    (updateEnemies sampleTrig quietDraws twoEnemyState).2 = true ∧
    touchingCount twoEnemyState.player.size (twoEnemyState.player.x, twoEnemyState.player.y)
      (updateEnemies sampleTrig quietDraws twoEnemyState).1.enemies = 2 ∧
    (updateEnemies sampleTrig quietDraws twoEnemyState).1.score = 140 ∧
    (updateEnemies sampleTrig quietDraws twoEnemyState).1.score ≠
      max 0 (twoEnemyState.score - 10 * 2) := by
  rw [twoEnemyState_frame]
  have hsc : (catchPlayer twoEnemyState).score = 140 := by
    rw [catchPlayer_score]
    decide
  have t1 : touches (11 / 2) (11 / 2) 14
      { x := 5521213 / 1000000, y := 5521213 / 1000000, size := 12, speed := 3 / 100,
        direction := 1 / 8 } = true := by
    simp only [touches, sqrtLt, cellSize, decide_eq_true_iff]
    norm_num
  have t2 : touches (11 / 2) (11 / 2) 14
      { x := 5771213 / 1000000, y := 5521213 / 1000000, size := 12, speed := 3 / 100,
        direction := 1 / 8 } = true := by
    simp only [touches, sqrtLt, cellSize, decide_eq_true_iff]
    norm_num
  refine ⟨rfl, rfl, rfl, rfl, ?_, hsc, ?_⟩
  · show touchingCount 14 (11 / 2, 11 / 2) _ = 2
    simp only [touchingCount, List.filter, t1, t2, List.length]
  · show (catchPlayer twoEnemyState).score ≠ _
    rw [hsc]
    decide

/-! ## Claims on the visited set and the level change -/

/-- C12: a frame and a key release leave the visited set as it is, a key press leaves it as
it is or adds a cell to it, and none of them changes `mazeSize`, so the progress percentage
does not decrease; `nextLevel` leaves the visited set equal to the one start cell `(0, 0)`. -/
theorem visited_grows (trig : Trig) (rng : Rng) (key : Key) (s : GameState) :
    ((animate trig rng s).1.visitedCells = s.visitedCells ∧
      (animate trig rng s).1.mazeSize = s.mazeSize) ∧
    (s.visitedCells ⊆ (keyDown key s).1.visitedCells ∧
      (keyDown key s).1.mazeSize = s.mazeSize) ∧
    ((keyUp key s).visitedCells = s.visitedCells ∧ (keyUp key s).mazeSize = s.mazeSize) ∧
    explorationProgress s ≤ explorationProgress (animate trig rng s).1 ∧
    explorationProgress s ≤ explorationProgress (keyDown key s).1 ∧
    explorationProgress s ≤ explorationProgress (keyUp key s) ∧
    (∀ (rm re rc : Rng) (fuel : Nat) (s1 : GameState),
      nextLevel rm re rc fuel s = some s1 → s1.visitedCells = {(0, 0)}) := by
  have ha := animate_sameLevel trig rng s
  obtain ⟨_, hk2, _, _, hk5, _, _⟩ := keyDown_rest key s
  refine ⟨⟨ha.visitedCells, ha.mazeSize⟩, ⟨hk5, hk2⟩, ⟨rfl, rfl⟩, ?_, ?_, ?_, ?_⟩
  · exact explorationProgress_mono (by rw [ha.visitedCells]) ha.mazeSize
  · exact explorationProgress_mono hk5 hk2
  · exact explorationProgress_mono (Finset.Subset.refl _) rfl
  · intro rm re rc fuel s1 h
    obtain ⟨m, es, items, ps, _, _, _, rfl⟩ := nextLevel_parts h
    have hfl : ⌊(1 / 2 : ℚ)⌋ = 0 := by norm_num
    show ({(⌊(1 / 2 : ℚ)⌋, ⌊(1 / 2 : ℚ)⌋)} : Finset (Int × Int)) = {(0, 0)}
    rw [hfl]

/-- Witness of C12: the level change from `twoEnemyState` with the draws `cornerDraws`. -/
theorem visited_grows_witness :
    ∃ s1, nextLevel cornerDraws cornerDraws cornerDraws 1 twoEnemyState = some s1 ∧
      s1.visitedCells = {(0, 0)} := by
  obtain ⟨s1, h⟩ := nextLevel_corner twoEnemyState
  exact ⟨s1, h, (visited_grows sampleTrig quietDraws Key.ArrowUp twoEnemyState).2.2.2.2.2.2
    cornerDraws cornerDraws cornerDraws 1 s1 h⟩

/-- C13: when `nextLevel` returns, the level is one higher, `mazeSize` is
`min(15 + level, 25)` for the new level and lies within 15..25, the player is at
`(1/2, 1/2)`, keys and treasures are zero, no power-up is active, `gameOver` is false, the
maze is the one `generateMaze(mazeSize, mazeSize)` returned and has that size, the exit is
at the centre cell, and the score is the one before the call. -/
theorem nextLevel_spec (rm re rc : Rng) (fuel : Nat) (s s1 : GameState)
    (h : nextLevel rm re rc fuel s = some s1) :
    s1.currentLevel = s.currentLevel + 1 ∧
    s1.mazeSize = min (15 + (s.currentLevel + 1)) 25 ∧
    15 ≤ s1.mazeSize ∧ s1.mazeSize ≤ 25 ∧
    s1.player.x = 1 / 2 ∧ s1.player.y = 1 / 2 ∧
    s1.keys = 0 ∧ s1.treasures = 0 ∧ s1.activePowerUp = none ∧ s1.gameOver = false ∧
    generateMaze s1.mazeSize s1.mazeSize rm = some s1.maze ∧
    s1.maze.HasSize s1.mazeSize s1.mazeSize ∧
    s1.exit.x = ((s1.mazeSize / 2 : Nat) : ℚ) + 1 / 2 ∧
    s1.exit.y = ((s1.mazeSize / 2 : Nat) : ℚ) + 1 / 2 ∧
    s1.score = s.score := by
  obtain ⟨m, es, items, ps, hm, _, _, rfl⟩ := nextLevel_parts h
  have hlo : 15 ≤ min (15 + (s.currentLevel + 1)) 25 := by omega
  have hhi : min (15 + (s.currentLevel + 1)) 25 ≤ 25 := by omega
  exact ⟨rfl, rfl, hlo, hhi, rfl, rfl, rfl, rfl, rfl, rfl, hm,
    generateMaze_hasSize hm (le_trans (by decide) hlo) (le_trans (by decide) hlo), rfl, rfl, rfl⟩

/-- Witness of C13: the level change from `twoEnemyState` (level 2, score 150). -/
theorem nextLevel_spec_witness :
    ∃ s1, nextLevel cornerDraws cornerDraws cornerDraws 1 twoEnemyState = some s1 ∧
      s1.currentLevel = 3 ∧ s1.mazeSize = 18 ∧ s1.score = 150 := by
  obtain ⟨s1, h⟩ := nextLevel_corner twoEnemyState
  have hs := nextLevel_spec cornerDraws cornerDraws cornerDraws 1 twoEnemyState s1 h
  exact ⟨s1, h, hs.1, hs.2.1, hs.2.2.2.2.2.2.2.2.2.2.2.2.2.2⟩

/-! ## Claims on the placement of entities -/

/-- C14: when the sampling loops of `generateCollectibles` end, on a grid with at least one
cell, the state holds `min(level, 3)` keys, `min(2 level, 10)` treasures and, for a level
above one, `min(level - 1, 2)` power-ups, none otherwise; every item is uncollected and
stands at the centre of a grid cell that is neither the cell of the player nor the cell of
the exit; every power-up has one of the three types of the array `types`. -/
theorem generateCollectibles_spec (rng : Rng) (fuel : Nat) (s s1 : GameState)
    (hsize : 0 < s.mazeSize) (h : generateCollectibles rng fuel s = some s1) :
    s1.collectibles.countP (fun item => decide (item.type = ItemType.key)) =
      min s.currentLevel 3 ∧
    s1.collectibles.countP (fun item => decide (item.type = ItemType.treasure)) =
      min (s.currentLevel * 2) 10 ∧
    s1.collectibles.length = min s.currentLevel 3 + min (s.currentLevel * 2) 10 ∧
    s1.powerUps.length = (if s.currentLevel ≤ 1 then 0 else min (s.currentLevel - 1) 2) ∧
    (∀ item ∈ s1.collectibles, item.collected = false ∧
      CentreOf s.mazeSize (FreeCell s.player.x s.player.y s.exit.x s.exit.y) item.x item.y) ∧
    (∀ p ∈ s1.powerUps, p.collected = false ∧
      (p.type = PowerType.speed ∨ p.type = PowerType.ghost ∨ p.type = PowerType.freeze) ∧
      (∃ i : Int, 0 ≤ i ∧ i < 3 ∧ p.type = powerTypeAt i) ∧
      CentreOf s.mazeSize (FreeCell s.player.x s.player.y s.exit.x s.exit.y) p.x p.y) := by
  obtain ⟨h1, h2, h3, h4, h5⟩ := generateCollectibles_items hsize h
  refine ⟨h1, h2, ?_, h3, h4, ?_⟩
  · have hsplit : ∀ l : List Collectible,
        l.countP (fun item => decide (item.type = ItemType.key)) +
          l.countP (fun item => decide (item.type = ItemType.treasure)) = l.length := by
      intro l
      induction l with
      | nil => rfl
      | cons a l ih =>
        cases hty : a.type <;> simp [List.countP_cons, hty] <;> omega
    rw [← hsplit, h1, h2]
  · intro p hp
    obtain ⟨a, b, c⟩ := h5 p hp
    refine ⟨a, ?_, b, c⟩
    cases p.type
    · exact Or.inl rfl
    · exact Or.inr (Or.inl rfl)
    · exact Or.inr (Or.inr rfl)

/-- Witness of C14: the items placed on level one with the draws `cornerDraws`. -/
theorem generateCollectibles_spec_witness :
    ∃ s1, generateCollectibles cornerDraws 1 (placeExit initialState) = some s1 ∧
      s1.collectibles.length = 3 ∧ s1.powerUps.length = 0 := by
  cases hgen : generateCollectibles cornerDraws 1 (placeExit initialState) with
  | none =>
    exact absurd hgen (generateCollectibles_corner_ne _ (by decide) rfl rfl (exit_floor _))
  | some s1 =>
    have hs := generateCollectibles_spec cornerDraws 1 (placeExit initialState) s1
      (by decide) hgen
    exact ⟨s1, rfl, hs.2.2.1, hs.2.2.2.1⟩

/-- C15: when the sampling loops of `generateEnemies` end, on a grid with at least one cell,
the state holds `floor(level / 2) + 1` enemies, each with speed 3/100 and at the centre of a
grid cell `(cx, cy)` for which `|cx - player.x| < 3` and `|cy - player.y| < 3` do not both
hold, and which therefore is outside the five by five block of cells around the player
cell. -/
theorem generateEnemies_spec (rng : Rng) (fuel : Nat) (s s1 : GameState)
    (hsize : 0 < s.mazeSize) (h : generateEnemies rng fuel s = some s1) :
    s1.enemies.length = s.currentLevel / 2 + 1 ∧
    ∀ e ∈ s1.enemies, e.speed = 3 / 100 ∧
      ∃ cx cy : Int, InGrid s.mazeSize s.mazeSize cx cy ∧
        e.x = (cx : ℚ) + 1 / 2 ∧ e.y = (cy : ℚ) + 1 / 2 ∧
        ¬ (|(cx : ℚ) - s.player.x| < 3 ∧ |(cy : ℚ) - s.player.y| < 3) ∧
        ¬ (|cx - ⌊s.player.x⌋| ≤ 2 ∧ |cy - ⌊s.player.y⌋| ≤ 2) := by
  obtain ⟨es, hes, rfl⟩ := generateEnemies_parts h
  obtain ⟨hlen, hall⟩ := generateEnemiesLoop_spec rng hsize _ _ fuel _ _ es hes
  refine ⟨hlen, ?_⟩
  intro e he
  obtain ⟨hsp, _, cx, cy, hg, hx, hy, haway⟩ := hall e he
  exact ⟨hsp, cx, cy, hg, hx, hy, haway.1, haway.2⟩

/-- Witness of C15: the enemy placed on level one with the draws `enemyDraws`. -/
theorem generateEnemies_spec_witness :
    0 < initialState.mazeSize ∧
    generateEnemies enemyDraws 1 initialState =
      some { initialState with enemies := [cornerEnemy] } ∧
    ({ initialState with enemies := [cornerEnemy] } : GameState).enemies.length =
      initialState.currentLevel / 2 + 1 :=
  ⟨by decide, generateEnemies_corner initialState rfl rfl rfl rfl,
    (generateEnemies_spec enemyDraws 1 initialState _ (by decide)
      (generateEnemies_corner initialState rfl rfl rfl rfl)).1⟩

/-! ## Claims on the timers -/

/-- C17: one call of `updatePlayerAnimation` keeps a progress within `[0, 1]` within
`[0, 1]`.  After a move is committed (progress 0, `moving` set), at the rate 2/25 the first
twelve calls leave `moving` set with progress `n * 2/25 < 1` and the thirteenth sets the
progress to 1, clears `moving` and puts the rendered position on the target; at the rate
4/25 of the speed power-up the same holds with six and seven calls; `easeOutCubic(1) = 1`. -/
theorem animation_completes (s : GameState) (hm : s.playerAnimation.moving = true)
    (hp : s.playerAnimation.progress = 0) :
    (∀ t : GameState, 0 ≤ t.playerAnimation.progress → t.playerAnimation.progress ≤ 1 →
      0 ≤ (updatePlayerAnimation t).playerAnimation.progress ∧
        (updatePlayerAnimation t).playerAnimation.progress ≤ 1) ∧
    (s.activePowerUp ≠ some PowerType.speed →
      (∀ n : Nat, n < 13 →
        (updatePlayerAnimation^[n] s).playerAnimation.moving = true ∧
        (updatePlayerAnimation^[n] s).playerAnimation.progress = (n : ℚ) * (2 / 25) ∧
        (updatePlayerAnimation^[n] s).playerAnimation.progress < 1) ∧
      (updatePlayerAnimation^[13] s).playerAnimation.moving = false ∧
      (updatePlayerAnimation^[13] s).playerAnimation.progress = 1 ∧
      (updatePlayerAnimation^[13] s).playerAnimation.x = s.playerAnimation.targetX ∧
      (updatePlayerAnimation^[13] s).playerAnimation.y = s.playerAnimation.targetY) ∧
    (s.activePowerUp = some PowerType.speed →
      (∀ n : Nat, n < 7 →
        (updatePlayerAnimation^[n] s).playerAnimation.moving = true ∧
        (updatePlayerAnimation^[n] s).playerAnimation.progress = (n : ℚ) * (4 / 25) ∧
        (updatePlayerAnimation^[n] s).playerAnimation.progress < 1) ∧
      (updatePlayerAnimation^[7] s).playerAnimation.moving = false ∧
      (updatePlayerAnimation^[7] s).playerAnimation.progress = 1 ∧
      (updatePlayerAnimation^[7] s).playerAnimation.x = s.playerAnimation.targetX ∧
      (updatePlayerAnimation^[7] s).playerAnimation.y = s.playerAnimation.targetY) ∧
    easeOutCubic 1 = 1 := by
  refine ⟨updatePlayerAnimation_progress, ?_, ?_, easeOutCubic_one⟩
  · intro hslow
    have hr : (if s.activePowerUp = some PowerType.speed then (4 / 25 : ℚ) else 2 / 25) =
        2 / 25 := if_neg hslow
    have hrun := updatePlayerAnimation_run s (2 / 25) hm hp hr
    constructor
    · intro n hn
      have hq : (n : ℚ) ≤ 12 := by exact_mod_cast (by omega : n ≤ 12)
      have hlt : (n : ℚ) * (2 / 25) < 1 := by linarith
      obtain ⟨_, _, _, h4, h5⟩ := hrun n hlt
      exact ⟨h4, h5, by rw [h5]; exact hlt⟩
    · obtain ⟨h1, h2, h3, h4, h5⟩ := hrun 12 (by norm_num)
      obtain ⟨_, _, _, _, hge⟩ := updatePlayerAnimation_step (updatePlayerAnimation^[12] s)
        (2 / 25) h4 (by rw [h1]; exact hr)
      have hdone := hge (by rw [h5]; norm_num)
      rw [show (13 : Nat) = 12 + 1 from rfl, Function.iterate_succ_apply']
      exact ⟨hdone.1, hdone.2.1, hdone.2.2.1.trans h2, hdone.2.2.2.trans h3⟩
  · intro hfast
    have hr : (if s.activePowerUp = some PowerType.speed then (4 / 25 : ℚ) else 2 / 25) =
        4 / 25 := if_pos hfast
    have hrun := updatePlayerAnimation_run s (4 / 25) hm hp hr
    constructor
    · intro n hn
      have hq : (n : ℚ) ≤ 6 := by exact_mod_cast (by omega : n ≤ 6)
      have hlt : (n : ℚ) * (4 / 25) < 1 := by linarith
      obtain ⟨_, _, _, h4, h5⟩ := hrun n hlt
      exact ⟨h4, h5, by rw [h5]; exact hlt⟩
    · obtain ⟨h1, h2, h3, h4, h5⟩ := hrun 6 (by norm_num)
      obtain ⟨_, _, _, _, hge⟩ := updatePlayerAnimation_step (updatePlayerAnimation^[6] s)
        (4 / 25) h4 (by rw [h1]; exact hr)
      have hdone := hge (by rw [h5]; norm_num)
      rw [show (7 : Nat) = 6 + 1 from rfl, Function.iterate_succ_apply']
      exact ⟨hdone.1, hdone.2.1, hdone.2.2.1.trans h2, hdone.2.2.2.trans h3⟩

/-- Witness of C17: the step to the right of `corridorState`, without a power-up. -/
theorem animation_completes_witness :
    movingState.playerAnimation.moving = true ∧ movingState.playerAnimation.progress = 0 ∧
    movingState.activePowerUp ≠ some PowerType.speed ∧
    (updatePlayerAnimation^[13] movingState).playerAnimation.moving = false ∧
    (updatePlayerAnimation^[13] movingState).playerAnimation.progress = 1 ∧
    (updatePlayerAnimation^[13] movingState).playerAnimation.x = 3 / 2 := by
  have hne : movingState.activePowerUp ≠ some PowerType.speed := by
    simp [movingState, commitMove, corridorState, initialState]
  have h := ((animation_completes movingState rfl rfl).2.1 hne).2
  exact ⟨rfl, rfl, hne, h.1, h.2.1, h.2.2.1⟩

/-- C16: after a pickup (power-up active, timer at 10) each of the first 600 calls of
`updatePowerUp` lowers the timer by exactly 1/60; before the 600th call the power-up is
still active with a positive timer, and the 600th call leaves the timer at 0 and clears the
power-up.  Frames that run to completion move the power-up and its timer exactly as these
calls do, and in every reachable state the timer lies between 0 and 10. -/
theorem powerUp_timer (trig : Trig) (s : GameState) (p : PowerType)
    (ha : s.activePowerUp = some p) (ht : s.powerUpTimer = 10) :
    (∀ n : Nat, n < 600 →
      (updatePowerUp^[n] s).activePowerUp = some p ∧
      (updatePowerUp^[n] s).powerUpTimer = 10 - (n : ℚ) / 60 ∧
      0 < (updatePowerUp^[n] s).powerUpTimer ∧
      (updatePowerUp^[n + 1] s).powerUpTimer = (updatePowerUp^[n] s).powerUpTimer - 1 / 60) ∧
    (updatePowerUp^[600] s).activePowerUp = none ∧
    (updatePowerUp^[600] s).powerUpTimer = 0 ∧
    (∀ l : List Rng, AllComplete trig l s →
      (runTicks trig l s).activePowerUp = (updatePowerUp^[l.length] s).activePowerUp ∧
      (runTicks trig l s).powerUpTimer = (updatePowerUp^[l.length] s).powerUpTimer) ∧
    (∀ t : GameState, Reachable trig t → 0 ≤ t.powerUpTimer ∧ t.powerUpTimer ≤ 10) := by
  have hrun := updatePowerUp_run s p ha ht
  have hcast : ∀ n : Nat, n ≤ 600 → ((600 - n : Nat) : ℚ) / 60 = 10 - (n : ℚ) / 60 := by
    intro n hn
    rw [Nat.cast_sub hn]
    push_cast
    ring
  refine ⟨?_, ?_, ?_, ?_, ?_⟩
  · intro n hn
    obtain ⟨h1, h2⟩ := hrun n (by omega)
    obtain ⟨g1, _⟩ := hrun (n + 1) (by omega)
    rw [if_neg (by omega)] at h2
    rw [hcast n (by omega)] at h1
    rw [hcast (n + 1) (by omega)] at g1
    have hq : (n : ℚ) ≤ 599 := by exact_mod_cast (by omega : n ≤ 599)
    refine ⟨h2, h1, ?_, ?_⟩
    · rw [h1]
      linarith
    · rw [g1, h1]
      push_cast
      ring
  · have h := (hrun 600 (le_refl _)).2
    rw [if_pos rfl] at h
    exact h
  · have h := (hrun 600 (le_refl _)).1
    rw [h]
    norm_num
  · intro l hall
    exact runTicks_power trig l s hall
  · intro t hreach
    obtain ⟨k, hk, htimer⟩ := reachable_timerOk hreach
    have hk0 : (0 : ℚ) ≤ (k : ℚ) := Nat.cast_nonneg k
    have hk1 : (k : ℚ) ≤ 600 := by exact_mod_cast hk
    rw [htimer]
    constructor
    · positivity
    · linarith

/-- Witness of C16: 600 frames of `boostState`, a state without enemies in which the speed
power-up has just been picked up. -/
theorem powerUp_timer_witness :
    boostState.activePowerUp = some PowerType.speed ∧ boostState.powerUpTimer = 10 ∧
    AllComplete sampleTrig (List.replicate 600 quietDraws) boostState ∧
    (runTicks sampleTrig (List.replicate 600 quietDraws) boostState).activePowerUp = none ∧
    (runTicks sampleTrig (List.replicate 600 quietDraws) boostState).powerUpTimer = 0 := by
  have h := powerUp_timer sampleTrig boostState PowerType.speed rfl rfl
  have hall := allComplete_no_enemies sampleTrig (List.replicate 600 quietDraws) boostState rfl
  obtain ⟨h1, h2⟩ := h.2.2.2.1 _ hall
  rw [List.length_replicate] at h1 h2
  exact ⟨rfl, rfl, hall, h1.trans h.2.1, h2.trans h.2.2.1⟩

/-! ## Claims on the ghost power-up -/

/-- C18: in `ghostState` the ghost power-up is active and `gameOver` is unset, and the call
of `updateEnemies` runs to its end and applies a catch all the same: the player goes from
`(11/2, 11/2)` to `(1/2, 1/2)` and the score from 150 to 140, where the claim has both
unchanged. -/
theorem ghost_gives_no_protection :
    ghostState.activePowerUp = some PowerType.ghost ∧ ghostState.gameOver = false ∧
    ghostState.player.x = 11 / 2 ∧ ghostState.player.y = 11 / 2 ∧ ghostState.score = 150 ∧
    (updateEnemies sampleTrig quietDraws ghostState).2 = true ∧
    (updateEnemies sampleTrig quietDraws ghostState).1.player.x = 1 / 2 ∧
    (updateEnemies sampleTrig quietDraws ghostState).1.player.y = 1 / 2 ∧
    (updateEnemies sampleTrig quietDraws ghostState).1.score = 140 ∧
    (updateEnemies sampleTrig quietDraws ghostState).1.player ≠ ghostState.player ∧
    (updateEnemies sampleTrig quietDraws ghostState).1.score ≠ ghostState.score := by
  rw [ghostState_frame, twoEnemyState_frame]
  have hsc : (catchPlayer twoEnemyState).score = 140 := by
    rw [catchPlayer_score]
    decide
  have hx : (catchPlayer twoEnemyState).player.x = 1 / 2 := rfl
  have hgx : ghostState.player.x = 11 / 2 := rfl
  refine ⟨rfl, rfl, rfl, rfl, rfl, rfl, rfl, rfl, hsc, ?_, ?_⟩
  · intro h
    have h1 : (catchPlayer twoEnemyState).player.x = ghostState.player.x :=
      congrArg Player.x h
    rw [hx, hgx] at h1
    norm_num at h1
  · show (catchPlayer twoEnemyState).score ≠ 150
    rw [hsc]
    decide

/-- The function `updateEnemies` reads `activePowerUp` for the freeze power-up alone: with
ghost active the call returns what it returns with no power-up active, the power fields
apart, and with freeze active it returns the state as it is. -/
theorem ghost_no_effect (trig : Trig) (rng : Rng) (s : GameState) :
    (s.activePowerUp = some PowerType.ghost →
      updateEnemies trig rng s =
        (withPower (some PowerType.ghost) s.powerUpTimer
            (updateEnemies trig rng (withPower none s.powerUpTimer s)).1,
          (updateEnemies trig rng (withPower none s.powerUpTimer s)).2)) ∧
    (s.activePowerUp = some PowerType.freeze → updateEnemies trig rng s = (s, true)) := by
  constructor
  · intro ha
    have hs : withPower (some PowerType.ghost) s.powerUpTimer
        (withPower none s.powerUpTimer s) = s := by
      rw [← ha]
      rfl
    have h := updateEnemies_withPower trig rng (some PowerType.ghost) s.powerUpTimer
      (withPower none s.powerUpTimer s) (by decide) (by simp [withPower])
    rw [hs] at h
    exact h
  · intro ha
    unfold updateEnemies
    rw [if_pos ha]

/-- The two cases of `ghost_no_effect` at `ghostState` and at `twoEnemyState` with the freeze
power-up. -/
theorem ghost_no_effect_witness :
    ghostState.activePowerUp = some PowerType.ghost ∧
    (updateEnemies sampleTrig quietDraws ghostState).1.score =
      (updateEnemies sampleTrig quietDraws (withPower none 10 twoEnemyState)).1.score ∧
    (withPower (some PowerType.freeze) 10 twoEnemyState).activePowerUp =
      some PowerType.freeze ∧
    updateEnemies sampleTrig quietDraws (withPower (some PowerType.freeze) 10 twoEnemyState) =
      (withPower (some PowerType.freeze) 10 twoEnemyState, true) := by
  refine ⟨rfl, ?_, rfl, (ghost_no_effect sampleTrig quietDraws _).2 rfl⟩
  rw [(ghost_no_effect sampleTrig quietDraws ghostState).1 rfl]
  rfl

/-! ## Claims on the win and on collected items -/

/-- Frames that run to completion award the win bonus once: in a state with `gameOver`
unset and the exit seven cells or more east of the start (every reachable state is such a
state), a frame that runs to its end with `checkExit` true there sets `gameOver` and leaves
the score exactly 100 above the score before the frame, and `gameOver` is set by a frame in
no other way.  While `gameOver` is set, a frame, a key press and a key release leave the
score and `gameOver` as they are, a key press picks nothing up, and `nextLevel` unsets
`gameOver` without a change of the score. -/
theorem win_bonus_completed (trig : Trig) (s : GameState) (hfar : ExitFar s) :
    (s.gameOver = false → ∀ rng : Rng,
      ((animate trig rng s).2 = true → checkExit (animate trig rng s).1 = true →
        (animate trig rng s).1.gameOver = true ∧
        (animate trig rng s).1.score = s.score + 100) ∧
      ((animate trig rng s).1.gameOver = true →
        (animate trig rng s).2 = true ∧ checkExit (animate trig rng s).1 = true ∧
        checkExit s = true ∧ (animate trig rng s).1.score = s.score + 100)) ∧
    (s.gameOver = true →
      (∀ rng : Rng, (animate trig rng s).1.score = s.score ∧
        (animate trig rng s).1.gameOver = true) ∧
      (∀ key : Key, (keyDown key s).1.score = s.score ∧ (keyDown key s).1.gameOver = true ∧
        (keyDown key s).1.keys = s.keys ∧ (keyDown key s).1.treasures = s.treasures ∧
        (keyDown key s).1.collectibles = s.collectibles ∧
        (keyDown key s).1.powerUps = s.powerUps) ∧
      (∀ key : Key, (keyUp key s).score = s.score ∧ (keyUp key s).gameOver = true) ∧
      (∀ (rm re rc : Rng) (fuel : Nat) (s1 : GameState),
        nextLevel rm re rc fuel s = some s1 → s1.gameOver = false ∧ s1.score = s.score)) ∧
    (∀ t : GameState, Reachable trig t → ExitFar t) := by
  refine ⟨?_, ?_, fun t ht => reachable_exitFar ht⟩
  · intro hgo rng
    obtain ⟨h1, h2⟩ := animate_win trig rng s hfar hgo
    refine ⟨fun hflag hc => ?_, h2⟩
    have hover := h1 hflag hc
    exact ⟨hover, (h2 hover).2.2.2⟩
  · intro hgo
    refine ⟨?_, ?_, ?_, ?_⟩
    · intro rng
      obtain ⟨a, b, _⟩ := animate_gameOver trig rng s hgo
      exact ⟨a, b⟩
    · intro key
      obtain ⟨a, b, c, d, _, e, f⟩ := keyDown_over key s hgo
      exact ⟨a, b, c, d, e, f⟩
    · intro key
      exact ⟨rfl, hgo⟩
    · intro rm re rc fuel s1 h
      obtain ⟨m, es, items, ps, _, _, _, rfl⟩ := nextLevel_parts h
      exact ⟨rfl, rfl⟩

/-- The frame of `winState`, where the player stands on the exit with both keys of level
two and no enemy is on the level: `gameOver` is set and the score goes from 250 to 350. -/
theorem win_bonus_completed_witness :
    ExitFar winState ∧ winState.gameOver = false ∧ winState.score = 250 ∧
    (animate sampleTrig quietDraws winState).2 = true ∧
    (animate sampleTrig quietDraws winState).1.gameOver = true ∧
    (animate sampleTrig quietDraws winState).1.score = 350 := by
  have hfar : ExitFar winState := by
    show (15 / 2 : ℚ) ≤ 17 / 2
    norm_num
  obtain ⟨hflag, _, hpl⟩ := animate_no_enemies sampleTrig quietDraws winState rfl
  have hlev := animate_sameLevel sampleTrig quietDraws winState
  have hc0 : checkExit winState = true := by
    have hd : (0 : ℚ) < 1 / 2 ∧
        ((17 / 2 : ℚ) - 17 / 2) ^ 2 + ((17 / 2 : ℚ) - 17 / 2) ^ 2 < 1 / 2 * (1 / 2) := by
      norm_num
    show (sqrtLt (((17 / 2 : ℚ) - 17 / 2) ^ 2 + ((17 / 2 : ℚ) - 17 / 2) ^ 2) (1 / 2) &&
      decide ((2 : Nat) = min 2 3)) = true
    unfold sqrtLt
    rw [decide_eq_true hd]
    rfl
  have hc : checkExit (animate sampleTrig quietDraws winState).1 = true :=
    (checkExit_congr hpl hlev.exit hlev.keys hlev.currentLevel).trans hc0
  obtain ⟨h1, h2⟩ := ((win_bonus_completed sampleTrig winState hfar).1 rfl quietDraws).1 hflag hc
  refine ⟨hfar, rfl, rfl, hflag, h1, ?_⟩
  rw [h2]
  rfl

/-- C11: in `faultWinState` the player stands on the exit with both keys of level two and
`gameOver` unset, so `checkExit` holds, and one enemy has left the grid.  The frame ends in
the `TypeError` of the lookup `maze[16][17]` in `isValidEnemyMove`, before the win check:
`checkExit` still holds after it, `gameOver` is still unset and the score is still 250,
where the claim has `gameOver` set and the score at 350. -/
theorem win_lost_to_fault :
    checkExit faultWinState = true ∧ faultWinState.gameOver = false ∧
    faultWinState.score = 250 ∧
    (animate sampleTrig quietDraws faultWinState).2 = false ∧
    checkExit (animate sampleTrig quietDraws faultWinState).1 = true ∧
    (animate sampleTrig quietDraws faultWinState).1.gameOver = false ∧
    (animate sampleTrig quietDraws faultWinState).1.score = 250 := by
  have hc : checkExit faultWinState = true :=
    (checkExit_congr rfl rfl rfl rfl).trans checkExit_winState
  have hu := updatePlayerAnimation_sameLevel faultWinState
  rw [faultWinState_frame]
  refine ⟨hc, rfl, rfl, rfl, ?_, ?_, ?_⟩
  · exact (checkExit_congr hu.2.2.1 hu.1.exit hu.1.keys hu.1.currentLevel).trans hc
  · exact hu.2.1.gameOver
  · exact updatePlayerAnimation_score faultWinState

/-- C19: in every reachable state `keys` is the number of key items with the flag
`collected` set and is at most `min(currentLevel, 3)`, and `treasures` is the number of
treasure items with the flag set.  A frame and a key release leave items, power-ups and
counters as they are; after a key press every item and power-up has its place and type and
a set flag is still set, each counter has risen by the number of flags of its type set by
the press, and the score by 50 for each such key and 25 for each such treasure.  The loops
of `checkCollectibles` and `checkPowerUps` pass an item with a set flag over: the state goes
on to the rest of the list as it is. -/
theorem collected_inert (trig : Trig) (s : GameState) (hr : Reachable trig s) :
    s.keys = collectedCount ItemType.key s.collectibles ∧
    s.keys ≤ min s.currentLevel 3 ∧
    s.treasures = collectedCount ItemType.treasure s.collectibles ∧
    (∀ rng : Rng, (animate trig rng s).1.collectibles = s.collectibles ∧
      (animate trig rng s).1.powerUps = s.powerUps ∧
      (animate trig rng s).1.keys = s.keys ∧ (animate trig rng s).1.treasures = s.treasures) ∧
    (∀ key : Key, (keyUp key s).collectibles = s.collectibles ∧
      (keyUp key s).powerUps = s.powerUps ∧ (keyUp key s).keys = s.keys ∧
      (keyUp key s).treasures = s.treasures ∧ (keyUp key s).score = s.score) ∧
    (∀ key : Key,
      List.Forall₂ KeptItem s.collectibles (keyDown key s).1.collectibles ∧
      List.Forall₂ KeptPower s.powerUps (keyDown key s).1.powerUps ∧
      (keyDown key s).1.keys + collectedCount ItemType.key s.collectibles =
        s.keys + collectedCount ItemType.key (keyDown key s).1.collectibles ∧
      (keyDown key s).1.treasures + collectedCount ItemType.treasure s.collectibles =
        s.treasures + collectedCount ItemType.treasure (keyDown key s).1.collectibles ∧
      (keyDown key s).1.score + 50 * (s.keys : Int) + 25 * (s.treasures : Int) =
        s.score + 50 * ((keyDown key s).1.keys : Int) +
          25 * ((keyDown key s).1.treasures : Int)) ∧
    (∀ (t : GameState) (item : Collectible) (rest : List Collectible),
      item.collected = true →
      checkCollectiblesLoop t (item :: rest) =
        ((checkCollectiblesLoop t rest).1, item :: (checkCollectiblesLoop t rest).2)) ∧
    (∀ (t : GameState) (p : PowerUp) (rest : List PowerUp), p.collected = true →
      checkPowerUpsLoop t (p :: rest) =
        ((checkPowerUpsLoop t rest).1, p :: (checkPowerUpsLoop t rest).2)) := by
  have hok := reachable_countersOk hr
  refine ⟨hok.keys, ?_, hok.treasures, ?_, ?_, ?_, checkCollectiblesLoop_skip,
    checkPowerUpsLoop_skip⟩
  · rw [hok.keys, ← hok.keyItems]
    exact collectedCount_le _ _
  · intro rng
    have hl := animate_sameLevel trig rng s
    exact ⟨hl.collectibles, hl.powerUps, hl.keys, hl.treasures⟩
  · intro key
    exact ⟨rfl, rfl, rfl, rfl, rfl⟩
  · intro key
    obtain ⟨h1, h2, _, h4, h5, h6⟩ := keyDown_counts key s
    exact ⟨h4, h5, h1, h2, h6⟩

/-- Witness of C19: the state after `init()` with the sample draws. -/
theorem collected_inert_witness :
    ∃ s, init cornerDraws enemyDraws cornerDraws 1 = some s ∧
      s.keys = collectedCount ItemType.key s.collectibles ∧ s.keys ≤ min s.currentLevel 3 := by
  obtain ⟨s, hs, _⟩ := init_corner
  have h := collected_inert sampleTrig s (Reachable.init _ _ _ _ hs)
  exact ⟨s, hs, h.1, h.2.1⟩

end Tunnel
